import Mathlib

/-!
Scene graph, transform hierarchy and draw traversal of `homework1`.

A shallow embedding of `hw1_VulkanglTFModel.h` and `homework1.cpp`.

* Scalars (`float`) are elements of a commutative ring `R`: arithmetic is exact, rounding,
  infinities and NaN are outside the model.  Concrete evaluations use `ℚ`.
* Where the nesting of a chain of matrix products matters (the comparison of
  `Node::getMatrix` with a top-down pass), the same code is embedded a second time over an
  arbitrary arithmetic `Arith` of the scalars.  Its instances are exact arithmetic and the
  binary32 arithmetic on `ℚ`: every operation is followed by rounding to the nearest number
  with a 24-bit significand, ties to even, with an unbounded exponent range.
* `glm::mat4` is `Matrix (Fin 4) (Fin 4) R` (entry `M r c` is row `r`, column `c`; glm stores
  `m[c][r]`), and glm's `operator*` is the matrix product.
* C++ pointers to nodes (`Node*`) are `Option Nat`: `none` is the null pointer, `some i` is the
  node stored at position `i` of the arena (`Heap`).  Dereferencing a pointer outside the arena
  has no result (`none`).
* Loops and recursions that follow pointers take a bound on the number of steps and have no
  result when the bound is exhausted.
-/

set_option linter.unusedSectionVars false

namespace VulkanglTFModel

/-- The type `glm::mat4`. -/
abbrev Mat4 (R : Type) := Matrix (Fin 4) (Fin 4) R

/-- The type `glm::vec3`. -/
structure Vec3 (R : Type) where
  x : R
  y : R
  z : R

/-- The type `glm::quat`. -/
structure Quat (R : Type) where
  w : R
  x : R
  y : R
  z : R

/-- The struct `Primitive` (lines 52-56): the data of a single draw call. -/
structure Primitive where
  firstIndex : Nat
  indexCount : Nat
  materialIndex : Int
deriving DecidableEq, Repr

/-- The struct `Mesh` (lines 59-98).  The field `mapped` is the pointer
`uniformBuffer.mapped`, the address of the mapped uniform buffer in device memory. -/
structure Mesh where
  primitives : List Primitive
  mapped : Nat
deriving DecidableEq, Repr

/-- The struct `Node` (lines 101-146). -/
structure Node (R : Type) where
  parent : Option Nat
  index : Nat
  children : List Nat
  mesh : Option Mesh
  matrix : Mat4 R
  translation : Vec3 R
  scale : Vec3 R
  rotation : Quat R

/-- The arena of nodes: a pointer `some i` designates the entry at position `i`. -/
abbrev Heap (R : Type) := List (Node R)

/-- The mapped device memory: the content of the uniform buffer mapped at each address. -/
abbrev Mem (R : Type) := Nat → Mat4 R

section glm

variable {R : Type} [CommRing R]

/-- The call `glm::translate(m, v)`: the columns 0 to 2 of `m` are kept, column 3 becomes
`m[0] * v[0] + m[1] * v[1] + m[2] * v[2] + m[3]`. -/
def glm.translate (m : Mat4 R) (v : Vec3 R) : Mat4 R :=
  fun r c => if c = 3 then m r 0 * v.x + m r 1 * v.y + m r 2 * v.z + m r 3 else m r c

/-- The call `glm::scale(m, v)`: column `c < 3` of `m` is multiplied by `v[c]`, column 3 is
kept. -/
def glm.scale (m : Mat4 R) (v : Vec3 R) : Mat4 R :=
  fun r c =>
    if c = 0 then m r 0 * v.x
    else if c = 1 then m r 1 * v.y
    else if c = 2 then m r 2 * v.z
    else m r 3

/-- The conversion `glm::mat4(q)` (`glm::mat4_cast`) of a quaternion. -/
def glm.mat4_cast (q : Quat R) : Mat4 R :=
  !![1 - 2 * (q.y * q.y + q.z * q.z), 2 * (q.x * q.y - q.w * q.z), 2 * (q.x * q.z + q.w * q.y), 0;
     2 * (q.x * q.y + q.w * q.z), 1 - 2 * (q.x * q.x + q.z * q.z), 2 * (q.y * q.z - q.w * q.x), 0;
     2 * (q.x * q.z - q.w * q.y), 2 * (q.y * q.z + q.w * q.x), 1 - 2 * (q.x * q.x + q.y * q.y), 0;
     0, 0, 0, 1]

end glm

section sceneGraph

variable {R : Type} [CommRing R]

/-- The method `Node::getLocalMatrix` (lines 113-116). -/
def Node.getLocalMatrix (n : Node R) : Mat4 R :=
  glm.translate (1 : Mat4 R) n.translation * glm.mat4_cast n.rotation
    * glm.scale (1 : Mat4 R) n.scale * n.matrix

/-- The loop `while (p) { m = p->getLocalMatrix() * m; p = p->parent; }` of
`Node::getMatrix` (lines 121-124), run for at most `gas` iterations. -/
def getMatrixLoop (h : Heap R) : Nat → Mat4 R → Option Nat → Option (Mat4 R)
  | _, m, none => some m
  | 0, _, some _ => none
  | gas + 1, m, some p =>
    match h[p]? with
    | none => none
    | some pn => getMatrixLoop h gas (pn.getLocalMatrix * m) pn.parent

/-- The method `Node::getMatrix` (lines 118-126) called on the node at `i`. -/
def getMatrix (gas : Nat) (h : Heap R) (i : Nat) : Option (Mat4 R) :=
  match h[i]? with
  | none => none
  | some n => getMatrixLoop h gas n.getLocalMatrix n.parent

/-- The chain of parent pointers from the pointer `p` up to a root ends after finitely many
steps: `ParentChain h p ns` holds when `ns` lists the nodes met, the root first and the node
designated by `p` last (`ns` is empty for the null pointer). -/
inductive ParentChain (h : Heap R) : Option Nat → List (Node R) → Prop
  | null : ParentChain h none []
  | step {i : Nat} {n : Node R} {ns : List (Node R)} :
      h[i]? = some n → ParentChain h n.parent ns → ParentChain h (some i) (ns ++ [n])

end sceneGraph

section traversal

variable {R : Type} [CommRing R]

/-- The commands recorded into a `VkCommandBuffer` by `homework1.cpp`.  Vulkan handles
(buffers, pipelines, layouts, descriptor sets, render passes, framebuffers) are numbers. -/
inductive Cmd (R : Type)
  | beginRenderPass (renderPass framebuffer : Nat) (width height : Int)
  | setViewport (width height : Int)
  | setScissor (width height : Int)
  | bindDescriptorSets (layout firstSet set : Nat)
  | bindPipeline (pipeline : Nat)
  | bindVertexBuffers (buffer : Nat)
  | bindIndexBuffer (buffer : Nat)
  | pushConstants (layout : Nat) (m : Mat4 R)
  | drawIndexed (indexCount instanceCount firstIndex : Nat) (vertexOffset : Int)
      (firstInstance : Nat)
  | draw (vertexCount instanceCount firstVertex firstInstance : Nat)
  | endRenderPass

/-- The command is a `vkCmdDrawIndexed`. -/
def Cmd.isDrawIndexed : Cmd R → Bool
  | .drawIndexed _ _ _ _ _ => true
  | _ => false

/-- The command is a `vkCmdPushConstants`. -/
def Cmd.isPushConstants : Cmd R → Bool
  | .pushConstants _ _ => true
  | _ => false

/-- The command is a `vkCmdBindDescriptorSets`. -/
def Cmd.isBindDescriptorSets : Cmd R → Bool
  | .bindDescriptorSets _ _ _ => true
  | _ => false

/-- The command is a `vkCmdBindVertexBuffers`. -/
def Cmd.isBindVertexBuffers : Cmd R → Bool
  | .bindVertexBuffers _ => true
  | _ => false

/-- The command is a `vkCmdBindIndexBuffer`. -/
def Cmd.isBindIndexBuffer : Cmd R → Bool
  | .bindIndexBuffer _ => true
  | _ => false

/-- The part of the class `VulkanglTFModel` read by the traversals: the handles of the shared
vertex and index buffers, the root nodes `nodes` and the arena holding every node. -/
structure Model (R : Type) where
  verticesBuffer : Nat
  indicesBuffer : Nat
  nodes : List Nat
  heap : Heap R

/-- The method `Node::update` (lines 127-136) called on the node at `i`: `gas` bounds the loop
of each `getMatrix`, the first numeric argument bounds the depth of the recursion.  The
`memcpy` into `mesh->uniformBuffer.mapped` overwrites the matrix stored at that address. -/
def update (gas : Nat) (h : Heap R) : Nat → Mem R → Nat → Option (Mem R)
  | 0, _, _ => none
  | fuel + 1, mem, i =>
    match h[i]? with
    | none => none
    | some n =>
      let written : Option (Mem R) :=
        match n.mesh with
        | some mesh =>
          match getMatrix gas h i with
          | some m => some (Function.update mem mesh.mapped m)
          | none => none
        | none => some mem
      match written with
      | none => none
      | some mem1 => n.children.foldlM (fun acc child => update gas h fuel acc child) mem1

/-- The loop over `node->mesh->primitives` of `renderSkyboxNode` (lines 187-192). -/
def drawPrimitives (cb : List (Cmd R)) (ps : List Primitive) : List (Cmd R) :=
  ps.foldl
    (fun acc primitive =>
      if primitive.indexCount > 0 then
        acc ++ [Cmd.drawIndexed primitive.indexCount 1 primitive.firstIndex 0 0]
      else acc)
    cb

/-- The method `VulkanExample::renderSkyboxNode` (lines 178-198): `cb` is the content of the
command buffer, the result is its content afterwards. -/
def renderSkyboxNode (gas : Nat) (h : Heap R) (pipelineLayout : Nat) :
    Nat → List (Cmd R) → Nat → Option (List (Cmd R))
  | 0, _, _ => none
  | fuel + 1, cb, i =>
    match h[i]? with
    | none => none
    | some node =>
      let own : Option (List (Cmd R)) :=
        match node.mesh with
        | some mesh =>
          if mesh.primitives.length > 0 then
            match getMatrix gas h i with
            | some nodeMatrix =>
              some (drawPrimitives (cb ++ [Cmd.pushConstants pipelineLayout nodeMatrix])
                mesh.primitives)
            | none => none
          else some cb
        | none => some cb
      match own with
      | none => none
      | some cb1 =>
        node.children.foldlM
          (fun acc child => renderSkyboxNode gas h pipelineLayout fuel acc child) cb1

/-- The method `VulkanExample::renderSkybox` (lines 169-177). -/
def renderSkybox (gas fuel : Nat) (model : Model R) (cb : List (Cmd R)) (pipelineLayout : Nat) :
    Option (List (Cmd R)) :=
  let cb1 := cb ++ [Cmd.bindVertexBuffers model.verticesBuffer]
  let cb2 := cb1 ++ [Cmd.bindIndexBuffer model.indicesBuffer]
  model.nodes.foldlM (fun acc node => renderSkyboxNode gas model.heap pipelineLayout fuel acc node)
    cb2

/-- The members of `VulkanExample` read by `buildCommandBuffers`. -/
structure VulkanExample (R : Type) where
  wireframe : Bool
  glTFModel : Model R
  skyboxModel : Model R
  pipelineSolid : Nat
  pipelineWireframe : Nat
  pipelineSkybox : Nat
  pipelineQuad : Nat
  layoutShaded : Nat
  layoutTextured : Nat
  setScene : Nat
  setSkybox : Nat
  setQuad : Nat
  offscreenWidth : Int
  offscreenHeight : Int
  offscreenFrameBuffer : Nat
  offscreenRenderPass : Nat
  renderPass : Nat
  frameBuffers : List Nat
  width : Int
  height : Int

/-- The skybox part of a command buffer (lines 231-234 of `buildCommandBuffers`): the bind of
`descriptorSets.skybox`, the bind of the skybox pipeline and the call of `renderSkybox`. -/
def recordSkyboxPass (gas fuel : Nat) (ex : VulkanExample R) (cb : List (Cmd R)) :
    Option (List (Cmd R)) :=
  let cb1 := cb ++ [Cmd.bindDescriptorSets ex.layoutShaded 0 ex.setSkybox]
  let cb2 := cb1 ++ [Cmd.bindPipeline ex.pipelineSkybox]
  renderSkybox gas fuel ex.skyboxModel cb2 ex.layoutShaded

/-- The body of the loop of `VulkanExample::buildCommandBuffers` (lines 206-278) for the command
buffer of the framebuffer `frameBuffer`.  The commands recorded by `glTFModel.draw` and by
`drawUI`, whose bodies are outside the source files, are the parameters `sceneDraw` and `ui`. -/
def recordCommandBuffer (gas fuel : Nat) (ex : VulkanExample R) (sceneDraw ui : List (Cmd R))
    (frameBuffer : Nat) : Option (List (Cmd R)) :=
  let cb0 : List (Cmd R) :=
    [Cmd.beginRenderPass ex.offscreenRenderPass ex.offscreenFrameBuffer ex.offscreenWidth
        ex.offscreenHeight,
      Cmd.setViewport ex.offscreenWidth ex.offscreenHeight,
      Cmd.setScissor ex.offscreenWidth ex.offscreenHeight]
  match recordSkyboxPass gas fuel ex cb0 with
  | none => none
  | some cb1 =>
    some (cb1
      ++ [Cmd.bindDescriptorSets ex.layoutShaded 0 ex.setScene,
          Cmd.bindPipeline (if ex.wireframe then ex.pipelineWireframe else ex.pipelineSolid)]
      ++ sceneDraw
      ++ [Cmd.endRenderPass,
          Cmd.beginRenderPass ex.renderPass frameBuffer ex.width ex.height,
          Cmd.setViewport ex.width ex.height,
          Cmd.setScissor ex.width ex.height,
          Cmd.bindDescriptorSets ex.layoutTextured 0 ex.setQuad,
          Cmd.bindPipeline ex.pipelineQuad,
          Cmd.draw 3 1 0 0]
      ++ ui
      ++ [Cmd.endRenderPass])

/-- The method `VulkanExample::buildCommandBuffers` (lines 200-280): one command buffer is
recorded for each framebuffer. -/
def buildCommandBuffers (gas fuel : Nat) (ex : VulkanExample R) (sceneDraw ui : List (Cmd R)) :
    Option (List (List (Cmd R))) :=
  ex.frameBuffers.mapM (fun fb => recordCommandBuffer gas fuel ex sceneDraw ui fb)

end traversal

section forest

variable {R : Type} [CommRing R]

/-- A finite forest of nodes, the abstract shape of a list of node pointers whose children
pointers unfold to trees: `cons i n kids rest` is the node `n` stored at `i`, followed by the
forest `kids` of its children and the forest `rest` of the siblings after it. -/
inductive Forest (R : Type)
  | nil
  | cons (i : Nat) (n : Node R) (kids rest : Forest R)

/-- The arena `h` holds the forest: `IsForest h p is f` says that the pointers `is` designate the
roots of `f` in this order, that every one of them has the parent pointer `p`, and that the
children of each node designate its sub-forest with the node as their parent. -/
inductive IsForest (h : Heap R) : Option Nat → List Nat → Forest R → Prop
  | nil (p : Option Nat) : IsForest h p [] Forest.nil
  | cons {p : Option Nat} {i : Nat} {n : Node R} {is : List Nat} {kids rest : Forest R} :
      h[i]? = some n → n.parent = p → IsForest h (some i) n.children kids → IsForest h p is rest →
      IsForest h p (i :: is) (Forest.cons i n kids rest)

/-- The number of levels of a forest. -/
def Forest.height : Forest R → Nat
  | .nil => 0
  | .cons _ _ kids rest => max (kids.height + 1) rest.height

/-- The nodes of a forest with their positions: each node before its children, the children
in order, then the following siblings. -/
def Forest.nodes : Forest R → List (Nat × Node R)
  | .nil => []
  | .cons i n kids rest => (i, n) :: (kids.nodes ++ rest.nodes)

/-- The addresses of the mapped uniform buffers of the mesh-bearing nodes of a forest. -/
def Forest.addrs (f : Forest R) : List Nat :=
  f.nodes.filterMap (fun e => e.2.mesh.map Mesh.mapped)

/-- The draw of one primitive: its index count and first index, one instance. -/
def primitiveDraw (p : Primitive) : Cmd R :=
  Cmd.drawIndexed p.indexCount 1 p.firstIndex 0 0

/-- The indexed draws of one node: one for each primitive of its mesh with a positive index
count, in the order of the array; none for a node without mesh. -/
def nodeDraws (n : Node R) : List (Cmd R) :=
  match n.mesh with
  | some mesh => (mesh.primitives.filter (fun p => decide (p.indexCount > 0))).map primitiveDraw
  | none => []

/-- The expected sequence of indexed draws: the roots in order, each node before its children,
the children in order, and for each node its draws. -/
def Forest.draws : Forest R → List (Cmd R)
  | .nil => []
  | .cons _ n kids rest => nodeDraws n ++ kids.draws ++ rest.draws

/-- The commands of one node whose world matrix is `world`: for a mesh with at least one
primitive, one push of `world` followed by the draws of the node; nothing otherwise. -/
def nodeCmds (pipelineLayout : Nat) (world : Mat4 R) (n : Node R) : List (Cmd R) :=
  match n.mesh with
  | some mesh =>
    if mesh.primitives.length > 0 then Cmd.pushConstants pipelineLayout world :: nodeDraws n
    else []
  | none => []

/-- The expected pushes and draws of a forest whose roots have the ancestors' product `w`:
the world matrix of a node is `w` times its local matrix. -/
def Forest.cmds (pipelineLayout : Nat) : Mat4 R → Forest R → List (Cmd R)
  | _, .nil => []
  | w, .cons _ n kids rest =>
    nodeCmds pipelineLayout (w * n.getLocalMatrix) n
      ++ kids.cmds pipelineLayout (w * n.getLocalMatrix)
      ++ rest.cmds pipelineLayout w

/-- The node has a mesh whose list of primitives is not empty (the guard of lines 180-181). -/
def Node.hasPrimitives (n : Node R) : Bool :=
  match n.mesh with
  | some mesh => decide (mesh.primitives.length > 0)
  | none => false

/-- The nodes of a forest in the order of the traversal, each with its world matrix, where `w`
is the product of the local matrices of the ancestors of the roots. -/
def Forest.worlds : Mat4 R → Forest R → List (Mat4 R × Node R)
  | _, .nil => []
  | w, .cons _ n kids rest =>
    (w * n.getLocalMatrix, n) :: (kids.worlds (w * n.getLocalMatrix) ++ rest.worlds w)

/-- The number of nodes of a forest that have a mesh with at least one primitive. -/
def Forest.pushCount (f : Forest R) : Nat :=
  (f.nodes.filter (fun e => e.2.hasPrimitives)).length

/-- Every indexed draw of the list directly follows a push, where `prevIsPush` tells whether
the command before the list is a push. -/
def drawsFollowPush (prevIsPush : Bool) : List (Cmd R) → Bool
  | [] => true
  | c :: cs => (!c.isDrawIndexed || prevIsPush) && drawsFollowPush c.isPushConstants cs

end forest

section animation

/-- The type `glm::vec4`. -/
structure Vec4 (R : Type) where
  x : R
  y : R
  z : R
  w : R

/-- The value `std::numeric_limits<float>::max()`, the largest finite `float`:
`(2 ^ 24 - 1) * 2 ^ 104`. -/
def FLT_MAX : ℚ := (2 ^ 24 - 1) * 2 ^ 104

/-- The value `std::numeric_limits<float>::min()`, the smallest positive normalized `float`:
`2 ^ (-126)`. -/
def FLT_MIN : ℚ := 1 / 2 ^ 126

/-- The struct `AnimationSampler` (lines 172-177).  Finite `float` times are rationals. -/
structure AnimationSampler where
  interpolation : String
  inputs : List ℚ
  outputsVec4 : List (Vec4 ℚ)

/-- The struct `AnimationChannel` (lines 179-184). -/
structure AnimationChannel where
  path : String
  node : Option Nat
  samplerIndex : Nat

/-- The struct `Animation` (lines 186-194) with its member initializers; the member `end` is
named `end_`. -/
structure Animation where
  name : String
  samplers : List AnimationSampler
  channels : List AnimationChannel
  start : ℚ := FLT_MAX
  end_ : ℚ := FLT_MIN
  currentTime : ℚ := 0

/-- The input times of all samplers of an animation. -/
def Animation.inputTimes (a : Animation) : List ℚ :=
  a.samplers.flatMap AnimationSampler.inputs

/-- Modelled from the spec: the body of `loadAnimations` is not in the source files.  The
bounds `[start, end]` are computed as the min and the max of all sampler input times: every
input time is accumulated with `min` into `start` and with `max` into `end`, starting from the
values the animation already has. -/
def Animation.accumulateBounds (a : Animation) : Animation :=
  a.samplers.foldl
    (fun acc sampler =>
      sampler.inputs.foldl
        (fun acc2 input =>
          { acc2 with start := min acc2.start input, end_ := max acc2.end_ input })
        acc)
    a

/-- The function `fmod` on exact values: `x - y * n` where `n` is the quotient `x / y`
rounded toward zero. -/
def fmod (x y : ℚ) : ℚ :=
  x - y * (if 0 ≤ x / y then ⌊x / y⌋ else ⌈x / y⌉)

/-- Modelled from the spec: the body of `updateAnimation` is not in the source files.  Step 1
of the tick: `currentTime += deltaTime`; if `currentTime > end`, wrap via
`currentTime = start + ((currentTime - start) mod (end - start))`. -/
def Animation.updateAnimationTime (a : Animation) (deltaTime : ℚ) : Animation :=
  let t := a.currentTime + deltaTime
  { a with
    currentTime :=
      if t > a.end_ then a.start + fmod (t - a.start) (a.end_ - a.start) else t }

end animation

section topDown

variable {R : Type} [CommRing R]

/-- The loop of `Node::getMatrix` (lines 121-124) with a counter of the executions of
`m = p->getLocalMatrix() * m`. -/
def getMatrixLoopCount (h : Heap R) : Nat → Mat4 R → Nat → Option Nat → Option (Mat4 R × Nat)
  | _, m, k, none => some (m, k)
  | 0, _, _, some _ => none
  | gas + 1, m, k, some p =>
    match h[p]? with
    | none => none
    | some pn => getMatrixLoopCount h gas (pn.getLocalMatrix * m) (k + 1) pn.parent

/-- The method `Node::getMatrix` (lines 118-126) together with the number of matrix products
of its loop. -/
def getMatrixCount (gas : Nat) (h : Heap R) (i : Nat) : Option (Mat4 R × Nat) :=
  match h[i]? with
  | none => none
  | some n => getMatrixLoopCount h gas n.getLocalMatrix 0 n.parent

/-- The top-down pass of the design notes, a second way to refresh the uniform buffers: the
world matrix of the parent is known when a node is visited, the world matrix of the node is
`parentWorld * getLocalMatrix`, it is written to the mapped buffer of a mesh-bearing node and
handed to the children. -/
def refreshTopDown (h : Heap R) : Nat → Mat4 R → Mem R → Nat → Option (Mem R)
  | 0, _, _, _ => none
  | fuel + 1, parentWorld, mem, i =>
    match h[i]? with
    | none => none
    | some n =>
      let world := parentWorld * n.getLocalMatrix
      let mem1 : Mem R :=
        match n.mesh with
        | some mesh => Function.update mem mesh.mapped world
        | none => mem
      n.children.foldlM (fun acc child => refreshTopDown h fuel world acc child) mem1

/-- The mapped memory after the world matrices of a forest are written in the order of the
traversal, where `w` is the product of the local matrices of the ancestors of the roots. -/
def Forest.write : Mat4 R → Forest R → Mem R → Mem R
  | _, .nil, mem => mem
  | w, .cons _ n kids rest, mem =>
    rest.write w
      (kids.write (w * n.getLocalMatrix)
        (match n.mesh with
          | some mesh => Function.update mem mesh.mapped (w * n.getLocalMatrix)
          | none => mem))

/-- The nodes of a forest in the order of the traversal, each with its position and its world
matrix, where `w` is the product of the local matrices of the ancestors of the roots. -/
def Forest.worldsAt : Mat4 R → Forest R → List (Nat × Mat4 R × Node R)
  | _, .nil => []
  | w, .cons i n kids rest =>
    (i, w * n.getLocalMatrix, n) :: (kids.worldsAt (w * n.getLocalMatrix) ++ rest.worldsAt w)

/-- The indexed draws of a command list, each with the matrix of the most recent push before
it (`cur` is the matrix pushed last before the list, if any). -/
def drawsWithLastPush : Option (Mat4 R) → List (Cmd R) → List (Option (Mat4 R) × Cmd R)
  | _, [] => []
  | cur, c :: cs =>
    match c with
    | .pushConstants _ m => drawsWithLastPush (some m) cs
    | .drawIndexed a b d e g => (cur, Cmd.drawIndexed a b d e g) :: drawsWithLastPush cur cs
    | _ => drawsWithLastPush cur cs

end topDown

section defaults

variable {R : Type} [CommRing R]

/-- The member initializer `glm::vec3 translation{}` of `Node` (line 109). -/
def Node.translationDefault : Vec3 R := ⟨0, 0, 0⟩

/-- The member initializer `glm::vec3 scale{ 1.0f }` of `Node` (line 110). -/
def Node.scaleDefault : Vec3 R := ⟨1, 1, 1⟩

/-- The member initializer `glm::quat rotation{}` of `Node` (line 111).  With the defaulted
constructor of glm the value-initialization sets every component to zero; when glm is built
to initialize in its constructors (`ctorInit`) the value is the identity quaternion
`w = 1`. -/
def Node.rotationDefault (ctorInit : Bool) : Quat R :=
  if ctorInit then ⟨1, 0, 0, 0⟩ else ⟨0, 0, 0, 0⟩

end defaults

section frame

/-- The steps of one call of `VulkanExample::render`: the submission of the frame
(`renderFrame`), the refresh of the scene uniform buffers and the animation tick. -/
inductive FrameStep
  | renderFrame
  | updateUniformBuffers
  | updateAnimation (deltaTime : ℚ)
deriving DecidableEq

/-- The method `VulkanExample::render` (lines 795-805): the steps it performs, in order. -/
def render (cameraUpdated paused : Bool) (frameTimer : ℚ) : List FrameStep :=
  [FrameStep.renderFrame]
    ++ (if cameraUpdated then [FrameStep.updateUniformBuffers] else [])
    ++ (if !paused then [FrameStep.updateAnimation frameTimer] else [])

end frame

section materials

/-- The struct `Texture` (lines 168-170). -/
structure Texture where
  imageIndex : Int
deriving DecidableEq, Repr

/-- The struct `Material` (lines 149-157). -/
structure Material where
  baseColorFactor : Vec4 ℚ := ⟨1, 1, 1, 1⟩
  baseColorTextureIndex : Nat
  normalTextureIndex : Nat
  aoTextureIndex : Nat
  metallicRoughnessTextureIndex : Nat
  descriptorSet : Nat := 0

/-- One `VkWriteDescriptorSet` of type combined image sampler: the destination set, the
binding, the descriptor count and the image descriptor it points to. -/
structure ImageWrite (α : Type) where
  dstSet : Nat
  dstBinding : Nat
  descriptorCount : Nat
  imageInfo : α

/-- The expression `images[textures[textureIndex].imageIndex].texture.descriptor` (lines
614-617): `images` lists the descriptors of the images; an index outside a vector has no
result. -/
def textureImage {α : Type} (images : List α) (textures : List Texture) (textureIndex : Nat) :
    Option α :=
  match textures[textureIndex]? with
  | none => none
  | some texture => if texture.imageIndex < 0 then none else images[texture.imageIndex.toNat]?

/-- The vector `imageDescriptors` of a material (lines 613-618). -/
def imageDescriptors {α : Type} (images : List α) (textures : List Texture)
    (material : Material) : Option (List α) :=
  match textureImage images textures material.baseColorTextureIndex,
    textureImage images textures material.normalTextureIndex,
    textureImage images textures material.aoTextureIndex,
    textureImage images textures material.metallicRoughnessTextureIndex with
  | some d0, some d1, some d2, some d3 => some [d0, d1, d2, d3]
  | _, _, _, _ => none

/-- The writes of one material (lines 620-629): entry `i` of `imageDescriptors` is written to
binding `i` of the descriptor set of the material. -/
def materialWrites {α : Type} (images : List α) (textures : List Texture)
    (material : Material) : Option (List (ImageWrite α)) :=
  match imageDescriptors images textures material with
  | none => none
  | some ds => some (ds.enum.map (fun e => ⟨material.descriptorSet, e.1, 1, e.2⟩))

/-- The loop over the materials of `setupDescriptors` (lines 609-630): the writes passed to
`vkUpdateDescriptorSets` for each material. -/
def setupMaterialDescriptors {α : Type} (images : List α) (textures : List Texture)
    (materials : List Material) : Option (List (List (ImageWrite α))) :=
  materials.mapM (fun material => materialWrites images textures material)

/-- The texture slot `textureIndex` resolves to the image descriptor `d`: the texture exists,
its image index is not negative and designates `d` in `images`. -/
def SlotImage {α : Type} (images : List α) (textures : List Texture) (textureIndex : Nat)
    (d : α) : Prop :=
  ∃ texture, textures[textureIndex]? = some texture ∧ 0 ≤ texture.imageIndex
    ∧ images[texture.imageIndex.toNat]? = some d

/-- The texture slot `textureIndex` is in range: it is below `textures.size()` and the image
index of the texture lies in `[0, images.size())`. -/
def SlotInRange {α : Type} (images : List α) (textures : List Texture) (textureIndex : Nat) :
    Prop :=
  ∃ texture, textures[textureIndex]? = some texture ∧ 0 ≤ texture.imageIndex
    ∧ texture.imageIndex.toNat < images.length

/-- The texture references of a material of the parsed document: `none` is an absent
slot. -/
structure GltfMaterial where
  baseColorTexture : Option Nat
  normalTexture : Option Nat
  occlusionTexture : Option Nat
  metallicRoughnessTexture : Option Nat

/-- Modelled from the spec: the body of `loadMaterials` is not in the source files.  Each of
the four texture slots of a material is resolved to the index declared in the document, and
an absent slot is substituted with the configured default index. -/
def loadMaterial (defaultIndex : Nat) (gm : GltfMaterial) : Material :=
  { baseColorTextureIndex := gm.baseColorTexture.getD defaultIndex,
    normalTextureIndex := gm.normalTexture.getD defaultIndex,
    aoTextureIndex := gm.occlusionTexture.getD defaultIndex,
    metallicRoughnessTextureIndex := gm.metallicRoughnessTexture.getD defaultIndex }

/-- Modelled from the spec: the body of `loadMaterials` is not in the source files.  Every
material of the document is loaded, in order; no input makes the load fail. -/
def loadMaterials (defaultIndex : Nat) (input : List GltfMaterial) : List Material :=
  input.map (loadMaterial defaultIndex)

end materials

section channels

/-- The function `glm::mix(x, y, a)` on scalars: `x * (1 - a) + y * a`. -/
def glm.mix (x y a : ℚ) : ℚ := x * (1 - a) + y * a

/-- The function `glm::mix` on `glm::vec4`, component by component. -/
def glm.mix4 (v1 v2 : Vec4 ℚ) (a : ℚ) : Vec4 ℚ :=
  ⟨glm.mix v1.x v2.x a, glm.mix v1.y v2.y a, glm.mix v1.z v2.z a, glm.mix v1.w v2.w a⟩

/-- The conversion of a `glm::vec4` to a `glm::vec3`: the first three components. -/
def Vec4.xyz {R : Type} (v : Vec4 R) : Vec3 R := ⟨v.x, v.y, v.z⟩

/-- The quaternion stored in a keyframe output: `x, y, z, w` in this order. -/
def Vec4.toQuat {R : Type} (v : Vec4 R) : Quat R := ⟨v.w, v.x, v.y, v.z⟩

/-- The dot product of two quaternions. -/
def Quat.dot (a b : Quat ℚ) : ℚ := a.w * b.w + a.x * b.x + a.y * b.y + a.z * b.z

/-- The opposite quaternion. -/
def Quat.neg (q : Quat ℚ) : Quat ℚ := ⟨-q.w, -q.x, -q.y, -q.z⟩

/-- The blend of `glm::slerp` once the shortest path is chosen: `cosTheta` is the cosine of
the angle between `x` and `z`.  Above `1 - eps` the blend is linear, component by component;
otherwise it is the trigonometric blend
`(sin((1 - a) * angle) * x + sin(a * angle) * z) / sin(angle)`, which is not a rational
function and is the parameter `arc`. -/
def glm.slerpBlend (arc : Quat ℚ → Quat ℚ → ℚ → ℚ → Quat ℚ) (eps : ℚ) (x z : Quat ℚ)
    (cosTheta a : ℚ) : Quat ℚ :=
  if cosTheta > 1 - eps then
    ⟨glm.mix x.w z.w a, glm.mix x.x z.x a, glm.mix x.y z.y a, glm.mix x.z z.z a⟩
  else arc x z cosTheta a

/-- Modelled from the spec: the body of `updateAnimation` is not in the source files.  The
spherical linear interpolation with the shortest-path correction, as `glm::slerp` does it: if
the dot product of the two quaternions is negative, the second one is negated before the
blend. -/
def glm.slerp (arc : Quat ℚ → Quat ℚ → ℚ → ℚ → Quat ℚ) (eps : ℚ) (x y : Quat ℚ) (a : ℚ) :
    Quat ℚ :=
  if Quat.dot x y < 0 then glm.slerpBlend arc eps x (Quat.neg y) (-Quat.dot x y) a
  else glm.slerpBlend arc eps x y (Quat.dot x y) a

/-- Modelled from the spec: the body of `updateAnimation` is not in the source files.  The
linear search of the bracketing interval `[t_i, t_{i+1}]` containing the time `t`: the result
is `output[i]`, `output[i+1]` and `u = (t - t_i) / (t_{i+1} - t_i)` for the first such
interval. -/
def bracket (t : ℚ) : List ℚ → List (Vec4 ℚ) → Option (Vec4 ℚ × Vec4 ℚ × ℚ)
  | ti :: tj :: ts, v1 :: v2 :: vs =>
    if ti ≤ t ∧ t ≤ tj then some (v1, v2, (t - ti) / (tj - ti))
    else bracket t (tj :: ts) (v2 :: vs)
  | _, _ => none

/-- Modelled from the spec: the body of `updateAnimation` is not in the source files.  The
keyframe values and the blend factor of a sampler at the time `t`: before the first keyframe
the first value is used (clamp), otherwise those of the bracketing interval. -/
def AnimationSampler.keys (s : AnimationSampler) (t : ℚ) : Option (Vec4 ℚ × Vec4 ℚ × ℚ) :=
  match s.inputs.head?, s.outputsVec4.head? with
  | some t0, some v0 => if t < t0 then some (v0, v0, 0) else bracket t s.inputs s.outputsVec4
  | _, _ => none

/-- Modelled from the spec: the body of `updateAnimation` is not in the source files.  Steps
2 to 4 of the tick for one channel whose sampler is LINEAR: the value interpolated at
`currentTime` is written into the target field of the target node, a component-wise linear
blend for translation and scale, `glm::slerp` for rotation.  A channel with missing data
leaves the node unchanged. -/
def applyLinearChannel (arc : Quat ℚ → Quat ℚ → ℚ → ℚ → Quat ℚ) (eps : ℚ) (h : Heap ℚ)
    (a : Animation) (c : AnimationChannel) : Heap ℚ :=
  match a.samplers[c.samplerIndex]?, c.node with
  | some s, some target =>
    match h[target]?, s.keys a.currentTime with
    | some n, some (v1, v2, u) =>
      if c.path = "translation" then
        h.set target { n with translation := (glm.mix4 v1 v2 u).xyz }
      else if c.path = "rotation" then
        h.set target { n with rotation := glm.slerp arc eps v1.toQuat v2.toQuat u }
      else if c.path = "scale" then
        h.set target { n with scale := (glm.mix4 v1 v2 u).xyz }
      else h
    | _, _ => h
  | _, _ => h

end channels

section loader

/-- A node of the parsed document, reduced to what the hierarchy needs: the list of the
indices of its children. -/
structure GltfNode where
  children : List Nat

/-- The node object created for the document node `nodeIndex` below `parent`, with the
children `children`; transform and mesh are left neutral and absent. -/
def loadedNode (parent : Option Nat) (nodeIndex : Nat) (children : List Nat) : Node ℚ :=
  Node.mk parent nodeIndex children none 1 ⟨0, 0, 0⟩ ⟨1, 1, 1⟩ ⟨1, 0, 0, 0⟩

/-- The statement `parent->children.push_back(...)` for each of `cs`, on the node at `p`. -/
def pushChildren : Heap ℚ → Nat → List Nat → Heap ℚ
  | [], _, _ => []
  | n :: h, 0, cs => { n with children := n.children ++ cs } :: h
  | n :: h, p + 1, cs => n :: pushChildren h p cs

/-- Modelled from the spec: the body of `loadNode` is not in the source files, its signature
is.  The hierarchy part of `loadNode(inputNode, input, parent, nodeIndex, ...)`: a new node
with the given parent pointer and index is created, the children listed by the document are
loaded below it in order, and the node is appended to the children of its parent, or to the
root list `nodes` when it has no parent.  An index outside the document is fatal, and a
description with a cycle exhausts every bound: both give no result.  The state is the arena
and the list `nodes`. -/
def loadNode (input : List GltfNode) :
    Nat → Heap ℚ × List Nat → Option Nat → Nat → Option (Heap ℚ × List Nat)
  | 0, _, _, _ => none
  | fuel + 1, (h, nodes), parent, nodeIndex =>
    match input[nodeIndex]? with
    | none => none
    | some inputNode =>
      match inputNode.children.foldlM
          (fun st child => loadNode input fuel st (some h.length) child)
          (h ++ [loadedNode parent nodeIndex []], nodes) with
      | none => none
      | some (h2, nodes2) =>
        match parent with
        | some p => some (pushChildren h2 p [h.length], nodes2)
        | none => some (h2, nodes2 ++ [h.length])

/-- Modelled from the spec: the body of `loadFromFile` is not in the source files.  The
nodes of the scene are loaded in order as roots, into an empty arena. -/
def loadScene (input : List GltfNode) (fuel : Nat) (sceneNodes : List Nat) :
    Option (Heap ℚ × List Nat) :=
  sceneNodes.foldlM (fun st nodeIndex => loadNode input fuel st none nodeIndex) ([], [])

/-- The shape of a children-index description below a list of indices: `cons i kids rest` is
the document node `i`, the shape `kids` below its children, and the shape `rest` of the
indices listed after it. -/
inductive Shape
  | nil
  | cons (index : Nat) (kids rest : Shape)

/-- The description unfolds to a finite shape: every listed index is a node of the document
and its children unfold in turn (no index out of range, no cycle). -/
inductive DocForest (input : List GltfNode) : List Nat → Shape → Prop
  | nil : DocForest input [] Shape.nil
  | cons {i : Nat} {gn : GltfNode} {is : List Nat} {kids rest : Shape} :
      input[i]? = some gn → DocForest input gn.children kids → DocForest input is rest →
      DocForest input (i :: is) (Shape.cons i kids rest)

/-- The number of levels of a shape. -/
def Shape.height : Shape → Nat
  | .nil => 0
  | .cons _ kids rest => max (kids.height + 1) rest.height

/-- The number of nodes of a shape. -/
def Shape.size : Shape → Nat
  | .nil => 0
  | .cons _ kids rest => 1 + kids.size + rest.size

/-- The document indices of the nodes of a shape, each node before its children. -/
def Shape.indices : Shape → List Nat
  | .nil => []
  | .cons i kids rest => i :: (kids.indices ++ rest.indices)

/-- The positions in the arena of the roots of a shape loaded from the position `base`
on. -/
def rootAddrs (base : Nat) : Shape → List Nat
  | .nil => []
  | .cons _ kids rest => base :: rootAddrs (base + 1 + kids.size) rest

/-- The nodes created for a shape loaded from the position `base` on, below `parent`. -/
def layout (base : Nat) (parent : Option Nat) : Shape → Heap ℚ
  | .nil => []
  | .cons i kids rest =>
    loadedNode parent i (rootAddrs (base + 1) kids)
      :: (layout (base + 1) (some base) kids ++ layout (base + 1 + kids.size) parent rest)

/-- The forest of the nodes created for a shape loaded from the position `base` on. -/
def forestOf (base : Nat) (parent : Option Nat) : Shape → Forest ℚ
  | .nil => .nil
  | .cons i kids rest =>
    .cons base (loadedNode parent i (rootAddrs (base + 1) kids))
      (forestOf (base + 1) (some base) kids) (forestOf (base + 1 + kids.size) parent rest)

/-- The children pushed to the node designated by `parent`, if any. -/
def pushTo (parent : Option Nat) (cs : List Nat) (h : Heap ℚ) : Heap ℚ :=
  match parent with
  | some p => pushChildren h p cs
  | none => h

end loader

section frameEffect

variable {R : Type} [CommRing R]

/-- The state `Node::update` runs in: the arena of nodes and the mapped device memory. -/
structure World (R : Type) where
  heap : Heap R
  mem : Mem R

/-- The method `Node::update` (lines 127-136) as a transformer of the whole state.  Its body
stores only through the `memcpy` into `mesh->uniformBuffer.mapped`; no statement assigns a
field of a node, so the arena is handed back as it was received. -/
def updateWorld (gas fuel : Nat) (w : World R) (i : Nat) : Option (World R) :=
  match update gas w.heap fuel w.mem i with
  | none => none
  | some mem1 => some ⟨w.heap, mem1⟩

end frameEffect

section descriptorPool

variable {R : Type} [CommRing R]

/-- The loop of lines 504-509 of `setupDescriptors`: the `uint32_t` counter `meshCount` of
the nodes of `linearNodes` that have a mesh. -/
def meshCount (h : Heap R) (linearNodes : List Nat) : Option Nat :=
  linearNodes.foldlM
    (fun count node =>
      match h[node]? with
      | none => none
      | some n => if n.mesh.isSome then some ((count + 1) % 2 ^ 32) else some count)
    0

/-- The constant `maxSetCount` of line 517:
`static_cast<uint32_t>(glTFModel.images.size()) + 1 + meshCount + 200` in `uint32_t`
arithmetic. -/
def maxSetCount (imagesSize meshCount : Nat) : Nat :=
  (imagesSize % 2 ^ 32 + 1 + meshCount + 200) % 2 ^ 32

/-- The method `VulkanExample::setupNodeDescriptorSet` (lines 468-497), reduced to the number
of descriptor sets allocated from the pool: `allocated` is the number before the call, the
result is the number after it.  One set is allocated for a node with a mesh, then the
children are visited. -/
def setupNodeDescriptorSet (h : Heap R) : Nat → Nat → Nat → Option Nat
  | 0, _, _ => none
  | fuel + 1, allocated, i =>
    match h[i]? with
    | none => none
    | some node =>
      node.children.foldlM (fun acc child => setupNodeDescriptorSet h fuel acc child)
        (if node.mesh.isSome then allocated + 1 else allocated)

/-- The descriptor sets that `setupDescriptors` allocates from the pool (lines 590-652): the
sets of the nodes reached from `glTFModel.nodes`, the scene set, one set per material, the
skybox set and the quad set. -/
def setupDescriptors_allocated (fuel : Nat) (h : Heap R) (nodes : List Nat)
    (materialsSize : Nat) : Option Nat :=
  match nodes.foldlM (fun acc node => setupNodeDescriptorSet h fuel acc node) 0 with
  | none => none
  | some perNode => some (perNode + 1 + materialsSize + 1 + 1)

end descriptorPool

section flags

/-- The enum `FileLoadingFlags` (lines 17-23). -/
inductive FileLoadingFlags
  | None
  | PreTransformVertices
  | PreMultiplyVertexColors
  | FlipY
  | DontLoadImages
deriving DecidableEq, Repr

/-- The values of the enumerators of `FileLoadingFlags`. -/
def FileLoadingFlags.value : FileLoadingFlags → Nat
  | .None => 0x00000000
  | .PreTransformVertices => 0x00000001
  | .PreMultiplyVertexColors => 0x00000002
  | .FlipY => 0x00000004
  | .DontLoadImages => 0x00000008

/-- The `uint32_t fileLoadingFlags` obtained by combining the listed options with `|`. -/
def FileLoadingFlags.mask (options : List FileLoadingFlags) : Nat :=
  options.foldl (fun m o => m ||| o.value) 0

end flags

section arithmetic

/-- An arithmetic of the scalar type `float`: the operations `+`, `-`, `*` and the constants
0, 1 and 2 that `Node::getLocalMatrix`, `Node::getMatrix` and the glm functions they call
apply to scalars.  No law is assumed of the operations. -/
structure Arith (S : Type) where
  add : S → S → S
  sub : S → S → S
  mul : S → S → S
  zero : S
  one : S
  two : S

/-- The number of binary digits of `n`, computed with at most `fuel` halvings (`fuel = n` is
enough). -/
def bitLength : Nat → Nat → Nat
  | 0, _ => 0
  | fuel + 1, n => if n = 0 then 0 else bitLength fuel (n / 2) + 1

/-- The integer part of the binary logarithm of a positive natural number. -/
def log2Floor (n : Nat) : Nat := bitLength n n - 1

/-- The quotient `a / d` of natural numbers rounded to the nearest natural number, a tie
going to the even neighbour. -/
def roundNearestEven (a d : Nat) : Nat :=
  if 2 * (a % d) < d then a / d
  else if d < 2 * (a % d) then a / d + 1
  else if (a / d) % 2 = 0 then a / d
  else a / d + 1

/-- The exponent `e` with `2 ^ e ≤ a / d < 2 ^ (e + 1)`, for positive `a` and `d`. -/
def floorLog2 (a d : Nat) : Int :=
  if log2Floor d ≤ log2Floor a then
    if d * 2 ^ (log2Floor a - log2Floor d) ≤ a then ((log2Floor a - log2Floor d : Nat) : Int)
    else ((log2Floor a - log2Floor d : Nat) : Int) - 1
  else
    if d ≤ a * 2 ^ (log2Floor d - log2Floor a) then -((log2Floor d - log2Floor a : Nat) : Int)
    else -((log2Floor d - log2Floor a : Nat) : Int) - 1

/-- Rounding of a real result to binary32 (`float`), round to nearest, ties to even: a
non-zero `x` with `2 ^ e ≤ |x| < 2 ^ (e + 1)` is rounded to a multiple of `2 ^ (e - 23)`, so
that the significand has 24 bits.  The exponent range is unbounded: overflow to infinity and
the reduced precision of subnormal numbers are outside the model. -/
def round32 (x : ℚ) : ℚ :=
  if x = 0 then 0
  else
    let k : Int := floorLog2 x.num.natAbs x.den - 23
    let mag : ℚ :=
      if 0 ≤ k then (roundNearestEven x.num.natAbs (x.den * 2 ^ k.toNat) : ℚ) * 2 ^ k.toNat
      else (roundNearestEven (x.num.natAbs * 2 ^ (-k).toNat) x.den : ℚ) / 2 ^ (-k).toNat
    if x < 0 then -mag else mag

/-- The arithmetic of `float` (binary32): each sum, difference and product is rounded. -/
def Arith.binary32 : Arith ℚ :=
  ⟨fun a b => round32 (a + b), fun a b => round32 (a - b), fun a b => round32 (a * b), 0, 1, 2⟩

/-- Exact arithmetic in a commutative ring. -/
def Arith.exact (R : Type) [CommRing R] : Arith R :=
  ⟨fun a b => a + b, fun a b => a - b, fun a b => a * b, 0, 1, 2⟩

variable {S : Type}

/-- The product `a * b` of two `glm::mat4` (glm's `operator*`): column `c` of the result is
`a[0] * b[c][0] + a[1] * b[c][1] + a[2] * b[c][2] + a[3] * b[c][3]`, the sum taken from left
to right. -/
def Arith.matMul (A : Arith S) (a b : Mat4 S) : Mat4 S :=
  fun r c =>
    A.add (A.add (A.add (A.mul (a r 0) (b 0 c)) (A.mul (a r 1) (b 1 c))) (A.mul (a r 2) (b 2 c)))
      (A.mul (a r 3) (b 3 c))

/-- The matrix `glm::mat4(1.0f)`. -/
def Arith.identity (A : Arith S) : Mat4 S := fun r c => if r = c then A.one else A.zero

/-- The call `glm::translate(m, v)`: the columns 0 to 2 of `m` are kept, column 3 becomes
`m[0] * v[0] + m[1] * v[1] + m[2] * v[2] + m[3]`. -/
def Arith.translate (A : Arith S) (m : Mat4 S) (v : Vec3 S) : Mat4 S :=
  fun r c =>
    if c = 3 then
      A.add (A.add (A.add (A.mul (m r 0) v.x) (A.mul (m r 1) v.y)) (A.mul (m r 2) v.z)) (m r 3)
    else m r c

/-- The call `glm::scale(m, v)`: column `c < 3` of `m` is multiplied by `v[c]`, column 3 is
kept. -/
def Arith.scale (A : Arith S) (m : Mat4 S) (v : Vec3 S) : Mat4 S :=
  fun r c =>
    if c = 0 then A.mul (m r 0) v.x
    else if c = 1 then A.mul (m r 1) v.y
    else if c = 2 then A.mul (m r 2) v.z
    else m r 3

/-- The conversion `glm::mat4(q)` (`glm::mat4_cast`) of a quaternion. -/
def Arith.mat4_cast (A : Arith S) (q : Quat S) : Mat4 S :=
  !![A.sub A.one (A.mul A.two (A.add (A.mul q.y q.y) (A.mul q.z q.z))),
       A.mul A.two (A.sub (A.mul q.x q.y) (A.mul q.w q.z)),
       A.mul A.two (A.add (A.mul q.x q.z) (A.mul q.w q.y)), A.zero;
     A.mul A.two (A.add (A.mul q.x q.y) (A.mul q.w q.z)),
       A.sub A.one (A.mul A.two (A.add (A.mul q.x q.x) (A.mul q.z q.z))),
       A.mul A.two (A.sub (A.mul q.y q.z) (A.mul q.w q.x)), A.zero;
     A.mul A.two (A.sub (A.mul q.x q.z) (A.mul q.w q.y)),
       A.mul A.two (A.add (A.mul q.y q.z) (A.mul q.w q.x)),
       A.sub A.one (A.mul A.two (A.add (A.mul q.x q.x) (A.mul q.y q.y))), A.zero;
     A.zero, A.zero, A.zero, A.one]

/-- The method `Node::getLocalMatrix` (lines 113-116) in the arithmetic `A`: the products are
taken from left to right. -/
def Arith.getLocalMatrix (A : Arith S) (n : Node S) : Mat4 S :=
  A.matMul (A.matMul (A.matMul (A.translate A.identity n.translation) (A.mat4_cast n.rotation))
    (A.scale A.identity n.scale)) n.matrix

/-- The loop `while (p) { m = p->getLocalMatrix() * m; p = p->parent; }` of
`Node::getMatrix` (lines 121-124) in the arithmetic `A`, run for at most `gas` iterations. -/
def Arith.getMatrixLoop (A : Arith S) (h : Heap S) :
    Nat → Mat4 S → Option Nat → Option (Mat4 S)
  | _, m, none => some m
  | 0, _, some _ => none
  | gas + 1, m, some p =>
    match h[p]? with
    | none => none
    | some pn => A.getMatrixLoop h gas (A.matMul (A.getLocalMatrix pn) m) pn.parent

/-- The method `Node::getMatrix` (lines 118-126) in the arithmetic `A`, called on the node at
`i`. -/
def Arith.getMatrix (A : Arith S) (gas : Nat) (h : Heap S) (i : Nat) : Option (Mat4 S) :=
  match h[i]? with
  | none => none
  | some n => A.getMatrixLoop h gas (A.getLocalMatrix n) n.parent

end arithmetic

section examples

/-- A node over `ℚ` without explicit matrix and with neutral translation, rotation and
scale. -/
def plainNode (parent : Option Nat) (index : Nat) (children : List Nat) (mesh : Option Mesh) :
    Node ℚ :=
  Node.mk parent index children mesh 1 ⟨0, 0, 0⟩ ⟨1, 1, 1⟩ ⟨1, 0, 0, 0⟩

/-- The rotation by 90 degrees about the Y axis. -/
def rotateY90 : Mat4 ℚ :=
  !![0, 0, 1, 0;
     0, 1, 0, 0;
     -1, 0, 0, 0;
     0, 0, 0, 1]

/-- Root of the three-level hierarchy: translation by (1, 0, 0). -/
def hRoot : Node ℚ := Node.mk none 0 [1] none 1 ⟨1, 0, 0⟩ ⟨1, 1, 1⟩ ⟨1, 0, 0, 0⟩

/-- Child of the three-level hierarchy: the explicit matrix of a rotation by 90 degrees about
Y. -/
def hChild : Node ℚ := Node.mk (some 0) 1 [2] none rotateY90 ⟨0, 0, 0⟩ ⟨1, 1, 1⟩ ⟨1, 0, 0, 0⟩

/-- Grandchild of the three-level hierarchy: scale by 2. -/
def hGrandchild : Node ℚ :=
  Node.mk (some 1) 2 [] (some ⟨[⟨0, 3, 0⟩], 64⟩) 1 ⟨0, 0, 0⟩ ⟨2, 2, 2⟩ ⟨1, 0, 0, 0⟩

/-- The three-level hierarchy root, child, grandchild. -/
def hierarchy3 : Heap ℚ := [hRoot, hChild, hGrandchild]

/-- A node with translation (1, 2, 3), the rotation by 180 degrees about X and scale
(2, 3, 4), without explicit matrix. -/
def trsNode : Node ℚ := Node.mk none 0 [] none 1 ⟨1, 2, 3⟩ ⟨2, 3, 4⟩ ⟨0, 1, 0, 0⟩

/-- A mesh-less root translated by (1, 0, 0) with three children. -/
def sRoot : Node ℚ := Node.mk none 0 [1, 2, 3] none 1 ⟨1, 0, 0⟩ ⟨1, 1, 1⟩ ⟨1, 0, 0, 0⟩

/-- First sibling: two primitives, uniform buffer mapped at 100, scale 2. -/
def sA : Node ℚ :=
  Node.mk (some 0) 1 [] (some ⟨[⟨0, 3, 0⟩, ⟨3, 3, 0⟩], 100⟩) 1 ⟨0, 0, 0⟩ ⟨2, 2, 2⟩ ⟨1, 0, 0, 0⟩

/-- Second sibling: two primitives, uniform buffer mapped at 101. -/
def sB : Node ℚ := plainNode (some 0) 2 [] (some ⟨[⟨6, 6, 1⟩, ⟨12, 3, 0⟩], 101⟩)

/-- Third sibling: two primitives, uniform buffer mapped at 102. -/
def sC : Node ℚ := plainNode (some 0) 3 [] (some ⟨[⟨15, 3, -1⟩, ⟨18, 9, 0⟩], 102⟩)

/-- A scene of three sibling mesh nodes below a mesh-less root. -/
def siblings : Heap ℚ := [sRoot, sA, sB, sC]

/-- The forest of the scene `siblings`. -/
def siblingsForest : Forest ℚ :=
  .cons 0 sRoot (.cons 1 sA .nil (.cons 2 sB .nil (.cons 3 sC .nil .nil))) .nil

/-- The model of the scene `siblings`: vertex buffer 11, index buffer 12. -/
def siblingsModel : Model ℚ := ⟨11, 12, [0], siblings⟩

/-- A model without any root node. -/
def emptyModel : Model ℚ := ⟨11, 12, [], []⟩

/-- First root: a mesh with three primitives of three indices each. -/
def pA : Node ℚ := plainNode none 0 [] (some ⟨[⟨0, 3, 0⟩, ⟨3, 3, 0⟩, ⟨6, 3, 0⟩], 100⟩)

/-- Second root: a mesh whose only primitive has no index. -/
def pB : Node ℚ := plainNode none 1 [] (some ⟨[⟨9, 0, 0⟩], 101⟩)

/-- A model of two root nodes `pA` and `pB`. -/
def pushModel : Model ℚ := ⟨11, 12, [0, 1], [pA, pB]⟩

/-- An application whose skybox model is the scene `siblings`, with two framebuffers. -/
def sampleExample : VulkanExample ℚ :=
  { wireframe := false, glTFModel := emptyModel, skyboxModel := siblingsModel,
    pipelineSolid := 21, pipelineWireframe := 22, pipelineSkybox := 23, pipelineQuad := 24,
    layoutShaded := 31, layoutTextured := 32, setScene := 41, setSkybox := 42, setQuad := 43,
    offscreenWidth := 512, offscreenHeight := 512, offscreenFrameBuffer := 51,
    offscreenRenderPass := 52, renderPass := 53, frameBuffers := [61, 62],
    width := 1280, height := 720 }

/-- An animation as declared, before its bounds are computed, whose only sampler has the
single input time 0. -/
def zeroKeyAnimation : Animation :=
  { name := "pose", samplers := [⟨"LINEAR", [0], [⟨0, 0, 0, 0⟩]⟩], channels := [] }

/-- An animation with `start = 0`, `end = 2` and `currentTime = 0`. -/
def loopAnimation : Animation :=
  { name := "loop", samplers := [], channels := [], start := 0, end_ := 2, currentTime := 0 }

/-- A node carrying an explicit matrix whose translation, scale and rotation are left at
their defaults, the rotation being value-initialized to zero. -/
def defaultTrsNode : Node ℚ :=
  Node.mk none 0 [] none rotateY90 ⟨0, 0, 0⟩ ⟨1, 1, 1⟩ ⟨0, 0, 0, 0⟩

/-- Three textures over two images. -/
def sampleTextures : List Texture := [⟨0⟩, ⟨1⟩, ⟨0⟩]

/-- The descriptors of two images. -/
def sampleImages : List Nat := [70, 71]

/-- A material using the textures 0, 1, 2 and 1, with the descriptor set 90. -/
def sampleMaterial : Material :=
  { baseColorTextureIndex := 0, normalTextureIndex := 1, aoTextureIndex := 2,
    metallicRoughnessTextureIndex := 1, descriptorSet := 90 }

/-- A material of a document that declares the base color texture 4 and the normal texture 2
and has no occlusion and no metallic-roughness texture. -/
def sampleGltfMaterial : GltfMaterial := ⟨some 4, some 2, none, none⟩

/-- A sampler with the keyframes 0 and 2 and the values 0 and 10. -/
def blendSampler : AnimationSampler := ⟨"LINEAR", [0, 2], [⟨0, 0, 0, 0⟩, ⟨10, 10, 10, 0⟩]⟩

/-- A translation channel on the node at 0 driven by the sampler 0. -/
def blendChannel : AnimationChannel := ⟨"translation", some 0, 0⟩

/-- An animation at the time 1, half way between the keyframes of `blendSampler`. -/
def blendAnimation : Animation :=
  { name := "move", samplers := [blendSampler], channels := [blendChannel], start := 0,
    end_ := 2, currentTime := 1 }

/-- A document of five nodes: node 0 has the children 1 and 2, node 2 has the child 3. -/
def sampleDocument : List GltfNode := [⟨[1, 2]⟩, ⟨[]⟩, ⟨[3]⟩, ⟨[]⟩, ⟨[]⟩]

/-- The shape of `sampleDocument` below the scene nodes 0 and 4. -/
def sampleShape : Shape :=
  .cons 0 (.cons 1 .nil (.cons 2 (.cons 3 .nil .nil) .nil)) (.cons 4 .nil .nil)

/-- Root of a three-level hierarchy of translations: translation by (16777216, 0, 0), which
is 2 to the power 24. -/
def fRoot : Node ℚ := Node.mk none 0 [1] none 1 ⟨16777216, 0, 0⟩ ⟨1, 1, 1⟩ ⟨1, 0, 0, 0⟩

/-- Child of the hierarchy of translations: translation by (1, 0, 0). -/
def fChild : Node ℚ := Node.mk (some 0) 1 [2] none 1 ⟨1, 0, 0⟩ ⟨1, 1, 1⟩ ⟨1, 0, 0, 0⟩

/-- Grandchild of the hierarchy of translations: a mesh node translated by (1, 0, 0). -/
def fGrandchild : Node ℚ :=
  Node.mk (some 1) 2 [] (some ⟨[⟨0, 3, 0⟩], 64⟩) 1 ⟨1, 0, 0⟩ ⟨1, 1, 1⟩ ⟨1, 0, 0, 0⟩

/-- The three-level hierarchy of translations. -/
def fHierarchy : Heap ℚ := [fRoot, fChild, fGrandchild]

/-- Root of a three-level hierarchy of scales: scale by 3. -/
def gRoot : Node ℚ := Node.mk none 0 [1] none 1 ⟨0, 0, 0⟩ ⟨3, 3, 3⟩ ⟨1, 0, 0, 0⟩

/-- Child of the hierarchy of scales: scale by the binary32 number nearest to 0.1. -/
def gChild : Node ℚ :=
  Node.mk (some 0) 1 [2] none 1 ⟨0, 0, 0⟩
    ⟨13421773 / 134217728, 13421773 / 134217728, 13421773 / 134217728⟩ ⟨1, 0, 0, 0⟩

/-- Grandchild of the hierarchy of scales: a mesh node scaled by 7. -/
def gGrandchild : Node ℚ :=
  Node.mk (some 1) 2 [] (some ⟨[⟨0, 3, 0⟩], 64⟩) 1 ⟨0, 0, 0⟩ ⟨7, 7, 7⟩ ⟨1, 0, 0, 0⟩

/-- The three-level hierarchy of scales. -/
def gHierarchy : Heap ℚ := [gRoot, gChild, gGrandchild]

end examples

section sceneGraphProofs

variable {R : Type} [CommRing R]

theorem getMatrixLoop_eq (h : Heap R) (p : Option Nat) (ns : List (Node R))
    (hc : ParentChain h p ns) :
    ∀ (gas : Nat) (m : Mat4 R), ns.length ≤ gas →
      getMatrixLoop h gas m p = some ((ns.map Node.getLocalMatrix).prod * m) := by
  induction hc with
  | null => intro gas m _; cases gas <;> simp [getMatrixLoop]
  | @step i n ms hi _ ih =>
    intro gas m hg
    cases gas with
    | zero => simp at hg
    | succ gas =>
      have hg2 : ms.length ≤ gas := by simpa using hg
      simp only [getMatrixLoop, hi]
      rw [ih gas _ hg2]
      simp [mul_assoc]

theorem getMatrix_of_chain (h : Heap R) (i : Nat) (n : Node R) (anc : List (Node R))
    (hi : h[i]? = some n) (hc : ParentChain h n.parent anc) (gas : Nat)
    (hg : anc.length ≤ gas) :
    getMatrix gas h i = some ((anc.map Node.getLocalMatrix).prod * n.getLocalMatrix) := by
  simp only [getMatrix, hi]
  exact getMatrixLoop_eq h n.parent anc hc gas _ hg

theorem parentChain_last (h : Heap R) (i : Nat) (ns : List (Node R))
    (hc : ParentChain h (some i) ns) :
    ∃ n anc, ns = anc ++ [n] ∧ h[i]? = some n ∧ ParentChain h n.parent anc := by
  cases hc with
  | @step _ n anc hi hp => exact ⟨n, anc, rfl, hi, hp⟩

theorem drawPrimitives_eq (ps : List Primitive) :
    ∀ cb : List (Cmd R), drawPrimitives cb ps
      = cb ++ (ps.filter (fun p => decide (p.indexCount > 0))).map primitiveDraw := by
  induction ps with
  | nil => intro cb; simp [drawPrimitives]
  | cons p ps ih =>
    intro cb
    have ih2 := ih
    simp only [drawPrimitives] at ih2 ⊢
    rw [List.foldl_cons, ih2]
    by_cases hp : p.indexCount > 0
    · simp [hp, primitiveDraw]
    · simp [hp]

theorem renderSkyboxNode_own (gas : Nat) (h : Heap R) (layout i : Nat) (n : Node R)
    (anc : List (Node R)) (cb : List (Cmd R)) (hi : h[i]? = some n)
    (hc : ParentChain h n.parent anc) (hg : anc.length ≤ gas) :
    (match n.mesh with
      | some mesh =>
        if mesh.primitives.length > 0 then
          match getMatrix gas h i with
          | some nodeMatrix =>
            some (drawPrimitives (cb ++ [Cmd.pushConstants layout nodeMatrix]) mesh.primitives)
          | none => none
        else some cb
      | none => some cb)
      = some (cb ++ nodeCmds layout ((anc.map Node.getLocalMatrix).prod * n.getLocalMatrix) n) := by
  rw [getMatrix_of_chain h i n anc hi hc gas hg]
  unfold nodeCmds nodeDraws
  cases hm : n.mesh with
  | none => simp
  | some mesh =>
    by_cases hp : mesh.primitives.length > 0
    · simp [hp, drawPrimitives_eq]
    · simp [hp]

theorem render_forest (h : Heap R) (layout : Nat) (p : Option Nat) (is : List Nat)
    (f : Forest R) (hr : IsForest h p is f) :
    ∀ (anc : List (Node R)) (gas fuel : Nat) (cb : List (Cmd R)), ParentChain h p anc →
      anc.length + f.height ≤ gas + 1 → f.height ≤ fuel →
      is.foldlM (fun acc node => renderSkyboxNode gas h layout fuel acc node) cb
        = some (cb ++ f.cmds layout (anc.map Node.getLocalMatrix).prod) := by
  induction hr with
  | nil p => intro anc gas fuel cb _ _ _; simp [Forest.cmds]
  | @cons p i n is kids rest hi hp _ _ ihk ihr =>
    intro anc gas fuel cb hc hg hf
    simp only [Forest.height] at hg hf
    cases fuel with
    | zero => omega
    | succ fuel =>
      have hcn : ParentChain h n.parent anc := by rw [hp]; exact hc
      have hck : ParentChain h (some i) (anc ++ [n]) := ParentChain.step hi hcn
      have hown := renderSkyboxNode_own gas h layout i n anc cb hi hcn (by omega)
      have hk := ihk (anc ++ [n]) gas fuel
        (cb ++ nodeCmds layout ((anc.map Node.getLocalMatrix).prod * n.getLocalMatrix) n) hck
        (by simp only [List.length_append, List.length_singleton]; omega) (by omega)
      have hnode : renderSkyboxNode gas h layout (fuel + 1) cb i
          = some (cb ++ nodeCmds layout ((anc.map Node.getLocalMatrix).prod * n.getLocalMatrix) n
              ++ kids.cmds layout ((anc.map Node.getLocalMatrix).prod * n.getLocalMatrix)) := by
        simp only [renderSkyboxNode, hi]
        rw [hown]
        simp only []
        rw [hk]
        simp
      rw [List.foldlM_cons, hnode]
      simp only [Option.some_bind, Option.bind_eq_bind]
      rw [ihr anc gas (fuel + 1) _ hc (by omega) (by omega)]
      simp [Forest.cmds, List.append_assoc]

theorem Forest.addrs_cons (i : Nat) (n : Node R) (kids rest : Forest R) :
    (Forest.cons i n kids rest).addrs
      = (n.mesh.map Mesh.mapped).toList ++ (kids.addrs ++ rest.addrs) := by
  unfold Forest.addrs
  simp only [Forest.nodes, List.filterMap_cons, List.filterMap_append]
  cases n.mesh <;> simp

theorem Forest.mapped_mem_addrs (f : Forest R) (e : Nat × Node R) (mesh : Mesh)
    (he : e ∈ f.nodes) (hm : e.2.mesh = some mesh) : mesh.mapped ∈ f.addrs := by
  unfold Forest.addrs
  rw [List.mem_filterMap]
  exact ⟨e, he, by simp [hm]⟩

theorem update_forest (h : Heap R) (p : Option Nat) (is : List Nat) (f : Forest R)
    (hr : IsForest h p is f) :
    ∀ (anc : List (Node R)) (gas fuel : Nat) (mem : Mem R), ParentChain h p anc →
      anc.length + f.height ≤ gas + 1 → f.height ≤ fuel →
      ∃ mem1 : Mem R,
        is.foldlM (fun acc child => update gas h fuel acc child) mem = some mem1
        ∧ (∀ a, a ∉ f.addrs → mem1 a = mem a)
        ∧ (f.addrs.Nodup → ∀ e ∈ f.nodes, ∀ mesh, e.2.mesh = some mesh →
            getMatrix gas h e.1 = some (mem1 mesh.mapped)) := by
  induction hr with
  | nil p =>
    intro anc gas fuel mem _ _ _
    exact ⟨mem, by simp, fun _ _ => rfl, by simp [Forest.nodes]⟩
  | @cons p i n is kids rest hi hp _ _ ihk ihr =>
    intro anc gas fuel mem hc hg hf
    simp only [Forest.height] at hg hf
    cases fuel with
    | zero => omega
    | succ fuel =>
      have hcn : ParentChain h n.parent anc := by rw [hp]; exact hc
      have hck : ParentChain h (some i) (anc ++ [n]) := ParentChain.step hi hcn
      have hworld := getMatrix_of_chain h i n anc hi hcn gas (by omega)
      -- the write of the node itself
      obtain ⟨memW, hW, hWframe, hWval⟩ :
          ∃ memW : Mem R,
            (match n.mesh with
              | some mesh =>
                match getMatrix gas h i with
                | some m => some (Function.update mem mesh.mapped m)
                | none => none
              | none => some mem) = some memW
            ∧ (∀ a, a ∉ (n.mesh.map Mesh.mapped).toList → memW a = mem a)
            ∧ (∀ mesh, n.mesh = some mesh → getMatrix gas h i = some (memW mesh.mapped)) := by
        cases hm : n.mesh with
        | none => exact ⟨mem, by simp, fun _ _ => rfl, by simp⟩
        | some mesh =>
          refine ⟨Function.update mem mesh.mapped
            ((anc.map Node.getLocalMatrix).prod * n.getLocalMatrix), by simp only [hworld], ?_, ?_⟩
          · intro a ha
            have hne : a ≠ mesh.mapped := by simpa using ha
            simp [Function.update, hne]
          · intro mesh2 h2
            have : mesh2 = mesh := by simpa using h2.symm
            subst this
            simp [hworld]
      obtain ⟨memK, hK, hKframe, hKval⟩ := ihk (anc ++ [n]) gas fuel memW hck
        (by simp only [List.length_append, List.length_singleton]; omega) (by omega)
      obtain ⟨memR, hR, hRframe, hRval⟩ := ihr anc gas (fuel + 1) memK hc (by omega) (by omega)
      have hnode : update gas h (fuel + 1) mem i = some memK := by
        simp only [update, hi]
        rw [hW]
        exact hK
      refine ⟨memR, ?_, ?_, ?_⟩
      · rw [List.foldlM_cons, hnode]
        simpa using hR
      · intro a ha
        rw [Forest.addrs_cons] at ha
        simp only [List.mem_append, not_or] at ha
        rw [hRframe a ha.2.2, hKframe a ha.2.1, hWframe a ha.1]
      · intro hnd e he mesh hm
        rw [Forest.addrs_cons] at hnd
        have hnd1 := List.nodup_append.mp hnd
        have hnd2 := List.nodup_append.mp hnd1.2.1
        simp only [Forest.nodes, List.mem_cons, List.mem_append] at he
        rcases he with he | he | he
        · subst he
          have hown : mesh.mapped ∈ (n.mesh.map Mesh.mapped).toList := by
            simp only [] at hm
            simp [hm]
          have hnk : mesh.mapped ∉ kids.addrs := fun hk =>
            hnd1.2.2 hown (List.mem_append_left _ hk)
          have hnr : mesh.mapped ∉ rest.addrs := fun hk =>
            hnd1.2.2 hown (List.mem_append_right _ hk)
          rw [hRframe _ hnr, hKframe _ hnk]
          exact hWval mesh hm
        · have hin : mesh.mapped ∈ kids.addrs := Forest.mapped_mem_addrs kids e mesh he hm
          have hnr : mesh.mapped ∉ rest.addrs := fun hk => hnd2.2.2 hin hk
          rw [hRframe _ hnr]
          exact hKval hnd2.1 e he mesh hm
        · exact hRval hnd2.2.1 e he mesh hm

theorem IsForest.nodes_lookup (h : Heap R) (p : Option Nat) (is : List Nat) (f : Forest R)
    (hr : IsForest h p is f) : ∀ e ∈ f.nodes, h[e.1]? = some e.2 := by
  induction hr with
  | nil p => simp [Forest.nodes]
  | @cons p i n is kids rest hi _ _ _ ihk ihr =>
    intro e he
    simp only [Forest.nodes, List.mem_cons, List.mem_append] at he
    rcases he with he | he | he
    · subst he; exact hi
    · exact ihk e he
    · exact ihr e he

theorem renderSkybox_eq (model : Model R) (f : Forest R) (gas fuel layout : Nat)
    (cb : List (Cmd R)) (hr : IsForest model.heap none model.nodes f) (hg : f.height ≤ gas + 1)
    (hf : f.height ≤ fuel) :
    renderSkybox gas fuel model cb layout
      = some (cb ++ Cmd.bindVertexBuffers model.verticesBuffer
          :: Cmd.bindIndexBuffer model.indicesBuffer :: f.cmds layout 1) := by
  unfold renderSkybox
  have := render_forest model.heap layout none model.nodes f hr [] gas fuel
    (cb ++ [Cmd.bindVertexBuffers model.verticesBuffer]
      ++ [Cmd.bindIndexBuffer model.indicesBuffer]) ParentChain.null (by simpa using hg) hf
  simpa using this

theorem nodeDraws_filter (n : Node R) :
    (nodeDraws n).filter Cmd.isDrawIndexed = nodeDraws n := by
  rw [List.filter_eq_self]
  intro c hc
  unfold nodeDraws at hc
  cases hm : n.mesh with
  | none => simp [hm] at hc
  | some mesh =>
    simp only [hm, List.mem_map] at hc
    obtain ⟨q, _, rfl⟩ := hc
    rfl

theorem nodeCmds_filter_draws (layout : Nat) (w : Mat4 R) (n : Node R) :
    (nodeCmds layout w n).filter Cmd.isDrawIndexed = nodeDraws n := by
  unfold nodeCmds
  cases hm : n.mesh with
  | none => simp [nodeDraws, hm]
  | some mesh =>
    by_cases hp : mesh.primitives.length > 0
    · simp only [hp, if_true, List.filter_cons, Cmd.isDrawIndexed]
      simpa using nodeDraws_filter n
    · have : mesh.primitives = [] := by
        cases hq : mesh.primitives with
        | nil => rfl
        | cons a l => simp [hq] at hp
      simp [hp, nodeDraws, hm, this]

theorem Forest.cmds_filter_draws (layout : Nat) (f : Forest R) :
    ∀ w : Mat4 R, (f.cmds layout w).filter Cmd.isDrawIndexed = f.draws := by
  induction f with
  | nil => intro w; simp [Forest.cmds, Forest.draws]
  | cons i n kids rest ihk ihr =>
    intro w
    simp only [Forest.cmds, Forest.draws, List.filter_append, ihk, ihr, nodeCmds_filter_draws]

theorem Forest.cmds_eq_worlds (layout : Nat) (f : Forest R) :
    ∀ w : Mat4 R, f.cmds layout w
      = (f.worlds w).flatMap (fun e => nodeCmds layout e.1 e.2) := by
  induction f with
  | nil => intro w; simp [Forest.cmds, Forest.worlds]
  | cons i n kids rest ihk ihr =>
    intro w
    simp [Forest.cmds, Forest.worlds, ihk, ihr, List.append_assoc]

theorem nodeCmds_push_count (layout : Nat) (w : Mat4 R) (n : Node R) :
    ((nodeCmds layout w n).filter Cmd.isPushConstants).length
      = if n.hasPrimitives then 1 else 0 := by
  unfold nodeCmds Node.hasPrimitives
  cases hm : n.mesh with
  | none => simp
  | some mesh =>
    by_cases hp : mesh.primitives.length > 0
    · simp only [hp, if_true, List.filter_cons, Cmd.isPushConstants, decide_True]
      have : (nodeDraws n).filter Cmd.isPushConstants = [] := by
        rw [List.filter_eq_nil_iff]
        intro c hc
        unfold nodeDraws at hc
        simp only [hm, List.mem_map] at hc
        obtain ⟨q, _, rfl⟩ := hc
        simp [primitiveDraw, Cmd.isPushConstants]
      simp [this]
    · simp [hp]

theorem Forest.cmds_push_count (layout : Nat) (f : Forest R) :
    ∀ w : Mat4 R, ((f.cmds layout w).filter Cmd.isPushConstants).length = f.pushCount := by
  induction f with
  | nil => intro w; simp [Forest.cmds, Forest.pushCount, Forest.nodes]
  | cons i n kids rest ihk ihr =>
    intro w
    have hk := ihk (w * n.getLocalMatrix)
    have hr := ihr w
    unfold Forest.pushCount at hk hr ⊢
    simp only [Forest.cmds, Forest.nodes, List.filter_append, List.length_append, hk, hr,
      nodeCmds_push_count, List.filter_cons]
    cases n.hasPrimitives <;> simp
    omega

theorem nodeCmds_push_or_draw (layout : Nat) (w : Mat4 R) (n : Node R) :
    ∀ c ∈ nodeCmds layout w n, c.isPushConstants = true ∨ c.isDrawIndexed = true := by
  intro c hc
  unfold nodeCmds at hc
  cases hm : n.mesh with
  | none => simp [hm] at hc
  | some mesh =>
    by_cases hp : mesh.primitives.length > 0
    · simp only [hm, hp, if_true, List.mem_cons] at hc
      rcases hc with rfl | hc
      · left; rfl
      · right
        unfold nodeDraws at hc
        simp only [hm, List.mem_map] at hc
        obtain ⟨q, _, rfl⟩ := hc
        rfl
    · simp [hm, hp] at hc

theorem Forest.cmds_push_or_draw (layout : Nat) (f : Forest R) :
    ∀ (w : Mat4 R), ∀ c ∈ f.cmds layout w,
      c.isPushConstants = true ∨ c.isDrawIndexed = true := by
  induction f with
  | nil => intro w c hc; simp [Forest.cmds] at hc
  | cons i n kids rest ihk ihr =>
    intro w c hc
    simp only [Forest.cmds, List.mem_append] at hc
    rcases hc with (hc | hc) | hc
    · exact nodeCmds_push_or_draw layout _ n c hc
    · exact ihk _ c hc
    · exact ihr _ c hc

theorem glm.translate_zero : glm.translate (1 : Mat4 R) ⟨0, 0, 0⟩ = 1 := by
  ext r c
  fin_cases r <;> fin_cases c <;> simp [glm.translate, Matrix.one_apply]

theorem glm.scale_one : glm.scale (1 : Mat4 R) ⟨1, 1, 1⟩ = 1 := by
  ext r c
  fin_cases r <;> fin_cases c <;> simp [glm.scale, Matrix.one_apply]

theorem glm.mat4_cast_identity : glm.mat4_cast (⟨1, 0, 0, 0⟩ : Quat R) = 1 := by
  ext r c
  fin_cases r <;> fin_cases c <;>
    simp [glm.mat4_cast, Matrix.one_apply, Matrix.vecHead, Matrix.vecTail]

theorem mapM_some {α β : Type} (g : α → β) (l : List α) :
    l.mapM (fun a => (some (g a) : Option β)) = some (l.map g) := by
  induction l with
  | nil => rfl
  | cons a l ih =>
    rw [List.mapM_cons, ih]
    rfl

theorem siblings_isForest : IsForest siblings none [0] siblingsForest :=
  IsForest.cons rfl rfl
    (IsForest.cons rfl rfl (IsForest.nil _)
      (IsForest.cons rfl rfl (IsForest.nil _)
        (IsForest.cons rfl rfl (IsForest.nil _) (IsForest.nil _))))
    (IsForest.nil _)

theorem pushModel_isForest :
    IsForest pushModel.heap none pushModel.nodes
      (.cons 0 pA .nil (.cons 1 pB .nil .nil)) :=
  IsForest.cons rfl rfl (IsForest.nil _) (IsForest.cons rfl rfl (IsForest.nil _) (IsForest.nil _))

theorem Forest.cmds_no_bind (layout : Nat) (f : Forest R) (w : Mat4 R) :
    ∀ c ∈ f.cmds layout w, c.isBindDescriptorSets = false ∧ c.isBindVertexBuffers = false
      ∧ c.isBindIndexBuffer = false := by
  intro c hc
  rcases Forest.cmds_push_or_draw layout f w c hc with h | h <;> cases c <;>
    simp_all [Cmd.isPushConstants, Cmd.isDrawIndexed, Cmd.isBindDescriptorSets,
      Cmd.isBindVertexBuffers, Cmd.isBindIndexBuffer]

theorem hierarchy3_product :
    hRoot.getLocalMatrix * hChild.getLocalMatrix * hGrandchild.getLocalMatrix
      = !![0, 0, 2, 1; 0, 2, 0, 0; -2, 0, 0, 0; 0, 0, 0, 1] := by
  have e1 : hRoot.getLocalMatrix = !![1, 0, 0, 1; 0, 1, 0, 0; 0, 0, 1, 0; 0, 0, 0, 1] := by
    ext r c
    fin_cases r <;> fin_cases c <;>
      simp [Node.getLocalMatrix, hRoot, glm.translate, glm.scale_one, glm.mat4_cast_identity,
        Matrix.one_apply, Matrix.vecHead, Matrix.vecTail]
  have e2 : hChild.getLocalMatrix = rotateY90 := by
    simp [Node.getLocalMatrix, hChild, glm.translate_zero, glm.scale_one,
      glm.mat4_cast_identity]
  have e3 : hGrandchild.getLocalMatrix
      = !![2, 0, 0, 0; 0, 2, 0, 0; 0, 0, 2, 0; 0, 0, 0, 1] := by
    ext r c
    fin_cases r <;> fin_cases c <;>
      simp [Node.getLocalMatrix, hGrandchild, glm.scale, glm.translate_zero,
        glm.mat4_cast_identity, Matrix.one_apply, Matrix.vecHead, Matrix.vecTail]
  rw [e1, e2, e3, rotateY90]
  ext r c
  fin_cases r <;> fin_cases c <;>
    simp [Matrix.mul_apply, Fin.sum_univ_four, Matrix.vecHead, Matrix.vecTail]

end sceneGraphProofs

section topDownProofs

variable {R : Type} [CommRing R]

theorem getMatrixLoopCount_eq (h : Heap R) (p : Option Nat) (ns : List (Node R))
    (hc : ParentChain h p ns) :
    ∀ (gas : Nat) (m : Mat4 R) (k : Nat), ns.length ≤ gas →
      getMatrixLoopCount h gas m k p
        = some ((ns.map Node.getLocalMatrix).prod * m, k + ns.length) := by
  induction hc with
  | null => intro gas m k _; cases gas <;> simp [getMatrixLoopCount]
  | @step i n ms hi _ ih =>
    intro gas m k hg
    cases gas with
    | zero => simp at hg
    | succ gas =>
      have hg2 : ms.length ≤ gas := by simpa using hg
      simp only [getMatrixLoopCount, hi]
      rw [ih gas _ _ hg2]
      simp [mul_assoc, Nat.add_assoc, Nat.add_comm 1]

theorem getMatrixLoop_none (h : Heap R) (p : Option Nat) (ns : List (Node R))
    (hc : ParentChain h p ns) :
    ∀ (gas : Nat) (m : Mat4 R), gas < ns.length → getMatrixLoop h gas m p = none := by
  induction hc with
  | null => intro gas m hg; simp at hg
  | @step i n ms hi _ ih =>
    intro gas m hg
    cases gas with
    | zero => simp [getMatrixLoop]
    | succ gas =>
      have hg2 : gas < ms.length := by simpa using hg
      simp only [getMatrixLoop, hi]
      exact ih gas _ hg2

theorem getMatrixLoopCount_fst (h : Heap R) :
    ∀ (gas : Nat) (m : Mat4 R) (k : Nat) (p : Option Nat),
      (getMatrixLoopCount h gas m k p).map Prod.fst = getMatrixLoop h gas m p := by
  intro gas
  induction gas with
  | zero => intro m k p; cases p <;> simp [getMatrixLoopCount, getMatrixLoop]
  | succ gas ih =>
    intro m k p
    cases p with
    | none => simp [getMatrixLoopCount, getMatrixLoop]
    | some q =>
      simp only [getMatrixLoopCount, getMatrixLoop]
      cases h[q]? with
      | none => rfl
      | some pn => exact ih _ _ _

theorem update_forest_eq (h : Heap R) (p : Option Nat) (is : List Nat) (f : Forest R)
    (hr : IsForest h p is f) :
    ∀ (anc : List (Node R)) (gas fuel : Nat) (mem : Mem R), ParentChain h p anc →
      anc.length + f.height ≤ gas + 1 → f.height ≤ fuel →
      is.foldlM (fun acc child => update gas h fuel acc child) mem
        = some (f.write (anc.map Node.getLocalMatrix).prod mem) := by
  induction hr with
  | nil p => intro anc gas fuel mem _ _ _; simp [Forest.write]
  | @cons p i n is kids rest hi hp _ _ ihk ihr =>
    intro anc gas fuel mem hc hg hf
    simp only [Forest.height] at hg hf
    cases fuel with
    | zero => omega
    | succ fuel =>
      have hcn : ParentChain h n.parent anc := by rw [hp]; exact hc
      have hck : ParentChain h (some i) (anc ++ [n]) := ParentChain.step hi hcn
      have hworld := getMatrix_of_chain h i n anc hi hcn gas (by omega)
      have hk := ihk (anc ++ [n]) gas fuel
        (match n.mesh with
          | some mesh => Function.update mem mesh.mapped
              ((anc.map Node.getLocalMatrix).prod * n.getLocalMatrix)
          | none => mem) hck
        (by simp only [List.length_append, List.length_singleton]; omega) (by omega)
      have hnode : update gas h (fuel + 1) mem i
          = some (kids.write ((anc.map Node.getLocalMatrix).prod * n.getLocalMatrix)
              (match n.mesh with
                | some mesh => Function.update mem mesh.mapped
                    ((anc.map Node.getLocalMatrix).prod * n.getLocalMatrix)
                | none => mem)) := by
        simp only [update, hi, hworld]
        cases hm : n.mesh with
        | none => simpa [hm] using hk
        | some mesh => simpa [hm] using hk
      rw [List.foldlM_cons, hnode]
      simp only [Option.some_bind, Option.bind_eq_bind]
      rw [ihr anc gas (fuel + 1) _ hc (by omega) (by omega)]
      simp [Forest.write]

theorem refresh_forest_eq (h : Heap R) (p : Option Nat) (is : List Nat) (f : Forest R)
    (hr : IsForest h p is f) :
    ∀ (w : Mat4 R) (fuel : Nat) (mem : Mem R), f.height ≤ fuel →
      is.foldlM (fun acc child => refreshTopDown h fuel w acc child) mem
        = some (f.write w mem) := by
  induction hr with
  | nil p => intro w fuel mem _; simp [Forest.write]
  | @cons p i n is kids rest hi hp _ _ ihk ihr =>
    intro w fuel mem hf
    simp only [Forest.height] at hf
    cases fuel with
    | zero => omega
    | succ fuel =>
      have hnode : refreshTopDown h (fuel + 1) w mem i
          = some (kids.write (w * n.getLocalMatrix)
              (match n.mesh with
                | some mesh => Function.update mem mesh.mapped (w * n.getLocalMatrix)
                | none => mem)) := by
        simp only [refreshTopDown, hi]
        exact ihk _ fuel _ (by omega)
      rw [List.foldlM_cons, hnode]
      simp only [Option.some_bind, Option.bind_eq_bind]
      rw [ihr w (fuel + 1) _ (by omega)]
      simp [Forest.write]

theorem worldsAt_getMatrix (h : Heap R) (p : Option Nat) (is : List Nat) (f : Forest R)
    (hr : IsForest h p is f) :
    ∀ (anc : List (Node R)) (gas : Nat), ParentChain h p anc →
      anc.length + f.height ≤ gas + 1 →
      ∀ e ∈ f.worldsAt (anc.map Node.getLocalMatrix).prod,
        h[e.1]? = some e.2.2 ∧ getMatrix gas h e.1 = some e.2.1 := by
  induction hr with
  | nil p => intro anc gas _ _ e he; simp [Forest.worldsAt] at he
  | @cons p i n is kids rest hi hp _ _ ihk ihr =>
    intro anc gas hc hg e he
    simp only [Forest.height] at hg
    have hcn : ParentChain h n.parent anc := by rw [hp]; exact hc
    have hck : ParentChain h (some i) (anc ++ [n]) := ParentChain.step hi hcn
    simp only [Forest.worldsAt, List.mem_cons, List.mem_append] at he
    rcases he with he | he | he
    · subst he
      exact ⟨hi, getMatrix_of_chain h i n anc hi hcn gas (by omega)⟩
    · have := ihk (anc ++ [n]) gas hck
        (by simp only [List.length_append, List.length_singleton]; omega) e
      simp only [List.map_append, List.map_cons, List.map_nil, List.prod_append,
        List.prod_singleton] at this
      exact this he
    · exact ihr anc gas hc (by omega) e he

theorem drawsWithLastPush_append (xs ys : List (Cmd R)) :
    ∀ cur : Option (Mat4 R), (∀ c ∈ xs, c.isPushConstants = false) →
      drawsWithLastPush cur (xs ++ ys)
        = (xs.filter Cmd.isDrawIndexed).map (fun d => (cur, d)) ++ drawsWithLastPush cur ys := by
  induction xs with
  | nil => intro cur _; simp
  | cons c xs ih =>
    intro cur hx
    have hc := hx c (List.mem_cons_self _ _)
    have hxs : ∀ d ∈ xs, d.isPushConstants = false := fun d hd => hx d (List.mem_cons_of_mem _ hd)
    cases c <;>
      simp_all [drawsWithLastPush, Cmd.isPushConstants, Cmd.isDrawIndexed, List.filter_cons]

end topDownProofs

section topDownProofs2

variable {R : Type} [CommRing R]

theorem glm.mat4_cast_zero : glm.mat4_cast (⟨0, 0, 0, 0⟩ : Quat R) = 1 := by
  ext r c
  fin_cases r <;> fin_cases c <;>
    simp [glm.mat4_cast, Matrix.one_apply, Matrix.vecHead, Matrix.vecTail]

theorem nodeDraws_no_push (n : Node R) : ∀ c ∈ nodeDraws n, c.isPushConstants = false := by
  intro c hc
  unfold nodeDraws at hc
  cases hm : n.mesh with
  | none => simp [hm] at hc
  | some mesh =>
    simp only [hm, List.mem_map] at hc
    obtain ⟨q, _, rfl⟩ := hc
    rfl

theorem nodeDraws_nil_of_not_hasPrimitives (n : Node R) (hn : n.hasPrimitives = false) :
    nodeDraws n = [] := by
  unfold Node.hasPrimitives at hn
  unfold nodeDraws
  cases hm : n.mesh with
  | none => rfl
  | some mesh =>
    simp only [hm, decide_eq_false_iff_not, not_lt, Nat.le_zero_eq, List.length_eq_zero] at hn
    simp [hn]

theorem Forest.cmds_lastPush (layout : Nat) (f : Forest R) :
    ∀ (w : Mat4 R) (cur : Option (Mat4 R)) (tail : List (Cmd R)),
      ∃ cur1 : Option (Mat4 R),
        drawsWithLastPush cur (f.cmds layout w ++ tail)
          = (f.worldsAt w).flatMap (fun e => (nodeDraws e.2.2).map (fun d => (some e.2.1, d)))
            ++ drawsWithLastPush cur1 tail := by
  induction f with
  | nil => intro w cur tail; exact ⟨cur, by simp [Forest.cmds, Forest.worldsAt]⟩
  | cons i n kids rest ihk ihr =>
    intro w cur tail
    obtain ⟨cur1, h1⟩ := ihk (w * n.getLocalMatrix)
      (if n.hasPrimitives then some (w * n.getLocalMatrix) else cur)
      (rest.cmds layout w ++ tail)
    obtain ⟨cur2, h2⟩ := ihr w cur1 tail
    have hfilter : (nodeDraws n).filter Cmd.isDrawIndexed = nodeDraws n := nodeDraws_filter n
    have hnode : ∀ ys : List (Cmd R),
        drawsWithLastPush cur (nodeCmds layout (w * n.getLocalMatrix) n ++ ys)
          = (nodeDraws n).map (fun d => (some (w * n.getLocalMatrix), d))
            ++ drawsWithLastPush
                (if n.hasPrimitives then some (w * n.getLocalMatrix) else cur) ys := by
      intro ys
      cases hh : n.hasPrimitives with
      | false =>
        have hd := nodeDraws_nil_of_not_hasPrimitives n hh
        have hc : nodeCmds layout (w * n.getLocalMatrix) n = [] := by
          unfold nodeCmds
          unfold Node.hasPrimitives at hh
          cases hm : n.mesh with
          | none => rfl
          | some mesh =>
            simp only [hm, decide_eq_false_iff_not] at hh
            simp [hh]
        simp [hd, hc]
      | true =>
        have hc : nodeCmds layout (w * n.getLocalMatrix) n
            = Cmd.pushConstants layout (w * n.getLocalMatrix) :: nodeDraws n := by
          unfold nodeCmds
          unfold Node.hasPrimitives at hh
          cases hm : n.mesh with
          | none => simp [hm] at hh
          | some mesh =>
            simp only [hm, decide_eq_true_eq] at hh
            simp [hh]
        rw [hc, List.cons_append]
        simp only [drawsWithLastPush]
        rw [drawsWithLastPush_append _ _ _ (nodeDraws_no_push n), hfilter]
        simp
    refine ⟨cur2, ?_⟩
    simp only [Forest.cmds, Forest.worldsAt, List.append_assoc, List.flatMap_cons,
      List.flatMap_append]
    rw [hnode, h1, h2]

end topDownProofs2

section materialProofs

theorem textureImage_of_inRange {α : Type} (images : List α) (textures : List Texture)
    (s : Nat) (hs : SlotInRange images textures s) :
    ∃ d, textureImage images textures s = some d ∧ SlotImage images textures s d := by
  obtain ⟨t, ht, h0, h1⟩ := hs
  have hlt : ¬ t.imageIndex < 0 := not_lt.mpr h0
  refine ⟨images[t.imageIndex.toNat], ?_, t, ht, h0, ?_⟩
  · simp [textureImage, ht, hlt, List.getElem?_eq_getElem h1]
  · exact List.getElem?_eq_getElem h1

theorem mapM_eq_some_of_forall {α β : Type} (g : α → Option β) (l : List α)
    (hg : ∀ a ∈ l, ∃ b, g a = some b) :
    ∃ bs, l.mapM g = some bs ∧ bs.length = l.length
      ∧ ∀ (k : Nat) (a : α), l[k]? = some a → ∃ b, g a = some b ∧ bs[k]? = some b := by
  induction l with
  | nil => exact ⟨[], rfl, rfl, by simp⟩
  | cons a l ih =>
    obtain ⟨b, hb⟩ := hg a (List.mem_cons_self _ _)
    obtain ⟨bs, h1, h2, h3⟩ := ih (fun x hx => hg x (List.mem_cons_of_mem _ hx))
    refine ⟨b :: bs, ?_, by simp [h2], ?_⟩
    · rw [List.mapM_cons, hb, h1]
      rfl
    · intro k x hk
      cases k with
      | zero =>
        simp only [List.getElem?_cons_zero, Option.some.injEq] at hk
        subst hk
        exact ⟨b, hb, by simp⟩
      | succ k =>
        simp only [List.getElem?_cons_succ] at hk ⊢
        exact h3 k x hk

end materialProofs

section channelProofs

theorem glm.mix_zero (x y : ℚ) : glm.mix x y 0 = x := by simp [glm.mix]

theorem glm.mix_one (x y : ℚ) : glm.mix x y 1 = y := by simp [glm.mix]

theorem glm.mix_self (x a : ℚ) : glm.mix x x a = x := by simp only [glm.mix]; ring

theorem pairwise_head_le (y : ℚ) (ts : List ℚ) (hs : (y :: ts).Pairwise (· < ·)) :
    ∀ (k : Nat) (v : ℚ), (y :: ts)[k]? = some v → y ≤ v ∧ (v = y → k = 0) := by
  intro k v hk
  cases k with
  | zero =>
    simp only [List.getElem?_cons_zero, Option.some.injEq] at hk
    exact ⟨hk ▸ le_refl _, fun _ => rfl⟩
  | succ k =>
    simp only [List.getElem?_cons_succ] at hk
    have hlt : y < v := (List.pairwise_cons.mp hs).1 v (List.getElem?_mem hk)
    exact ⟨hlt.le, fun hv => absurd hv hlt.ne'⟩

theorem bracket_mix (t : ℚ) (inputs : List ℚ) :
    ∀ (outputs : List (Vec4 ℚ)) (i : Nat) (ti tj : ℚ) (v1 v2 : Vec4 ℚ),
      inputs.Pairwise (· < ·) → inputs[i]? = some ti → inputs[i + 1]? = some tj →
      outputs[i]? = some v1 → outputs[i + 1]? = some v2 → ti ≤ t → t ≤ tj →
      ∃ w1 w2 u, bracket t inputs outputs = some (w1, w2, u)
        ∧ glm.mix4 w1 w2 u = glm.mix4 v1 v2 ((t - ti) / (tj - ti)) := by
  induction inputs with
  | nil => intro outputs i ti tj v1 v2 _ hi; simp at hi
  | cons x ts ih =>
    intro outputs i ti tj v1 v2 hs hi hj ho1 ho2 h1 h2
    cases ts with
    | nil => simp at hj
    | cons y ts =>
      match outputs, ho1, ho2 with
      | [], ho1, _ => simp at ho1
      | [p], _, ho2 => simp at ho2
      | p :: q :: os, ho1, ho2 =>
        have hxy : x < y := (List.pairwise_cons.mp hs).1 y (List.mem_cons_self _ _)
        have hs2 : (y :: ts).Pairwise (· < ·) := (List.pairwise_cons.mp hs).2
        cases i with
        | zero =>
          simp only [List.getElem?_cons_zero, Option.some.injEq, zero_add,
            List.getElem?_cons_succ] at hi hj ho1 ho2
          subst hi hj ho1 ho2
          exact ⟨_, _, _, by simp [bracket, h1, h2], rfl⟩
        | succ i =>
          rw [List.getElem?_cons_succ] at hi hj ho1 ho2
          by_cases hcond : x ≤ t ∧ t ≤ y
          · obtain ⟨hy1, hy2⟩ := pairwise_head_le y ts hs2 i ti hi
            have hti : ti = y := le_antisymm (le_trans h1 hcond.2) hy1
            have hi0 : i = 0 := hy2 hti
            subst hi0
            simp only [List.getElem?_cons_zero, Option.some.injEq] at ho1
            subst ho1
            have htj : ti < tj := by
              have := (List.pairwise_cons.mp hs2).1 tj
                (List.getElem?_mem (by simpa using hj))
              rw [hti]; exact this
            have ht : t = y := le_antisymm hcond.2 (hti ▸ h1)
            refine ⟨p, q, (t - x) / (y - x), by simp [bracket, hcond], ?_⟩
            have hu1 : (t - x) / (y - x) = 1 := by
              rw [ht]; exact div_self (sub_ne_zero.mpr hxy.ne')
            have hu0 : (t - ti) / (tj - ti) = 0 := by
              rw [ht, hti]; simp
            rw [hu1, hu0]
            simp [glm.mix4, glm.mix_zero, glm.mix_one]
          · obtain ⟨w1, w2, u, hb, hm⟩ := ih (q :: os) i ti tj v1 v2 hs2 hi hj ho1 ho2 h1 h2
            exact ⟨w1, w2, u, by simp only [bracket, hcond, if_false]; exact hb, hm⟩

theorem keys_mix (s : AnimationSampler) (t : ℚ) (i : Nat) (ti tj : ℚ) (v1 v2 : Vec4 ℚ)
    (hs : s.inputs.Pairwise (· < ·)) (hi : s.inputs[i]? = some ti)
    (hj : s.inputs[i + 1]? = some tj) (ho1 : s.outputsVec4[i]? = some v1)
    (ho2 : s.outputsVec4[i + 1]? = some v2) (h1 : ti ≤ t) (h2 : t ≤ tj) :
    ∃ w1 w2 u, s.keys t = some (w1, w2, u)
      ∧ glm.mix4 w1 w2 u = glm.mix4 v1 v2 ((t - ti) / (tj - ti)) := by
  obtain ⟨w1, w2, u, hb, hm⟩ := bracket_mix t s.inputs s.outputsVec4 i ti tj v1 v2 hs hi hj
    ho1 ho2 h1 h2
  refine ⟨w1, w2, u, ?_, hm⟩
  unfold AnimationSampler.keys
  cases hin : s.inputs with
  | nil => simp [hin] at hi
  | cons t0 ts =>
    cases hout : s.outputsVec4 with
    | nil => simp [hout] at ho1
    | cons v0 vs =>
      have h0 : t0 ≤ ti := (pairwise_head_le t0 ts (hin ▸ hs) i ti (hin ▸ hi)).1
      have hnot : ¬ t < t0 := not_lt.mpr (le_trans h0 h1)
      simp only [List.head?_cons, hnot, if_false]
      rw [← hin, ← hout]
      exact hb

end channelProofs

section channelProofs2

theorem slerpBlend_self (arc : Quat ℚ → Quat ℚ → ℚ → ℚ → Quat ℚ) (eps : ℚ) (q : Quat ℚ)
    (u : ℚ) (heps : 0 < eps) : glm.slerpBlend arc eps q q 1 u = q := by
  have h : (1 : ℚ) > 1 - eps := by linarith
  simp [glm.slerpBlend, h, glm.mix_self]

theorem Quat.neg_neg (q : Quat ℚ) : Quat.neg (Quat.neg q) = q := by
  cases q; simp [Quat.neg]

theorem Quat.dot_neg (x y : Quat ℚ) : Quat.dot x (Quat.neg y) = -Quat.dot x y := by
  simp only [Quat.dot, Quat.neg]; ring

theorem heap_set_get (h : Heap ℚ) (target : Nat) (n m : Node ℚ) (hn : h[target]? = some n) :
    (h.set target m)[target]? = some m := by
  have hlt : target < h.length := by
    by_contra hc
    rw [List.getElem?_eq_none (not_lt.mp hc)] at hn
    exact Option.noConfusion hn
  simp [List.getElem?_set_self, hlt]

end channelProofs2

section loaderProofs

theorem pushChildren_length (h : Heap ℚ) : ∀ (p : Nat) (cs : List Nat),
    (pushChildren h p cs).length = h.length := by
  induction h with
  | nil => intro p cs; rfl
  | cons n h ih => intro p cs; cases p <;> simp [pushChildren, ih]

theorem pushChildren_append (h e : Heap ℚ) : ∀ (p : Nat) (cs : List Nat), p < h.length →
    pushChildren (h ++ e) p cs = pushChildren h p cs ++ e := by
  induction h with
  | nil => intro p cs hp; simp at hp
  | cons n h ih =>
    intro p cs hp
    cases p with
    | zero => simp [pushChildren]
    | succ p =>
      simp only [List.cons_append, pushChildren, List.cons.injEq, true_and]
      exact ih p cs (by simpa using hp)

theorem pushChildren_last (h : Heap ℚ) (par : Option Nat) (i : Nat) (cs : List Nat) :
    pushChildren (h ++ [loadedNode par i []]) h.length cs = h ++ [loadedNode par i cs] := by
  induction h with
  | nil => simp [pushChildren, loadedNode]
  | cons n h ih => simp [pushChildren, ih]

theorem pushChildren_pushChildren (h : Heap ℚ) : ∀ (p : Nat) (a b : List Nat),
    pushChildren (pushChildren h p a) p b = pushChildren h p (a ++ b) := by
  induction h with
  | nil => intro p a b; rfl
  | cons n h ih =>
    intro p a b
    cases p with
    | zero => simp [pushChildren]
    | succ p => simp [pushChildren, ih]

theorem pushTo_length (par : Option Nat) (cs : List Nat) (h : Heap ℚ) :
    (pushTo par cs h).length = h.length := by
  cases par with
  | none => rfl
  | some p => exact pushChildren_length h p cs

theorem pushTo_append (par : Option Nat) (cs : List Nat) (h e : Heap ℚ)
    (hp : ∀ p, par = some p → p < h.length) :
    pushTo par cs (h ++ e) = pushTo par cs h ++ e := by
  cases par with
  | none => rfl
  | some p => exact pushChildren_append h e p cs (hp p rfl)

theorem pushTo_pushTo (par : Option Nat) (a b : List Nat) (h : Heap ℚ) :
    pushTo par b (pushTo par a h) = pushTo par (a ++ b) h := by
  cases par with
  | none => rfl
  | some p => exact pushChildren_pushChildren h p a b

theorem layout_length (t : Shape) : ∀ (base : Nat) (par : Option Nat),
    (layout base par t).length = t.size := by
  induction t with
  | nil => intro base par; rfl
  | cons i kids rest ihk ihr =>
    intro base par
    simp [layout, Shape.size, ihk, ihr]
    omega

theorem pushChildren_nil (h : Heap ℚ) : ∀ p : Nat, pushChildren h p [] = h := by
  induction h with
  | nil => intro p; rfl
  | cons n h ih => intro p; cases p <;> simp [pushChildren, ih]

theorem pushTo_nil (par : Option Nat) (h : Heap ℚ) : pushTo par [] h = h := by
  cases par with
  | none => rfl
  | some p => exact pushChildren_nil h p

theorem loadNodes_eq (input : List GltfNode) (is : List Nat) (t : Shape)
    (hd : DocForest input is t) :
    ∀ (fuel : Nat) (h : Heap ℚ) (nodes : List Nat) (par : Option Nat),
      t.height ≤ fuel → (∀ p, par = some p → p < h.length) →
      is.foldlM (fun st i => loadNode input fuel st par i) (h, nodes)
        = some (pushTo par (rootAddrs h.length t) h ++ layout h.length par t,
            nodes ++ (if par = none then rootAddrs h.length t else [])) := by
  induction hd with
  | nil =>
    intro fuel h nodes par _ _
    simp [rootAddrs, layout, pushTo_nil]
  | @cons i gn is kids rest hi _ _ ihk ihr =>
    intro fuel h nodes par hf hp
    simp only [Shape.height] at hf
    cases fuel with
    | zero => omega
    | succ fuel =>
      have hkids := ihk fuel (h ++ [loadedNode par i []]) nodes (some h.length) (by omega)
        (by intro p hpp; cases hpp; simp)
      simp only [List.length_append, List.length_singleton, pushTo, pushChildren_last,
        if_false, List.append_nil] at hkids
      have hkids2 : (if (some h.length : Option Nat) = none
          then rootAddrs (h.length + 1) kids else []) = [] := by simp
      have hnode : loadNode input (fuel + 1) (h, nodes) par i
          = some (pushTo par [h.length] h ++ [loadedNode par i (rootAddrs (h.length + 1) kids)]
                ++ layout (h.length + 1) (some h.length) kids,
              nodes ++ (if par = none then [h.length] else [])) := by
        simp only [loadNode, hi, hkids]
        cases par with
        | none => simp [pushTo]
        | some p =>
          have hlt : p < h.length := hp p rfl
          simp only [pushTo, if_false, List.append_nil, reduceCtorEq]
          rw [List.append_assoc, pushChildren_append _ _ _ _ hlt]
          simp
      rw [List.foldlM_cons, hnode]
      simp only [Option.some_bind, Option.bind_eq_bind]
      have hlen : (pushTo par [h.length] h
          ++ [loadedNode par i (rootAddrs (h.length + 1) kids)]
          ++ layout (h.length + 1) (some h.length) kids).length
          = h.length + 1 + kids.size := by
        simp [pushTo_length, layout_length]
        omega
      rw [ihr (fuel + 1) _ _ par (by omega)
        (by intro p hpp; rw [hlen]; have := hp p hpp; omega), hlen]
      have happ : pushTo par (rootAddrs (h.length + 1 + kids.size) rest)
          (pushTo par [h.length] h ++ [loadedNode par i (rootAddrs (h.length + 1) kids)]
            ++ layout (h.length + 1) (some h.length) kids)
          = pushTo par (h.length :: rootAddrs (h.length + 1 + kids.size) rest) h
            ++ [loadedNode par i (rootAddrs (h.length + 1) kids)]
            ++ layout (h.length + 1) (some h.length) kids := by
        rw [List.append_assoc, pushTo_append _ _ _ _
          (by intro p hpp; rw [pushTo_length]; exact hp p hpp), pushTo_pushTo]
        simp
      rw [happ]
      cases par <;> simp [rootAddrs, layout, List.append_assoc]

end loaderProofs

section forestFacts

variable {R : Type} [CommRing R]

theorem IsForest.roots_mem (h : Heap R) (p : Option Nat) (is : List Nat) (f : Forest R)
    (hr : IsForest h p is f) : ∀ c ∈ is, ∃ m, (c, m) ∈ f.nodes ∧ m.parent = p := by
  induction hr with
  | nil p => intro c hc; simp at hc
  | @cons p i n is kids rest hi hp _ _ _ ihr =>
    intro c hc
    rcases List.mem_cons.mp hc with rfl | hc
    · exact ⟨n, by simp [Forest.nodes], hp⟩
    · obtain ⟨m, hm, hmp⟩ := ihr c hc
      exact ⟨m, by simp [Forest.nodes, hm], hmp⟩

theorem IsForest.children_mem (h : Heap R) (p : Option Nat) (is : List Nat) (f : Forest R)
    (hr : IsForest h p is f) :
    ∀ e ∈ f.nodes, ∀ c ∈ e.2.children, ∃ m, (c, m) ∈ f.nodes ∧ m.parent = some e.1 := by
  induction hr with
  | nil p => intro e he; simp [Forest.nodes] at he
  | @cons p i n is kids rest hi hp hk _ ihk ihr =>
    intro e he c hc
    simp only [Forest.nodes, List.mem_cons, List.mem_append] at he
    rcases he with rfl | he | he
    · obtain ⟨m, hm, hmp⟩ := IsForest.roots_mem h (some i) n.children kids hk c hc
      exact ⟨m, by simp [Forest.nodes, hm], hmp⟩
    · obtain ⟨m, hm, hmp⟩ := ihk e he c hc
      exact ⟨m, by simp [Forest.nodes, hm], hmp⟩
    · obtain ⟨m, hm, hmp⟩ := ihr e he c hc
      exact ⟨m, by simp [Forest.nodes, hm], hmp⟩

theorem IsForest.parent_cases (h : Heap R) (p : Option Nat) (is : List Nat) (f : Forest R)
    (hr : IsForest h p is f) :
    ∀ e ∈ f.nodes, (e.2.parent = p ∧ e.1 ∈ is)
      ∨ ∃ e2 ∈ f.nodes, e.2.parent = some e2.1 ∧ e.1 ∈ e2.2.children := by
  induction hr with
  | nil p => intro e he; simp [Forest.nodes] at he
  | @cons p i n is kids rest hi hp hk _ ihk ihr =>
    intro e he
    simp only [Forest.nodes, List.mem_cons, List.mem_append] at he
    rcases he with rfl | he | he
    · exact Or.inl ⟨hp, List.mem_cons_self _ _⟩
    · rcases ihk e he with ⟨h1, h2⟩ | ⟨e2, he2, h1, h2⟩
      · exact Or.inr ⟨(i, n), by simp [Forest.nodes], h1, h2⟩
      · exact Or.inr ⟨e2, by simp [Forest.nodes, he2], h1, h2⟩
    · rcases ihr e he with ⟨h1, h2⟩ | ⟨e2, he2, h1, h2⟩
      · exact Or.inl ⟨h1, List.mem_cons_of_mem _ h2⟩
      · exact Or.inr ⟨e2, by simp [Forest.nodes, he2], h1, h2⟩

theorem IsForest.roots_sublist (h : Heap R) (p : Option Nat) (is : List Nat) (f : Forest R)
    (hr : IsForest h p is f) : is.Sublist (f.nodes.map Prod.fst) := by
  induction hr with
  | nil p => simp [Forest.nodes]
  | @cons p i n is kids rest hi hp hk _ ihk ihr =>
    simp only [Forest.nodes, List.map_cons, List.map_append]
    exact List.Sublist.cons₂ _ (ihr.trans (List.sublist_append_right _ _))

theorem IsForest.children_nodup (h : Heap R) (p : Option Nat) (is : List Nat) (f : Forest R)
    (hr : IsForest h p is f) :
    (f.nodes.map Prod.fst).Nodup → ∀ e ∈ f.nodes, e.2.children.Nodup := by
  induction hr with
  | nil p => intro _ e he; simp [Forest.nodes] at he
  | @cons p i n is kids rest hi hp hk _ ihk ihr =>
    intro hnd e he
    simp only [Forest.nodes, List.map_cons, List.map_append, List.nodup_cons] at hnd
    have hnd2 := List.nodup_append.mp hnd.2
    simp only [Forest.nodes, List.mem_cons, List.mem_append] at he
    rcases he with rfl | he | he
    · exact (IsForest.roots_sublist h (some i) n.children kids hk).nodup hnd2.1
    · exact ihk hnd2.1 e he
    · exact ihr hnd2.2.1 e he

end forestFacts

section loaderFacts

theorem layout_indices (t : Shape) : ∀ (base : Nat) (par : Option Nat),
    (layout base par t).map Node.index = t.indices := by
  induction t with
  | nil => intro base par; rfl
  | cons i kids rest ihk ihr =>
    intro base par
    simp [layout, Shape.indices, ihk, ihr, loadedNode]

theorem forestOf_nodes (t : Shape) : ∀ (base : Nat) (par : Option Nat),
    (forestOf base par t).nodes = (layout base par t).enumFrom base := by
  induction t with
  | nil => intro base par; rfl
  | cons i kids rest ihk ihr =>
    intro base par
    simp only [forestOf, Forest.nodes, layout, List.enumFrom_cons, List.enumFrom_append, ihk,
      ihr, layout_length]

theorem getElem?_middle (pre mid suf : Heap ℚ) (k : Nat) (n : Node ℚ)
    (hk : mid[k]? = some n) : (pre ++ mid ++ suf)[pre.length + k]? = some n := by
  have hlt : k < mid.length := by
    by_contra hc
    rw [List.getElem?_eq_none (not_lt.mp hc)] at hk
    exact Option.noConfusion hk
  rw [List.append_assoc, List.getElem?_append_right (by omega)]
  simp only [Nat.add_sub_cancel_left]
  rw [List.getElem?_append_left hlt]
  exact hk

theorem isForest_layout (t : Shape) :
    ∀ (base : Nat) (par : Option Nat) (pre suf : Heap ℚ), pre.length = base →
      IsForest (pre ++ layout base par t ++ suf) par (rootAddrs base t) (forestOf base par t) := by
  induction t with
  | nil => intro base par pre suf _; exact IsForest.nil _
  | cons i kids rest ihk ihr =>
    intro base par pre suf hb
    simp only [rootAddrs, forestOf]
    refine IsForest.cons ?_ rfl ?_ ?_
    · have := getElem?_middle pre (layout base par (Shape.cons i kids rest)) suf 0
        (loadedNode par i (rootAddrs (base + 1) kids)) (by simp [layout])
      simpa [hb] using this
    · have := ihk (base + 1) (some base)
        (pre ++ [loadedNode par i (rootAddrs (base + 1) kids)])
        (layout (base + 1 + kids.size) par rest ++ suf) (by simp [hb])
      simpa [layout, loadedNode, List.append_assoc] using this
    · have := ihr (base + 1 + kids.size) par
        (pre ++ [loadedNode par i (rootAddrs (base + 1) kids)]
          ++ layout (base + 1) (some base) kids) suf
        (by simp [hb, layout_length]; omega)
      simpa [layout, List.append_assoc] using this

theorem rootAddrs_indices (input : List GltfNode) (ds : List Nat) (t : Shape)
    (hd : DocForest input ds t) :
    ∀ (base : Nat) (par : Option Nat) (pre suf : Heap ℚ), pre.length = base →
      (rootAddrs base t).map
          (fun c => ((pre ++ layout base par t ++ suf)[c]?).map Node.index)
        = ds.map some := by
  induction hd with
  | nil => intro base par pre suf _; rfl
  | @cons i gn is kids rest hi _ _ _ ihr =>
    intro base par pre suf hb
    simp only [rootAddrs, List.map_cons, List.cons.injEq]
    constructor
    · have := getElem?_middle pre (layout base par (Shape.cons i kids rest)) suf 0
        (loadedNode par i (rootAddrs (base + 1) kids)) (by simp [layout])
      simp only [Nat.add_zero, hb] at this
      rw [this]
      rfl
    · have := ihr (base + 1 + kids.size) par
        (pre ++ [loadedNode par i (rootAddrs (base + 1) kids)]
          ++ layout (base + 1) (some base) kids) suf
        (by simp [hb, layout_length]; omega)
      simpa [layout, List.append_assoc] using this

theorem layout_children_mirror (input : List GltfNode) (ds : List Nat) (t : Shape)
    (hd : DocForest input ds t) :
    ∀ (base : Nat) (par : Option Nat) (pre suf : Heap ℚ), pre.length = base →
      ∀ n ∈ layout base par t, ∃ gn, input[n.index]? = some gn
        ∧ n.children.map (fun c => ((pre ++ layout base par t ++ suf)[c]?).map Node.index)
            = gn.children.map some := by
  induction hd with
  | nil => intro base par pre suf _ n hn; simp [layout] at hn
  | @cons i gn is kids rest hi hk _ ihk ihr =>
    intro base par pre suf hb n hn
    simp only [layout, List.mem_cons, List.mem_append] at hn
    rcases hn with rfl | hn | hn
    · refine ⟨gn, hi, ?_⟩
      have := rootAddrs_indices input gn.children kids hk (base + 1) (some base)
        (pre ++ [loadedNode par i (rootAddrs (base + 1) kids)])
        (layout (base + 1 + kids.size) par rest ++ suf) (by simp [hb])
      simpa [layout, loadedNode, List.append_assoc] using this
    · have := ihk (base + 1) (some base)
        (pre ++ [loadedNode par i (rootAddrs (base + 1) kids)])
        (layout (base + 1 + kids.size) par rest ++ suf) (by simp [hb]) n hn
      simpa [layout, List.append_assoc] using this
    · have := ihr (base + 1 + kids.size) par
        (pre ++ [loadedNode par i (rootAddrs (base + 1) kids)]
          ++ layout (base + 1) (some base) kids) suf
        (by simp [hb, layout_length]; omega) n hn
      simpa [layout, List.append_assoc] using this

end loaderFacts

theorem sampleDocument_docForest : DocForest sampleDocument [0, 4] sampleShape :=
  DocForest.cons (rfl : sampleDocument[0]? = some ⟨[1, 2]⟩)
    (DocForest.cons (rfl : sampleDocument[1]? = some ⟨[]⟩) DocForest.nil
      (DocForest.cons (rfl : sampleDocument[2]? = some ⟨[3]⟩)
        (DocForest.cons (rfl : sampleDocument[3]? = some ⟨[]⟩) DocForest.nil DocForest.nil)
        DocForest.nil))
    (DocForest.cons (rfl : sampleDocument[4]? = some ⟨[]⟩) DocForest.nil DocForest.nil)

section lastProofs

variable {R : Type} [CommRing R]

theorem Forest.mem_addrs_iff (f : Forest R) (a : Nat) :
    a ∈ f.addrs ↔ ∃ e ∈ f.nodes, ∃ mesh, e.2.mesh = some mesh ∧ mesh.mapped = a := by
  unfold Forest.addrs
  rw [List.mem_filterMap]
  constructor
  · rintro ⟨e, he, hm⟩
    cases hmesh : e.2.mesh with
    | none => simp [hmesh] at hm
    | some mesh =>
      refine ⟨e, he, mesh, hmesh, ?_⟩
      simpa [hmesh] using hm
  · rintro ⟨e, he, mesh, hm, rfl⟩
    exact ⟨e, he, by simp [hm]⟩

theorem nat_or_eq_zero (x y : Nat) : x ||| y = 0 ↔ x = 0 ∧ y = 0 := by
  constructor
  · intro h
    have hb : ∀ i, (x ||| y).testBit i = false := by intro i; rw [h]; simp
    constructor
    · apply Nat.eq_of_testBit_eq
      intro i
      have := hb i
      rw [Nat.testBit_or] at this
      simp only [Bool.or_eq_false_iff] at this
      simp [this.1]
    · apply Nat.eq_of_testBit_eq
      intro i
      have := hb i
      rw [Nat.testBit_or] at this
      simp only [Bool.or_eq_false_iff] at this
      simp [this.2]
  · rintro ⟨rfl, rfl⟩
    rfl

theorem FileLoadingFlags.mask_foldl (options : List FileLoadingFlags) :
    ∀ (m : Nat) (o : FileLoadingFlags),
      (options.foldl (fun m q => m ||| q.value) m) &&& o.value ≠ 0
        ↔ m &&& o.value ≠ 0 ∨ ∃ q ∈ options, q.value &&& o.value ≠ 0 := by
  induction options with
  | nil => intro m o; simp
  | cons q qs ih =>
    intro m o
    rw [List.foldl_cons, ih]
    have hd : (m ||| q.value) &&& o.value ≠ 0
        ↔ m &&& o.value ≠ 0 ∨ q.value &&& o.value ≠ 0 := by
      rw [Nat.and_comm, Nat.and_or_distrib_left, Nat.and_comm o.value m,
        Nat.and_comm o.value q.value, Ne, nat_or_eq_zero]
      tauto
    rw [hd]
    simp only [List.mem_cons, exists_eq_or_imp]
    tauto

theorem FileLoadingFlags.value_and (q o : FileLoadingFlags) (ho : o ≠ FileLoadingFlags.None) :
    q.value &&& o.value ≠ 0 ↔ q = o := by
  cases q <;> cases o <;> simp_all [FileLoadingFlags.value] <;> decide

end lastProofs

section poolProofs

variable {R : Type} [CommRing R]

theorem setupNodeDescriptorSet_forest (h : Heap R) (p : Option Nat) (is : List Nat)
    (f : Forest R) (hr : IsForest h p is f) :
    ∀ (fuel allocated : Nat), f.height ≤ fuel →
      is.foldlM (fun acc node => setupNodeDescriptorSet h fuel acc node) allocated
        = some (allocated + f.addrs.length) := by
  induction hr with
  | nil p => intro fuel allocated _; simp [Forest.addrs, Forest.nodes]
  | @cons p i n is kids rest hi hp _ _ ihk ihr =>
    intro fuel allocated hf
    simp only [Forest.height] at hf
    cases fuel with
    | zero => omega
    | succ fuel =>
      have hnode : setupNodeDescriptorSet h (fuel + 1) allocated i
          = some ((if n.mesh.isSome then allocated + 1 else allocated) + kids.addrs.length) := by
        simp only [setupNodeDescriptorSet, hi]
        exact ihk fuel _ (by omega)
      rw [List.foldlM_cons, hnode]
      simp only [Option.some_bind, Option.bind_eq_bind]
      rw [ihr (fuel + 1) _ (by omega), Forest.addrs_cons]
      cases hm : n.mesh <;> simp [hm] <;> omega

end poolProofs

section arithmeticProofs

variable {S : Type} {R : Type} [CommRing R]

theorem arith_getMatrixLoop_eq (A : Arith S) (h : Heap S) (p : Option Nat) (ns : List (Node S))
    (hc : ParentChain h p ns) :
    ∀ (gas : Nat) (m : Mat4 S), ns.length ≤ gas →
      A.getMatrixLoop h gas m p = some ((ns.map A.getLocalMatrix).foldr A.matMul m) := by
  induction hc with
  | null => intro gas m _; cases gas <;> simp [Arith.getMatrixLoop]
  | @step i n ms hi _ ih =>
    intro gas m hg
    cases gas with
    | zero => simp at hg
    | succ gas =>
      have hg2 : ms.length ≤ gas := by simpa using hg
      simp only [Arith.getMatrixLoop, hi]
      rw [ih gas _ hg2]
      simp

theorem arith_getMatrix_of_chain (A : Arith S) (h : Heap S) (i : Nat) (n : Node S)
    (anc : List (Node S)) (hi : h[i]? = some n) (hc : ParentChain h n.parent anc) (gas : Nat)
    (hg : anc.length ≤ gas) :
    A.getMatrix gas h i
      = some ((anc.map A.getLocalMatrix).foldr A.matMul (A.getLocalMatrix n)) := by
  simp only [Arith.getMatrix, hi]
  exact arith_getMatrixLoop_eq A h n.parent anc hc gas _ hg

theorem exact_matMul_eq (a b : Mat4 R) : (Arith.exact R).matMul a b = a * b := by
  ext r c
  simp [Arith.matMul, Arith.exact, Matrix.mul_apply, Fin.sum_univ_four]

theorem exact_identity_eq : (Arith.exact R).identity = (1 : Mat4 R) := by
  ext r c
  simp [Arith.identity, Arith.exact, Matrix.one_apply]

theorem exact_translate_eq (m : Mat4 R) (v : Vec3 R) :
    (Arith.exact R).translate m v = glm.translate m v := rfl

theorem exact_scale_eq (m : Mat4 R) (v : Vec3 R) :
    (Arith.exact R).scale m v = glm.scale m v := rfl

theorem exact_mat4_cast_eq (q : Quat R) :
    (Arith.exact R).mat4_cast q = glm.mat4_cast q := rfl

theorem exact_getLocalMatrix_eq (n : Node R) :
    (Arith.exact R).getLocalMatrix n = n.getLocalMatrix := by
  simp only [Arith.getLocalMatrix, Node.getLocalMatrix, exact_matMul_eq, exact_identity_eq,
    exact_translate_eq, exact_scale_eq, exact_mat4_cast_eq]

theorem exact_getMatrixLoop_eq (h : Heap R) :
    ∀ (gas : Nat) (m : Mat4 R) (p : Option Nat),
      (Arith.exact R).getMatrixLoop h gas m p = getMatrixLoop h gas m p := by
  intro gas
  induction gas with
  | zero => intro m p; cases p <;> simp [Arith.getMatrixLoop, getMatrixLoop]
  | succ gas ih =>
    intro m p
    cases p with
    | none => simp [Arith.getMatrixLoop, getMatrixLoop]
    | some p =>
      simp only [Arith.getMatrixLoop, getMatrixLoop]
      cases hp : h[p]? with
      | none => rfl
      | some pn =>
        simp only [exact_matMul_eq, exact_getLocalMatrix_eq]
        exact ih _ _

theorem exact_getMatrix_eq (gas : Nat) (h : Heap R) (i : Nat) :
    (Arith.exact R).getMatrix gas h i = getMatrix gas h i := by
  simp only [Arith.getMatrix, getMatrix]
  cases hi : h[i]? with
  | none => rfl
  | some n =>
    simp only [exact_getLocalMatrix_eq]
    exact exact_getMatrixLoop_eq h gas _ _

/-- Values of the rounding to binary32: ties at 2 to the power 24 go to the even neighbour,
and 1/10 and -1/3 are rounded to the binary32 numbers `0.1f` and `-1.0f / 3.0f`. -/
theorem round32_examples :
    round32 16777217 = 16777216 ∧ round32 16777218 = 16777218 ∧ round32 16777219 = 16777220
    ∧ round32 (1 / 10) = 13421773 / 134217728 ∧ round32 (-1 / 3) = -11184811 / 33554432 := by
  refine ⟨by decide!, by decide!, by decide!, by decide!, by decide!⟩

/-- The two nestings of the chain of products differ in binary32 at ordinary magnitudes as
well: with the scales 3, `0.1f` and 7 along a three-level hierarchy, `Node::getMatrix` of the
grandchild has the entry `3 * (0.1f * 7)` where `getMatrix(parent) * getLocalMatrix` has
`(3 * 0.1f) * 7`. -/
theorem nesting_differs_at_ordinary_scales :
    ∃ m mp : Mat4 ℚ, Arith.binary32.getMatrix 2 gHierarchy 2 = some m
      ∧ Arith.binary32.getMatrix 2 gHierarchy 1 = some mp
      ∧ m 0 0 = 4404019 / 2097152
      ∧ Arith.binary32.matMul mp (Arith.binary32.getLocalMatrix gGrandchild) 0 0
          = 8808039 / 4194304 := by
  refine ⟨Arith.binary32.matMul (Arith.binary32.getLocalMatrix gRoot)
      (Arith.binary32.matMul (Arith.binary32.getLocalMatrix gChild)
        (Arith.binary32.getLocalMatrix gGrandchild)),
    Arith.binary32.matMul (Arith.binary32.getLocalMatrix gRoot)
      (Arith.binary32.getLocalMatrix gChild), rfl, rfl, by decide!, by decide!⟩

end arithmeticProofs

section claims

variable {R : Type} [CommRing R]

/-- C1: for a node whose chain of parent pointers ends at a root, with the nodes
`ns = [n_0, ..., n_k]` on the chain (root first, the node itself last), `Node::getMatrix`
returns, as soon as the bound allows the `k` iterations of its loop, the product
`getLocalMatrix n_0 * ... * getLocalMatrix n_k`. -/
theorem getMatrix_eq_chain_product (h : Heap R) (i : Nat) (ns : List (Node R)) (gas : Nat)
    (hc : ParentChain h (some i) ns) (hg : ns.length ≤ gas + 1) :
    getMatrix gas h i = some (ns.map Node.getLocalMatrix).prod := by
  obtain ⟨n, anc, rfl, hi, hp⟩ := parentChain_last h i ns hc
  rw [getMatrix_of_chain h i n anc hi hp gas (by simpa using hg)]
  simp

/-- Witness of C1: in the hierarchy root (translate by (1,0,0)), child (rotation by 90 degrees
about Y), grandchild (scale by 2), the world matrix of the grandchild is
`root.local * child.local * grandchild.local`. -/
theorem getMatrix_eq_chain_product_witness :
    ParentChain hierarchy3 (some 2) [hRoot, hChild, hGrandchild]
    ∧ [hRoot, hChild, hGrandchild].length ≤ 2 + 1
    ∧ getMatrix 2 hierarchy3 2
        = some (hRoot.getLocalMatrix * hChild.getLocalMatrix * hGrandchild.getLocalMatrix)
    ∧ getMatrix 2 hierarchy3 2 = some !![0, 0, 2, 1; 0, 2, 0, 0; -2, 0, 0, 0; 0, 0, 0, 1] := by
  have h0 : ParentChain hierarchy3 (some 0) ([] ++ [hRoot]) :=
    ParentChain.step rfl ParentChain.null
  have h1 : ParentChain hierarchy3 (some 1) ([hRoot] ++ [hChild]) := ParentChain.step rfl h0
  have hc : ParentChain hierarchy3 (some 2) ([hRoot, hChild] ++ [hGrandchild]) :=
    ParentChain.step rfl h1
  have h := getMatrix_eq_chain_product hierarchy3 2 [hRoot, hChild, hGrandchild] 2 hc (by decide)
  have h2 : getMatrix 2 hierarchy3 2
      = some (hRoot.getLocalMatrix * hChild.getLocalMatrix * hGrandchild.getLocalMatrix) := by
    simpa [mul_assoc] using h
  exact ⟨hc, by decide, h2, by rw [h2, hierarchy3_product]⟩

/-- C2: for a node whose `matrix` field is the identity, `Node::getLocalMatrix` is
`translate(translation) * mat4(rotation) * scale(scale)`, in this order. -/
theorem getLocalMatrix_of_matrix_one (n : Node R) (hm : n.matrix = 1) :
    n.getLocalMatrix
      = glm.translate 1 n.translation * glm.mat4_cast n.rotation * glm.scale 1 n.scale := by
  simp [Node.getLocalMatrix, hm]

/-- Witness of C2: a node with translation (1,2,3), a half turn about X and scale (2,3,4). -/
theorem getLocalMatrix_of_matrix_one_witness :
    trsNode.matrix = 1
    ∧ trsNode.getLocalMatrix
        = glm.translate 1 ⟨1, 2, 3⟩ * glm.mat4_cast ⟨0, 1, 0, 0⟩ * glm.scale 1 ⟨2, 3, 4⟩ :=
  ⟨rfl, getLocalMatrix_of_matrix_one trsNode rfl⟩

/-- C3: for a node with an explicit matrix `M` and neutral translation (zero), rotation
(identity quaternion) and scale (one), `Node::getLocalMatrix` returns `M`. -/
theorem getLocalMatrix_of_neutral_trs (n : Node R) (ht : n.translation = ⟨0, 0, 0⟩)
    (hr : n.rotation = ⟨1, 0, 0, 0⟩) (hs : n.scale = ⟨1, 1, 1⟩) :
    n.getLocalMatrix = n.matrix := by
  simp [Node.getLocalMatrix, ht, hr, hs, glm.translate_zero, glm.scale_one,
    glm.mat4_cast_identity]

/-- Witness of C3: the node carrying the explicit rotation by 90 degrees about Y. -/
theorem getLocalMatrix_of_neutral_trs_witness :
    hChild.translation = ⟨0, 0, 0⟩ ∧ hChild.rotation = ⟨1, 0, 0, 0⟩ ∧ hChild.scale = ⟨1, 1, 1⟩
    ∧ hChild.getLocalMatrix = rotateY90 :=
  ⟨rfl, rfl, rfl, getLocalMatrix_of_neutral_trs hChild rfl rfl rfl⟩

/-- C4: on a tree (the children pointers from the node at `i` unfold to the forest `f`, the
parent pointers agree with them, the chain of ancestors of the node ends at a root, and the
meshes own distinct uniform buffers), `Node::update` returns, and afterwards the mapped
uniform buffer of every mesh-bearing node of the subtree holds the world matrix `getMatrix`
of that node. -/
theorem update_writes_world_matrix (h : Heap R) (p : Option Nat) (i : Nat) (anc : List (Node R))
    (f : Forest R) (gas fuel : Nat) (mem : Mem R) (hc : ParentChain h p anc)
    (hr : IsForest h p [i] f) (hown : f.addrs.Nodup) (hg : anc.length + f.height ≤ gas + 1)
    (hf : f.height ≤ fuel) :
    ∃ mem1 : Mem R, update gas h fuel mem i = some mem1
      ∧ ∀ e ∈ f.nodes, h[e.1]? = some e.2
        ∧ ∀ mesh, e.2.mesh = some mesh → getMatrix gas h e.1 = some (mem1 mesh.mapped) := by
  obtain ⟨mem1, h1, _, h3⟩ := update_forest h p [i] f hr anc gas fuel mem hc hg hf
  refine ⟨mem1, ?_, fun e he => ⟨IsForest.nodes_lookup h p [i] f hr e he, h3 hown e he⟩⟩
  simp only [List.foldlM_cons, List.foldlM_nil] at h1
  cases hu : update gas h fuel mem i with
  | none => simp [hu] at h1
  | some m => simpa [hu] using h1

/-- Witness of C4: the update of the mesh-less root of three sibling mesh nodes. -/
theorem update_writes_world_matrix_witness :
    ParentChain siblings none []
    ∧ IsForest siblings none [0] siblingsForest
    ∧ siblingsForest.addrs.Nodup
    ∧ ([] : List (Node ℚ)).length + siblingsForest.height ≤ 1 + 1
    ∧ siblingsForest.height ≤ 2
    ∧ ∃ mem1 : Mem ℚ, update 1 siblings 2 (fun _ => 0) 0 = some mem1
      ∧ ∀ e ∈ siblingsForest.nodes, siblings[e.1]? = some e.2
        ∧ ∀ mesh, e.2.mesh = some mesh → getMatrix 1 siblings e.1 = some (mem1 mesh.mapped) :=
  ⟨ParentChain.null, siblings_isForest, by decide, by decide, by decide,
    update_writes_world_matrix siblings none 0 [] siblingsForest 1 2 (fun _ => 0)
      ParentChain.null siblings_isForest (by decide) (by decide) (by decide)⟩

/-- C5: for a model whose root pointers unfold to the forest `f`, `renderSkybox` returns and
the indexed draws among the commands it appends are, in this order, the draws of `f`: roots in
array order, each node before its children, children in array order, and per node one draw
`(indexCount, 1, firstIndex, 0, 0)` for each primitive with `indexCount > 0`. -/
theorem renderSkybox_draw_order (model : Model R) (f : Forest R) (gas fuel layout : Nat)
    (cb : List (Cmd R)) (hr : IsForest model.heap none model.nodes f) (hg : f.height ≤ gas + 1)
    (hf : f.height ≤ fuel) :
    ∃ new : List (Cmd R), renderSkybox gas fuel model cb layout = some (cb ++ new)
      ∧ new.filter Cmd.isDrawIndexed = f.draws := by
  refine ⟨_, renderSkybox_eq model f gas fuel layout cb hr hg hf, ?_⟩
  simp [List.filter_cons, Cmd.isDrawIndexed, Forest.cmds_filter_draws]

/-- Witness of C5: three sibling mesh nodes with two primitives each give six draws in the
declared order. -/
theorem renderSkybox_draw_order_witness :
    IsForest siblingsModel.heap none siblingsModel.nodes siblingsForest
    ∧ siblingsForest.height ≤ 1 + 1
    ∧ siblingsForest.height ≤ 2
    ∧ siblingsForest.draws
        = [Cmd.drawIndexed 3 1 0 0 0, Cmd.drawIndexed 3 1 3 0 0, Cmd.drawIndexed 6 1 6 0 0,
            Cmd.drawIndexed 3 1 12 0 0, Cmd.drawIndexed 3 1 15 0 0, Cmd.drawIndexed 9 1 18 0 0]
    ∧ ∃ new : List (Cmd ℚ), renderSkybox 1 2 siblingsModel [] 31 = some ([] ++ new)
      ∧ new.filter Cmd.isDrawIndexed = siblingsForest.draws :=
  ⟨siblings_isForest, by decide, by decide, rfl,
    renderSkybox_draw_order siblingsModel siblingsForest 1 2 31 [] siblings_isForest
      (by decide) (by decide)⟩

/-- Counterexample of C6: for two root nodes, the first with three primitives of three
indices and the second with one primitive without index, `renderSkyboxNode` pushes once per
node: not every draw directly follows a push, there are two pushes for three draws, and the
second node, which has no primitive with `indexCount > 0`, causes a push. -/
theorem renderSkybox_push_per_primitive_counterexample :
    ∃ out : List (Cmd ℚ), renderSkybox 0 1 pushModel [] 31 = some out
      ∧ out = [Cmd.bindVertexBuffers 11, Cmd.bindIndexBuffer 12,
          Cmd.pushConstants 31 pA.getLocalMatrix,
          Cmd.drawIndexed 3 1 0 0 0, Cmd.drawIndexed 3 1 3 0 0, Cmd.drawIndexed 3 1 6 0 0,
          Cmd.pushConstants 31 pB.getLocalMatrix]
      ∧ drawsFollowPush false out = false
      ∧ (out.filter Cmd.isPushConstants).length = 2
      ∧ (out.filter Cmd.isDrawIndexed).length = 3
      ∧ pB.mesh = some ⟨[⟨9, 0, 0⟩], 101⟩ := by
  refine ⟨_, renderSkybox_eq pushModel _ 0 1 31 [] pushModel_isForest (by decide) (by decide),
    ?_, ?_, ?_, ?_, rfl⟩
  · simp [Forest.cmds, nodeCmds, nodeDraws, primitiveDraw, pA, pB, plainNode, pushModel]
  · rfl
  · rfl
  · rfl

/-- C6 as amended: for a model whose root pointers unfold to the forest `f`, `renderSkybox`
returns, and after the binds of the vertex and index buffers the commands are, for the nodes
in traversal order with their world matrices, one push of the world matrix followed by the
indexed draws of the node when the node has a mesh with at least one primitive, and nothing
otherwise; the number of pushes is the number of nodes with a mesh with at least one
primitive. -/
theorem renderSkybox_push_once_per_node (model : Model R) (f : Forest R) (gas fuel layout : Nat)
    (cb : List (Cmd R)) (hr : IsForest model.heap none model.nodes f) (hg : f.height ≤ gas + 1)
    (hf : f.height ≤ fuel) :
    ∃ new : List (Cmd R), renderSkybox gas fuel model cb layout
        = some (cb ++ Cmd.bindVertexBuffers model.verticesBuffer
            :: Cmd.bindIndexBuffer model.indicesBuffer :: new)
      ∧ new = (f.worlds 1).flatMap
          (fun e =>
            if e.2.hasPrimitives then Cmd.pushConstants layout e.1 :: nodeDraws e.2 else [])
      ∧ (new.filter Cmd.isPushConstants).length = f.pushCount := by
  refine ⟨f.cmds layout 1, renderSkybox_eq model f gas fuel layout cb hr hg hf, ?_,
    Forest.cmds_push_count layout f 1⟩
  rw [Forest.cmds_eq_worlds]
  congr 1
  funext e
  unfold nodeCmds Node.hasPrimitives
  cases e.2.mesh with
  | none => simp
  | some mesh => by_cases hp : mesh.primitives.length > 0 <;> simp [hp]

/-- Witness of C6 as amended: the scene of three sibling mesh nodes below a mesh-less root
gives three pushes. -/
theorem renderSkybox_push_once_per_node_witness :
    IsForest siblingsModel.heap none siblingsModel.nodes siblingsForest
    ∧ siblingsForest.height ≤ 1 + 1
    ∧ siblingsForest.height ≤ 2
    ∧ siblingsForest.pushCount = 3
    ∧ ∃ new : List (Cmd ℚ), renderSkybox 1 2 siblingsModel [] 31
        = some ([] ++ Cmd.bindVertexBuffers siblingsModel.verticesBuffer
            :: Cmd.bindIndexBuffer siblingsModel.indicesBuffer :: new)
      ∧ new = (siblingsForest.worlds 1).flatMap
          (fun e =>
            if e.2.hasPrimitives then Cmd.pushConstants 31 e.1 :: nodeDraws e.2 else [])
      ∧ (new.filter Cmd.isPushConstants).length = siblingsForest.pushCount :=
  ⟨siblings_isForest, by decide, by decide, by decide,
    renderSkybox_push_once_per_node siblingsModel siblingsForest 1 2 31 [] siblings_isForest
      (by decide) (by decide)⟩

/-- C7: for a skybox model whose root pointers unfold to a forest, the traversal
`renderSkybox` returns and appends commands `trav` none of which binds a descriptor set; the
skybox pass appends the bind of `descriptorSets.skybox`, the bind of the skybox pipeline and
then `trav`, so it binds a descriptor set exactly once, before the traversal; and every
command buffer recorded by `buildCommandBuffers` starts with the begin of the render pass,
the viewport, the scissor and this skybox pass. -/
theorem skyboxPass_binds_descriptor_set_once (ex : VulkanExample R) (f : Forest R)
    (gas fuel : Nat) (sceneDraw ui : List (Cmd R))
    (hr : IsForest ex.skyboxModel.heap none ex.skyboxModel.nodes f) (hg : f.height ≤ gas + 1)
    (hf : f.height ≤ fuel) :
    ∃ trav : List (Cmd R),
      (∀ cb, renderSkybox gas fuel ex.skyboxModel cb ex.layoutShaded = some (cb ++ trav))
      ∧ (∀ c ∈ trav, c.isBindDescriptorSets = false)
      ∧ (∀ cb, recordSkyboxPass gas fuel ex cb
          = some (cb ++ Cmd.bindDescriptorSets ex.layoutShaded 0 ex.setSkybox
              :: Cmd.bindPipeline ex.pipelineSkybox :: trav))
      ∧ (Cmd.bindDescriptorSets ex.layoutShaded 0 ex.setSkybox
            :: Cmd.bindPipeline ex.pipelineSkybox :: trav).filter Cmd.isBindDescriptorSets
          = [Cmd.bindDescriptorSets ex.layoutShaded 0 ex.setSkybox]
      ∧ ∃ bufs, buildCommandBuffers gas fuel ex sceneDraw ui = some bufs
        ∧ bufs.length = ex.frameBuffers.length
        ∧ ∀ buf ∈ bufs, ∃ post,
            buf = [Cmd.beginRenderPass ex.offscreenRenderPass ex.offscreenFrameBuffer
                    ex.offscreenWidth ex.offscreenHeight,
                  Cmd.setViewport ex.offscreenWidth ex.offscreenHeight,
                  Cmd.setScissor ex.offscreenWidth ex.offscreenHeight]
                ++ (Cmd.bindDescriptorSets ex.layoutShaded 0 ex.setSkybox
                    :: Cmd.bindPipeline ex.pipelineSkybox :: trav)
                ++ post := by
  have hrender : ∀ cb, renderSkybox gas fuel ex.skyboxModel cb ex.layoutShaded
      = some (cb ++ Cmd.bindVertexBuffers ex.skyboxModel.verticesBuffer
          :: Cmd.bindIndexBuffer ex.skyboxModel.indicesBuffer :: f.cmds ex.layoutShaded 1) :=
    fun cb => renderSkybox_eq ex.skyboxModel f gas fuel ex.layoutShaded cb hr hg hf
  have hnobind : ∀ c ∈ Cmd.bindVertexBuffers ex.skyboxModel.verticesBuffer
      :: Cmd.bindIndexBuffer ex.skyboxModel.indicesBuffer :: f.cmds ex.layoutShaded 1,
      c.isBindDescriptorSets = false := by
    intro c hc
    simp only [List.mem_cons] at hc
    rcases hc with rfl | rfl | hc
    · rfl
    · rfl
    · exact (Forest.cmds_no_bind ex.layoutShaded f 1 c hc).1
  have hpass : ∀ cb, recordSkyboxPass gas fuel ex cb
      = some (cb ++ Cmd.bindDescriptorSets ex.layoutShaded 0 ex.setSkybox
          :: Cmd.bindPipeline ex.pipelineSkybox
          :: Cmd.bindVertexBuffers ex.skyboxModel.verticesBuffer
          :: Cmd.bindIndexBuffer ex.skyboxModel.indicesBuffer :: f.cmds ex.layoutShaded 1) := by
    intro cb
    unfold recordSkyboxPass
    simp only [hrender]
    simp
  refine ⟨_, hrender, hnobind, hpass, ?_, ?_⟩
  · simp only [List.filter_cons, Cmd.isBindDescriptorSets, if_true]
    have : (f.cmds ex.layoutShaded 1).filter Cmd.isBindDescriptorSets = [] := by
      rw [List.filter_eq_nil_iff]
      intro c hc
      simp [(Forest.cmds_no_bind ex.layoutShaded f 1 c hc).1]
    simp [this]
  · unfold buildCommandBuffers recordCommandBuffer
    simp only [hpass]
    rw [mapM_some]
    refine ⟨_, rfl, by simp, ?_⟩
    intro buf hbuf
    simp only [List.mem_map] at hbuf
    obtain ⟨fb, _, rfl⟩ := hbuf
    refine ⟨[Cmd.bindDescriptorSets ex.layoutShaded 0 ex.setScene,
          Cmd.bindPipeline (if ex.wireframe then ex.pipelineWireframe else ex.pipelineSolid)]
        ++ sceneDraw
        ++ [Cmd.endRenderPass,
            Cmd.beginRenderPass ex.renderPass fb ex.width ex.height,
            Cmd.setViewport ex.width ex.height,
            Cmd.setScissor ex.width ex.height,
            Cmd.bindDescriptorSets ex.layoutTextured 0 ex.setQuad,
            Cmd.bindPipeline ex.pipelineQuad,
            Cmd.draw 3 1 0 0]
        ++ ui
        ++ [Cmd.endRenderPass], ?_⟩
    simp

/-- Witness of C7: an application whose skybox model is the scene of three siblings. -/
theorem skyboxPass_binds_descriptor_set_once_witness :
    IsForest sampleExample.skyboxModel.heap none sampleExample.skyboxModel.nodes siblingsForest
    ∧ siblingsForest.height ≤ 1 + 1
    ∧ siblingsForest.height ≤ 2
    ∧ ∃ trav : List (Cmd ℚ),
      (∀ cb, renderSkybox 1 2 sampleExample.skyboxModel cb sampleExample.layoutShaded
          = some (cb ++ trav))
      ∧ (∀ c ∈ trav, c.isBindDescriptorSets = false)
      ∧ ∃ bufs, buildCommandBuffers 1 2 sampleExample [] [] = some bufs
        ∧ bufs.length = 2 := by
  refine ⟨siblings_isForest, by decide, by decide, ?_⟩
  obtain ⟨trav, h1, h2, _, _, bufs, h5, h6, _⟩ :=
    skyboxPass_binds_descriptor_set_once sampleExample siblingsForest 1 2 [] []
      siblings_isForest (by decide) (by decide)
  exact ⟨trav, h1, h2, bufs, h5, h6⟩

/-- C8: for a model whose root pointers unfold to a forest (also the empty one),
`renderSkybox` returns and appends first one bind of the shared vertex buffer, then one bind
of the shared index buffer, then only pushes and indexed draws: each of the two binds occurs
exactly once and before every push and every draw. -/
theorem renderSkybox_binds_buffers_once (model : Model R) (f : Forest R) (gas fuel layout : Nat)
    (cb : List (Cmd R)) (hr : IsForest model.heap none model.nodes f) (hg : f.height ≤ gas + 1)
    (hf : f.height ≤ fuel) :
    ∃ rest : List (Cmd R), renderSkybox gas fuel model cb layout
        = some (cb ++ Cmd.bindVertexBuffers model.verticesBuffer
            :: Cmd.bindIndexBuffer model.indicesBuffer :: rest)
      ∧ (∀ c ∈ rest, (c.isPushConstants = true ∨ c.isDrawIndexed = true)
          ∧ c.isBindVertexBuffers = false ∧ c.isBindIndexBuffer = false)
      ∧ ((Cmd.bindVertexBuffers model.verticesBuffer
            :: Cmd.bindIndexBuffer model.indicesBuffer :: rest).filter
              Cmd.isBindVertexBuffers).length = 1
      ∧ ((Cmd.bindVertexBuffers model.verticesBuffer
            :: Cmd.bindIndexBuffer model.indicesBuffer :: rest).filter
              Cmd.isBindIndexBuffer).length = 1 := by
  have hno := Forest.cmds_no_bind layout f 1
  have hv : (f.cmds layout 1).filter Cmd.isBindVertexBuffers = [] := by
    rw [List.filter_eq_nil_iff]
    intro c hc
    simp [(hno c hc).2.1]
  have hx : (f.cmds layout 1).filter Cmd.isBindIndexBuffer = [] := by
    rw [List.filter_eq_nil_iff]
    intro c hc
    simp [(hno c hc).2.2]
  refine ⟨f.cmds layout 1, renderSkybox_eq model f gas fuel layout cb hr hg hf, ?_, ?_, ?_⟩
  · intro c hc
    exact ⟨Forest.cmds_push_or_draw layout f 1 c hc, (hno c hc).2.1, (hno c hc).2.2⟩
  · simp [List.filter_cons, Cmd.isBindVertexBuffers, hv]
  · simp [List.filter_cons, Cmd.isBindIndexBuffer, hx]

/-- Witness of C8: a model without any root node records exactly the two binds. -/
theorem renderSkybox_binds_buffers_once_witness :
    IsForest emptyModel.heap none emptyModel.nodes Forest.nil
    ∧ (Forest.nil : Forest ℚ).height ≤ 0 + 1
    ∧ (Forest.nil : Forest ℚ).height ≤ 0
    ∧ renderSkybox 0 0 emptyModel [] 31
        = some [Cmd.bindVertexBuffers 11, Cmd.bindIndexBuffer 12]
    ∧ ∃ rest : List (Cmd ℚ), renderSkybox 0 0 emptyModel [] 31
        = some ([] ++ Cmd.bindVertexBuffers emptyModel.verticesBuffer
            :: Cmd.bindIndexBuffer emptyModel.indicesBuffer :: rest)
      ∧ (∀ c ∈ rest, (c.isPushConstants = true ∨ c.isDrawIndexed = true)
          ∧ c.isBindVertexBuffers = false ∧ c.isBindIndexBuffer = false)
      ∧ ((Cmd.bindVertexBuffers emptyModel.verticesBuffer
            :: Cmd.bindIndexBuffer emptyModel.indicesBuffer :: rest).filter
              Cmd.isBindVertexBuffers).length = 1
      ∧ ((Cmd.bindVertexBuffers emptyModel.verticesBuffer
            :: Cmd.bindIndexBuffer emptyModel.indicesBuffer :: rest).filter
              Cmd.isBindIndexBuffer).length = 1 :=
  ⟨IsForest.nil _, by decide, by decide, rfl,
    renderSkybox_binds_buffers_once emptyModel Forest.nil 0 0 31 [] (IsForest.nil _)
      (by decide) (by decide)⟩

/-- C9 fails on the code: starting from the member initializers `start = FLT_MAX` and
`end = numeric_limits<float>::min() = 2 ^ (-126)`, an animation whose only input time is 0
gets `start = 0` but `end = 2 ^ (-126)`, which is not the maximum 0 of its input times. -/
theorem accumulateBounds_end_not_maximum :
    zeroKeyAnimation.inputTimes = [0]
    ∧ zeroKeyAnimation.accumulateBounds.start = 0
    ∧ zeroKeyAnimation.accumulateBounds.end_ = 1 / 2 ^ 126
    ∧ zeroKeyAnimation.accumulateBounds.end_ ≠ 0 := by
  refine ⟨rfl, ?_, ?_, ?_⟩ <;>
    norm_num [zeroKeyAnimation, Animation.accumulateBounds, FLT_MAX, FLT_MIN]

theorem fmod_of_pos (x y : ℚ) (hx : 0 ≤ x) (hy : 0 < y) :
    fmod x y = x - y * ⌊x / y⌋ ∧ 0 ≤ fmod x y ∧ fmod x y < y ∧ 0 ≤ ⌊x / y⌋ := by
  have hq : 0 ≤ x / y := div_nonneg hx hy.le
  have hf : fmod x y = x - y * ⌊x / y⌋ := by simp [fmod, hq]
  have h1 : (⌊x / y⌋ : ℚ) ≤ x / y := Int.floor_le _
  have h2 : x / y < ⌊x / y⌋ + 1 := Int.lt_floor_add_one _
  have h3 : y * ⌊x / y⌋ ≤ x := by
    have := mul_le_mul_of_nonneg_left h1 hy.le
    rwa [mul_div_cancel₀ _ hy.ne.symm] at this
  have h4 : x < y * (⌊x / y⌋ + 1) := by
    have := mul_lt_mul_of_pos_left h2 hy
    rwa [mul_div_cancel₀ _ hy.ne.symm] at this
  refine ⟨hf, ?_, ?_, Int.floor_nonneg.mpr hq⟩
  · rw [hf]; linarith
  · rw [hf]; linarith

/-- C10: for an animation with `start < end` and every `deltaTime`, the time step of
`updateAnimation` sets `currentTime` to `currentTime + deltaTime` when this is not greater
than `end`, and otherwise to `start + ((currentTime + deltaTime - start) mod (end - start))`;
the wrapped time lies in `[start, end)` and differs from `currentTime + deltaTime` by a whole
number of periods `end - start`; `start` and `end` are unchanged. -/
theorem updateAnimationTime_wraps (a : Animation) (deltaTime : ℚ) (h : a.start < a.end_) :
    (a.updateAnimationTime deltaTime).currentTime
        = (if a.currentTime + deltaTime > a.end_ then
            a.start + fmod (a.currentTime + deltaTime - a.start) (a.end_ - a.start)
          else a.currentTime + deltaTime)
    ∧ (a.currentTime + deltaTime > a.end_ →
        a.start ≤ (a.updateAnimationTime deltaTime).currentTime
        ∧ (a.updateAnimationTime deltaTime).currentTime < a.end_
        ∧ ∃ k : ℕ, a.currentTime + deltaTime
            = (a.updateAnimationTime deltaTime).currentTime + k * (a.end_ - a.start))
    ∧ (a.updateAnimationTime deltaTime).start = a.start
    ∧ (a.updateAnimationTime deltaTime).end_ = a.end_ := by
  refine ⟨rfl, ?_, rfl, rfl⟩
  intro ht
  have hx : 0 ≤ a.currentTime + deltaTime - a.start := by linarith
  have hy : 0 < a.end_ - a.start := by linarith
  obtain ⟨hf, h0, h1, hk⟩ := fmod_of_pos _ _ hx hy
  have hcur : (a.updateAnimationTime deltaTime).currentTime
      = a.start + fmod (a.currentTime + deltaTime - a.start) (a.end_ - a.start) := by
    simp [Animation.updateAnimationTime, ht]
  rw [hcur]
  refine ⟨by linarith, by linarith, ⌊(a.currentTime + deltaTime - a.start) / (a.end_ - a.start)⌋.toNat, ?_⟩
  have hcast : ((⌊(a.currentTime + deltaTime - a.start) / (a.end_ - a.start)⌋.toNat : ℕ) : ℚ)
      = (⌊(a.currentTime + deltaTime - a.start) / (a.end_ - a.start)⌋ : ℚ) := by
    have := Int.toNat_of_nonneg hk
    exact_mod_cast this
  rw [hcast, hf]
  ring

/-- Witness of C10: with `start = 0` and `end = 2`, the ticks 1, 1 and 1/2, which sum to 2.5,
lead from `currentTime = 0` to `currentTime = 1/2`. -/
theorem updateAnimationTime_wraps_witness :
    ((loopAnimation.updateAnimationTime 1).updateAnimationTime 1).start
      < ((loopAnimation.updateAnimationTime 1).updateAnimationTime 1).end_
    ∧ ([1, 1, 1 / 2].foldl Animation.updateAnimationTime loopAnimation).currentTime = 1 / 2 := by
  have h : ((loopAnimation.updateAnimationTime 1).updateAnimationTime 1).start
      < ((loopAnimation.updateAnimationTime 1).updateAnimationTime 1).end_ := by
    norm_num [loopAnimation, Animation.updateAnimationTime]
  refine ⟨h, ?_⟩
  have h3 := (updateAnimationTime_wraps
    ((loopAnimation.updateAnimationTime 1).updateAnimationTime 1) (1 / 2) h).1
  simp only [List.foldl_cons, List.foldl_nil]
  rw [h3]
  have hfl : ⌊(5 / 4 : ℚ)⌋ = 1 := by
    rw [Int.floor_eq_iff]; norm_num
  norm_num [loopAnimation, Animation.updateAnimationTime, fmod, hfl]

/-- Counterexample of C15: in the binary32 arithmetic of the program, for the
hierarchy of the translations by 16777216, 1 and 1 along the X axis, `Node::getMatrix` of the
grandchild is not `getMatrix(parent) * getLocalMatrix(grandchild)`.  The loop of `getMatrix`
computes `L(root) * (L(child) * L(grandchild))`, whose X translation is
`16777216 + (1 + 1) = 16777218`; the product `getMatrix(child) * L(grandchild)` of a top-down
pass is `(L(root) * L(child)) * L(grandchild)`, whose X translation is
`(16777216 + 1) + 1`, rounded twice to `16777216`. -/
theorem getMatrix_top_down_binary32_counterexample :
    fHierarchy[2]? = some fGrandchild ∧ fGrandchild.parent = some 1
    ∧ ParentChain fHierarchy (some 1) [fRoot, fChild]
    ∧ ∃ m mp : Mat4 ℚ, Arith.binary32.getMatrix 2 fHierarchy 2 = some m
        ∧ Arith.binary32.getMatrix 2 fHierarchy 1 = some mp
        ∧ m 0 3 = 16777218
        ∧ Arith.binary32.matMul mp (Arith.binary32.getLocalMatrix fGrandchild) 0 3 = 16777216
        ∧ m ≠ Arith.binary32.matMul mp (Arith.binary32.getLocalMatrix fGrandchild) := by
  have h0 : ParentChain fHierarchy (some 0) ([] ++ [fRoot]) :=
    ParentChain.step rfl ParentChain.null
  have h1 : ParentChain fHierarchy (some 1) ([fRoot] ++ [fChild]) :=
    ParentChain.step rfl h0
  have e1 : Arith.binary32.matMul (Arith.binary32.getLocalMatrix fRoot)
      (Arith.binary32.matMul (Arith.binary32.getLocalMatrix fChild)
        (Arith.binary32.getLocalMatrix fGrandchild)) 0 3 = 16777218 := by decide!
  have e2 : Arith.binary32.matMul (Arith.binary32.matMul (Arith.binary32.getLocalMatrix fRoot)
      (Arith.binary32.getLocalMatrix fChild)) (Arith.binary32.getLocalMatrix fGrandchild) 0 3
      = 16777216 := by decide!
  refine ⟨rfl, rfl, h1, Arith.binary32.matMul (Arith.binary32.getLocalMatrix fRoot)
      (Arith.binary32.matMul (Arith.binary32.getLocalMatrix fChild)
        (Arith.binary32.getLocalMatrix fGrandchild)),
    Arith.binary32.matMul (Arith.binary32.getLocalMatrix fRoot)
      (Arith.binary32.getLocalMatrix fChild), rfl, rfl, e1, e2, ?_⟩
  intro hEq
  have := congrFun (congrFun hEq 0) 3
  rw [e1, e2] at this
  norm_num at this


/-- C15 as amended: in every arithmetic of the scalars (no law assumed, so also in binary32), a
node without parent has `getMatrix = getLocalMatrix`, a node whose parent `q` has no parent
has `getMatrix c = getMatrix q * getLocalMatrix c`, and a node below the chain of ancestors
`n_0, ..., n_k` (root first) has
`getMatrix c = L(n_0) * (L(n_1) * (... * (L(n_k) * L(c))))`, the products nested from the node
toward the root.  In exact arithmetic, where the embedding over an arithmetic is the
embedding over a ring, a node with parent `q` has `getMatrix c = getMatrix q * getLocalMatrix c`
whatever its depth, and on a tree the top-down refresh, which computes the world matrix of a
node from that of its parent, returns the same mapped memory as `Node::update`. -/
theorem getMatrix_nesting_and_top_down (A : Arith R) (h : Heap R) (p : Option Nat) (i : Nat)
    (anc : List (Node R)) (f : Forest R) (gas fuel : Nat) (mem : Mem R)
    (hc : ParentChain h p anc) (hr : IsForest h p [i] f)
    (hg : anc.length + f.height ≤ gas + 1) (hf : f.height ≤ fuel) :
    (∀ (c : Nat) (n : Node R), h[c]? = some n → n.parent = none →
        A.getMatrix gas h c = some (A.getLocalMatrix n))
    ∧ (∀ (c : Nat) (n : Node R) (q : Nat) (nq : Node R), h[c]? = some n → n.parent = some q →
        h[q]? = some nq → nq.parent = none → 1 ≤ gas →
        ∃ mq, A.getMatrix gas h q = some mq
          ∧ A.getMatrix gas h c = some (A.matMul mq (A.getLocalMatrix n)))
    ∧ (∀ (c : Nat) (n : Node R) (ancc : List (Node R)), h[c]? = some n →
        ParentChain h n.parent ancc → ancc.length ≤ gas →
        A.getMatrix gas h c
          = some ((ancc.map A.getLocalMatrix).foldr A.matMul (A.getLocalMatrix n)))
    ∧ (∀ c : Nat, (Arith.exact R).getMatrix gas h c = getMatrix gas h c)
    ∧ (∀ c n q ancq, h[c]? = some n → n.parent = some q → ParentChain h (some q) ancq →
        ancq.length ≤ gas →
        ∃ mq, getMatrix gas h q = some mq ∧ getMatrix gas h c = some (mq * n.getLocalMatrix))
    ∧ ∃ mem1 : Mem R, update gas h fuel mem i = some mem1
        ∧ refreshTopDown h fuel (anc.map Node.getLocalMatrix).prod mem i = some mem1 := by
  refine ⟨?_, ?_, ?_, ?_, ?_, ?_⟩
  · intro c n hcn hpn
    have := arith_getMatrix_of_chain A h c n [] hcn (by rw [hpn]; exact ParentChain.null) gas
      (by simp)
    simpa using this
  · intro c n q nq hcn hpn hqn hqp hgas
    have hq0 : ParentChain h nq.parent [] := by rw [hqp]; exact ParentChain.null
    have hq1 : ParentChain h (some q) ([] ++ [nq]) := ParentChain.step hqn hq0
    have h1 := arith_getMatrix_of_chain A h q nq [] hqn hq0 gas (by simp)
    have h2 := arith_getMatrix_of_chain A h c n ([] ++ [nq]) hcn (by rw [hpn]; exact hq1) gas
      (by simpa using hgas)
    refine ⟨A.getLocalMatrix nq, by simpa using h1, by simpa using h2⟩
  · intro c n ancc hcn hch hlen
    exact arith_getMatrix_of_chain A h c n ancc hcn hch gas hlen
  · intro c
    exact exact_getMatrix_eq gas h c
  · intro c n q ancq hcn hpn hq hlen
    obtain ⟨nq, ancp, rfl, hqn, hqp⟩ := parentChain_last h q ancq hq
    have h1 := getMatrix_of_chain h q nq ancp hqn hqp gas
      (by simp only [List.length_append, List.length_singleton] at hlen; omega)
    have h2 := getMatrix_of_chain h c n (ancp ++ [nq]) hcn (by rw [hpn]; exact hq) gas hlen
    refine ⟨_, h1, ?_⟩
    rw [h2]
    simp
  · have h1 := update_forest_eq h p [i] f hr anc gas fuel mem hc hg hf
    have h2 := refresh_forest_eq h p [i] f hr (anc.map Node.getLocalMatrix).prod fuel mem hf
    simp only [List.foldlM_cons, List.foldlM_nil] at h1 h2
    refine ⟨f.write (anc.map Node.getLocalMatrix).prod mem, ?_, ?_⟩
    · cases hu : update gas h fuel mem i with
      | none => simp [hu] at h1
      | some m => simpa [hu] using h1
    · cases hu : refreshTopDown h fuel (anc.map Node.getLocalMatrix).prod mem i with
      | none => simp [hu] at h2
      | some m => simpa [hu] using h2

/-- Witness of C15: the scene of three sibling mesh nodes below a mesh-less root, in binary32
for the first sibling and its parent, and refreshed in exact arithmetic from the root with
the identity as the world matrix above it. -/
theorem getMatrix_nesting_and_top_down_witness :
    ParentChain siblings none []
    ∧ IsForest siblings none [0] siblingsForest
    ∧ ([] : List (Node ℚ)).length + siblingsForest.height ≤ 1 + 1
    ∧ siblingsForest.height ≤ 2
    ∧ (∃ mq, Arith.binary32.getMatrix 1 siblings 0 = some mq
        ∧ Arith.binary32.getMatrix 1 siblings 1
            = some (Arith.binary32.matMul mq (Arith.binary32.getLocalMatrix sA)))
    ∧ (∃ mq, getMatrix 1 siblings 0 = some mq
        ∧ getMatrix 1 siblings 1 = some (mq * sA.getLocalMatrix))
    ∧ ∃ mem1 : Mem ℚ, update 1 siblings 2 (fun _ => 0) 0 = some mem1
        ∧ refreshTopDown siblings 2 1 (fun _ => 0) 0 = some mem1 := by
  have hw := getMatrix_nesting_and_top_down Arith.binary32 siblings none 0 [] siblingsForest 1 2
    (fun _ => 0) ParentChain.null siblings_isForest (by decide) (by decide)
  have hroot : ParentChain siblings (some 0) ([] ++ [sRoot]) :=
    ParentChain.step rfl ParentChain.null
  refine ⟨ParentChain.null, siblings_isForest, by decide, by decide, ?_, ?_, ?_⟩
  · exact hw.2.1 1 sA 0 sRoot rfl rfl rfl rfl (by decide)
  · exact hw.2.2.2.2.1 1 sA 0 _ rfl rfl hroot (by decide)
  · simpa using hw.2.2.2.2.2

/-- C16: for a model whose root pointers unfold to the forest `f`, `renderSkybox` returns, and
in the commands it appends every indexed draw is paired with the most recent push before it
as follows: the draws are those of the nodes of `f` in traversal order, each carrying the
push of the world matrix of its own node, and this world matrix is `getMatrix` of the
node. -/
theorem renderSkybox_draw_uses_own_push (model : Model R) (f : Forest R)
    (gas fuel layout : Nat) (cb : List (Cmd R))
    (hr : IsForest model.heap none model.nodes f) (hg : f.height ≤ gas + 1)
    (hf : f.height ≤ fuel) :
    ∃ new : List (Cmd R), renderSkybox gas fuel model cb layout = some (cb ++ new)
      ∧ drawsWithLastPush none new
          = (f.worldsAt 1).flatMap (fun e => (nodeDraws e.2.2).map (fun d => (some e.2.1, d)))
      ∧ ∀ e ∈ f.worldsAt 1,
          model.heap[e.1]? = some e.2.2 ∧ getMatrix gas model.heap e.1 = some e.2.1 := by
  refine ⟨_, renderSkybox_eq model f gas fuel layout cb hr hg hf, ?_, ?_⟩
  · obtain ⟨cur1, h1⟩ := Forest.cmds_lastPush layout f 1 none []
    simp only [List.append_nil] at h1
    simp only [drawsWithLastPush]
    rw [h1]
    simp [drawsWithLastPush]
  · have := worldsAt_getMatrix model.heap none model.nodes f hr [] gas ParentChain.null
      (by simpa using hg)
    simpa using this

/-- Witness of C16: the scene of three sibling mesh nodes; the six draws carry the world
matrices of their own nodes. -/
theorem renderSkybox_draw_uses_own_push_witness :
    IsForest siblingsModel.heap none siblingsModel.nodes siblingsForest
    ∧ siblingsForest.height ≤ 1 + 1
    ∧ siblingsForest.height ≤ 2
    ∧ ∃ new : List (Cmd ℚ), renderSkybox 1 2 siblingsModel [] 31 = some ([] ++ new)
      ∧ drawsWithLastPush none new
          = [(some (1 * sRoot.getLocalMatrix * sA.getLocalMatrix), Cmd.drawIndexed 3 1 0 0 0),
             (some (1 * sRoot.getLocalMatrix * sA.getLocalMatrix), Cmd.drawIndexed 3 1 3 0 0),
             (some (1 * sRoot.getLocalMatrix * sB.getLocalMatrix), Cmd.drawIndexed 6 1 6 0 0),
             (some (1 * sRoot.getLocalMatrix * sB.getLocalMatrix), Cmd.drawIndexed 3 1 12 0 0),
             (some (1 * sRoot.getLocalMatrix * sC.getLocalMatrix), Cmd.drawIndexed 3 1 15 0 0),
             (some (1 * sRoot.getLocalMatrix * sC.getLocalMatrix), Cmd.drawIndexed 9 1 18 0 0)]
      ∧ getMatrix 1 siblings 1 = some (1 * sRoot.getLocalMatrix * sA.getLocalMatrix) := by
  obtain ⟨new, h1, h2, h3⟩ := renderSkybox_draw_uses_own_push siblingsModel siblingsForest 1 2 31
    [] siblings_isForest (by decide) (by decide)
  refine ⟨siblings_isForest, by decide, by decide, new, h1, ?_, ?_⟩
  · rw [h2]
    rfl
  · exact (h3 (1, 1 * sRoot.getLocalMatrix * sA.getLocalMatrix, sA)
      (by simp [siblingsForest, Forest.worldsAt])).2

/-- C17: the declared defaults of `translation`, `scale` and `rotation` of a `Node` are
neutral: for a node whose three fields have their default values,
`translate(translation) * mat4(rotation) * scale(scale)` is the identity matrix and
`getLocalMatrix` returns the field `matrix`. -/
theorem getLocalMatrix_of_default_trs (n : Node R) (ctorInit : Bool)
    (ht : n.translation = Node.translationDefault) (hs : n.scale = Node.scaleDefault)
    (hq : n.rotation = Node.rotationDefault ctorInit) :
    glm.translate 1 n.translation * glm.mat4_cast n.rotation * glm.scale 1 n.scale = 1
    ∧ n.getLocalMatrix = n.matrix := by
  have hrot : glm.mat4_cast n.rotation = 1 := by
    rw [hq]
    cases ctorInit
    · simpa [Node.rotationDefault] using (glm.mat4_cast_zero : glm.mat4_cast (⟨0, 0, 0, 0⟩ : Quat R) = 1)
    · simpa [Node.rotationDefault] using
        (glm.mat4_cast_identity : glm.mat4_cast (⟨1, 0, 0, 0⟩ : Quat R) = 1)
  have ht2 : glm.translate (1 : Mat4 R) n.translation = 1 := by
    rw [ht]; exact glm.translate_zero
  have hs2 : glm.scale (1 : Mat4 R) n.scale = 1 := by
    rw [hs]; exact glm.scale_one
  constructor
  · rw [ht2, hrot, hs2]; simp
  · simp [Node.getLocalMatrix, ht2, hrot, hs2]

/-- C18: for a node whose chain of parent pointers ends at a root, with `ns` the nodes of the
chain (root first, the node last), `Node::getMatrix` returns as soon as the bound allows
`ns.length - 1` iterations, it multiplies exactly `ns.length - 1` ancestor matrices onto the
local matrix of the node (none for a root), and a smaller bound does not suffice. -/
theorem getMatrix_cost_is_depth (h : Heap R) (i : Nat) (ns : List (Node R)) (gas : Nat)
    (hc : ParentChain h (some i) ns) :
    (ns.length ≤ gas + 1 →
      getMatrixCount gas h i = some ((ns.map Node.getLocalMatrix).prod, ns.length - 1))
    ∧ (gas + 1 < ns.length → getMatrix gas h i = none)
    ∧ (getMatrixCount gas h i).map Prod.fst = getMatrix gas h i
    ∧ (∀ n, h[i]? = some n → n.parent = none →
        getMatrixCount gas h i = some (n.getLocalMatrix, 0)) := by
  obtain ⟨n, anc, rfl, hi, hp⟩ := parentChain_last h i ns hc
  refine ⟨?_, ?_, ?_, ?_⟩
  · intro hg
    simp only [getMatrixCount, hi]
    rw [getMatrixLoopCount_eq h n.parent anc hp gas _ 0 (by simpa using hg)]
    simp
  · intro hg
    simp only [getMatrix, hi]
    exact getMatrixLoop_none h n.parent anc hp gas _ (by simpa using hg)
  · simp only [getMatrixCount, getMatrix, hi]
    exact getMatrixLoopCount_fst h gas _ 0 _
  · intro m hm hpm
    have : m = n := by
      rw [hi] at hm
      exact (Option.some.inj hm).symm
    subst this
    simp only [getMatrixCount, hi, hpm]
    cases gas <;> simp [getMatrixLoopCount]

/-- Witness of C17: a node with an explicit matrix and default translation, scale and
(zero) rotation. -/
theorem getLocalMatrix_of_default_trs_witness :
    defaultTrsNode.translation = Node.translationDefault
    ∧ defaultTrsNode.scale = Node.scaleDefault
    ∧ defaultTrsNode.rotation = Node.rotationDefault false
    ∧ defaultTrsNode.getLocalMatrix = rotateY90 :=
  ⟨rfl, rfl, rfl, (getLocalMatrix_of_default_trs defaultTrsNode false rfl rfl rfl).2⟩

/-- Witness of C18: the grandchild of the three-level hierarchy has two ancestors; its world
matrix takes two products, and a bound of one iteration is not enough. -/
theorem getMatrix_cost_is_depth_witness :
    ParentChain hierarchy3 (some 2) [hRoot, hChild, hGrandchild]
    ∧ getMatrixCount 2 hierarchy3 2
        = some (([hRoot, hChild, hGrandchild].map Node.getLocalMatrix).prod, 2)
    ∧ getMatrix 0 hierarchy3 2 = none := by
  have h0 : ParentChain hierarchy3 (some 0) ([] ++ [hRoot]) :=
    ParentChain.step rfl ParentChain.null
  have h1 : ParentChain hierarchy3 (some 1) ([hRoot] ++ [hChild]) := ParentChain.step rfl h0
  have hc : ParentChain hierarchy3 (some 2) ([hRoot, hChild] ++ [hGrandchild]) :=
    ParentChain.step rfl h1
  exact ⟨hc,
    (getMatrix_cost_is_depth hierarchy3 2 [hRoot, hChild, hGrandchild] 2 hc).1 (by decide),
    (getMatrix_cost_is_depth hierarchy3 2 [hRoot, hChild, hGrandchild] 0 hc).2.1 (by decide)⟩

/-- C11: in the spherical blend of a LINEAR rotation channel, if the dot product of the two
quaternions is negative the second one is negated before the blend; hence the blend of a unit
quaternion `q` with its antipode `-q` is `q` itself for every blend factor `u`, it has the
rotation matrix of `q`, and a rotation channel whose two keyframes are `q` and `-q` writes
`q` into the target node at every time between them. -/
theorem slerp_antipode_same_rotation (arc : Quat ℚ → Quat ℚ → ℚ → ℚ → Quat ℚ) (eps : ℚ)
    (q : Quat ℚ) (u : ℚ) (heps : 0 < eps) (hq : Quat.dot q q = 1) :
    (∀ x y : Quat ℚ, Quat.dot x y < 0 →
        glm.slerp arc eps x y u
          = glm.slerpBlend arc eps x (Quat.neg y) (Quat.dot x (Quat.neg y)) u)
    ∧ glm.slerp arc eps q (Quat.neg q) u = q
    ∧ glm.mat4_cast (glm.slerp arc eps q (Quat.neg q) u) = glm.mat4_cast q
    ∧ ∀ (h : Heap ℚ) (a : Animation) (c : AnimationChannel) (s : AnimationSampler)
        (target : Nat) (n : Node ℚ) (t0 t1 : ℚ) (v1 v2 : Vec4 ℚ),
        a.samplers[c.samplerIndex]? = some s → c.node = some target → h[target]? = some n →
        c.path = "rotation" → s.inputs = [t0, t1] → s.outputsVec4 = [v1, v2] →
        v1.toQuat = q → v2.toQuat = Quat.neg q → t0 ≤ a.currentTime → a.currentTime ≤ t1 →
        (applyLinearChannel arc eps h a c)[target]? = some { n with rotation := q } := by
  have hneg : ∀ w : ℚ, glm.slerp arc eps q (Quat.neg q) w = q := by
    intro w
    have hd : Quat.dot q (Quat.neg q) < 0 := by rw [Quat.dot_neg, hq]; norm_num
    simp only [glm.slerp, hd, if_true, Quat.neg_neg, Quat.dot_neg, hq, neg_neg]
    exact slerpBlend_self arc eps q w heps
  refine ⟨?_, hneg u, by rw [hneg u], ?_⟩
  · intro x y hxy
    simp [glm.slerp, hxy, Quat.dot_neg]
  · intro h a c s target n t0 t1 v1 v2 hs hc hn hp hin hout hv1 hv2 h0 h1
    have hnot : ¬ a.currentTime < t0 := not_lt.mpr h0
    have hkeys : s.keys a.currentTime
        = some (v1, v2, (a.currentTime - t0) / (t1 - t0)) := by
      simp [AnimationSampler.keys, hin, hout, hnot, bracket, h0, h1]
    simp only [applyLinearChannel, hs, hc, hn, hkeys, hp]
    simp only [String.reduceEq, if_false, if_true, hv1, hv2, hneg]
    exact heap_set_get h target n _ hn

/-- Witness of C11: the half turn about X, `q = (w, x, y, z) = (0, 1, 0, 0)`, blended with
its antipode at `u = 1/3`. -/
theorem slerp_antipode_same_rotation_witness :
    (0 : ℚ) < 1 / 1000
    ∧ Quat.dot ⟨0, 1, 0, 0⟩ ⟨0, 1, 0, 0⟩ = 1
    ∧ glm.slerp (fun x _ _ _ => x) (1 / 1000) ⟨0, 1, 0, 0⟩ (Quat.neg ⟨0, 1, 0, 0⟩) (1 / 3)
        = ⟨0, 1, 0, 0⟩ :=
  ⟨by norm_num, by norm_num [Quat.dot],
    (slerp_antipode_same_rotation (fun x _ _ _ => x) (1 / 1000) ⟨0, 1, 0, 0⟩ (1 / 3)
      (by norm_num) (by norm_num [Quat.dot])).2.1⟩

/-- C12: for a LINEAR channel whose sampler has strictly increasing input times and whose
current time lies in the keyframe interval `[t_i, t_{i+1}]`, the value written into the
translation (for the path translation) or the scale (for the path scale) of the target node
is the blend `(1 - u) * output[i] + u * output[i+1]`, component by component, with
`u = (currentTime - t_i) / (t_{i+1} - t_i)`. -/
theorem linear_channel_writes_blend (arc : Quat ℚ → Quat ℚ → ℚ → ℚ → Quat ℚ) (eps : ℚ)
    (h : Heap ℚ) (a : Animation) (c : AnimationChannel) (s : AnimationSampler) (target : Nat)
    (n : Node ℚ) (i : Nat) (ti tj : ℚ) (v1 v2 : Vec4 ℚ)
    (hs : a.samplers[c.samplerIndex]? = some s) (hc : c.node = some target)
    (hn : h[target]? = some n) (hsorted : s.inputs.Pairwise (· < ·))
    (hi : s.inputs[i]? = some ti) (hj : s.inputs[i + 1]? = some tj)
    (ho1 : s.outputsVec4[i]? = some v1) (ho2 : s.outputsVec4[i + 1]? = some v2)
    (h1 : ti ≤ a.currentTime) (h2 : a.currentTime ≤ tj) :
    (c.path = "translation" →
      (applyLinearChannel arc eps h a c)[target]?
        = some { n with translation :=
            ⟨(1 - (a.currentTime - ti) / (tj - ti)) * v1.x
                + (a.currentTime - ti) / (tj - ti) * v2.x,
              (1 - (a.currentTime - ti) / (tj - ti)) * v1.y
                + (a.currentTime - ti) / (tj - ti) * v2.y,
              (1 - (a.currentTime - ti) / (tj - ti)) * v1.z
                + (a.currentTime - ti) / (tj - ti) * v2.z⟩ })
    ∧ (c.path = "scale" →
      (applyLinearChannel arc eps h a c)[target]?
        = some { n with scale :=
            ⟨(1 - (a.currentTime - ti) / (tj - ti)) * v1.x
                + (a.currentTime - ti) / (tj - ti) * v2.x,
              (1 - (a.currentTime - ti) / (tj - ti)) * v1.y
                + (a.currentTime - ti) / (tj - ti) * v2.y,
              (1 - (a.currentTime - ti) / (tj - ti)) * v1.z
                + (a.currentTime - ti) / (tj - ti) * v2.z⟩ }) := by
  obtain ⟨w1, w2, u, hk, hm⟩ := keys_mix s a.currentTime i ti tj v1 v2 hsorted hi hj ho1 ho2
    h1 h2
  have hxyz : (glm.mix4 w1 w2 u).xyz
      = ⟨(1 - (a.currentTime - ti) / (tj - ti)) * v1.x
            + (a.currentTime - ti) / (tj - ti) * v2.x,
          (1 - (a.currentTime - ti) / (tj - ti)) * v1.y
            + (a.currentTime - ti) / (tj - ti) * v2.y,
          (1 - (a.currentTime - ti) / (tj - ti)) * v1.z
            + (a.currentTime - ti) / (tj - ti) * v2.z⟩ := by
    rw [hm]
    simp only [glm.mix4, glm.mix, Vec4.xyz, Vec3.mk.injEq]
    refine ⟨by ring, by ring, by ring⟩
  constructor
  · intro hp
    simp only [applyLinearChannel, hs, hc, hn, hk, hp, if_true, hxyz]
    exact heap_set_get h target n _ hn
  · intro hp
    simp only [applyLinearChannel, hs, hc, hn, hk, hp, String.reduceEq, if_false, if_true,
      hxyz]
    exact heap_set_get h target n _ hn

/-- Witness of C12: at `u = 1/2` between the keyframe values 0 and 10 the translation written
is 5 in every component. -/
theorem linear_channel_writes_blend_witness :
    blendAnimation.samplers[blendChannel.samplerIndex]? = some blendSampler
    ∧ blendSampler.inputs.Pairwise (· < ·)
    ∧ ((applyLinearChannel (fun x _ _ _ => x) (1 / 1000) [plainNode none 0 [] none]
          blendAnimation blendChannel)[0]?).map
        (fun n => (n.translation.x, n.translation.y, n.translation.z)) = some (5, 5, 5) := by
  have hsorted : blendSampler.inputs.Pairwise (· < ·) := by
    simp [blendSampler]
  have hw := (linear_channel_writes_blend (fun x _ _ _ => x) (1 / 1000)
    [plainNode none 0 [] none] blendAnimation blendChannel blendSampler 0
    (plainNode none 0 [] none) 0 0 2 ⟨0, 0, 0, 0⟩ ⟨10, 10, 10, 0⟩ rfl rfl rfl hsorted rfl rfl
    rfl rfl (by norm_num [blendAnimation]) (by norm_num [blendAnimation])).1 rfl
  refine ⟨rfl, hsorted, ?_⟩
  rw [hw]
  norm_num [blendAnimation]

/-- Counterexample of C19: in a call of `render` while not paused (camera not updated, frame
timer 1/60) the steps are `renderFrame` and then `updateAnimation`: the animation tick comes
after the draw submission of the frame, not before it. -/
theorem render_tick_before_draw_counterexample :
    render false false (1 / 60) = [FrameStep.renderFrame, FrameStep.updateAnimation (1 / 60)]
    ∧ (render false false (1 / 60)).indexOf FrameStep.renderFrame
        < (render false false (1 / 60)).indexOf (FrameStep.updateAnimation (1 / 60)) := by
  constructor
  · rfl
  · simp [render, List.indexOf_cons]

/-- C19 as amended: every call of `render` performs `renderFrame` first and exactly once; when
not paused the animation tick `updateAnimation` is its last step, after `renderFrame`, and
when paused there is no tick; hence in two consecutive frames the tick of the first frame
directly precedes the draw submission of the second. -/
theorem render_draws_then_ticks (cameraUpdated paused : Bool) (frameTimer : ℚ) :
    (∃ rest, render cameraUpdated paused frameTimer = FrameStep.renderFrame :: rest
      ∧ FrameStep.renderFrame ∉ rest
      ∧ (paused = false → rest.getLast? = some (FrameStep.updateAnimation frameTimer))
      ∧ (paused = true → ∀ dt, FrameStep.updateAnimation dt ∉ rest))
    ∧ ∀ (cameraUpdated2 paused2 : Bool) (frameTimer2 : ℚ), paused = false →
        ∃ pre post,
          render cameraUpdated paused frameTimer ++ render cameraUpdated2 paused2 frameTimer2
            = pre ++ [FrameStep.updateAnimation frameTimer, FrameStep.renderFrame] ++ post := by
  constructor
  · refine ⟨(if cameraUpdated then [FrameStep.updateUniformBuffers] else [])
      ++ (if !paused then [FrameStep.updateAnimation frameTimer] else []), rfl, ?_, ?_, ?_⟩
    · cases cameraUpdated <;> cases paused <;> simp
    · intro hp; subst hp; cases cameraUpdated <;> simp
    · intro hp dt; subst hp; cases cameraUpdated <;> simp
  · intro c2 p2 t2 hp
    subst hp
    refine ⟨[FrameStep.renderFrame] ++ (if cameraUpdated then [FrameStep.updateUniformBuffers]
        else []),
      (if c2 then [FrameStep.updateUniformBuffers] else [])
        ++ (if !p2 then [FrameStep.updateAnimation t2] else []), ?_⟩
    simp [render]

/-- Witness of C19 as amended: two consecutive frames, not paused. -/
theorem render_draws_then_ticks_witness :
    ∃ pre post,
      render false false (1 / 60) ++ render true false (1 / 30)
        = pre ++ [FrameStep.updateAnimation (1 / 60), FrameStep.renderFrame] ++ post :=
  (render_draws_then_ticks false false (1 / 60)).2 true false (1 / 30) rfl

/-- C20: when, for every material, each of the four texture slot indices is below
`textures.size()` and the image index of the referenced texture lies in `[0, images.size())`,
the loop over the materials of `setupDescriptors` makes no lookup out of range (it returns),
and for every material it writes exactly four image bindings 0, 1, 2, 3 of the descriptor set
of the material, carrying in this order the images of the base color, normal, ambient
occlusion and metallic-roughness slots. -/
theorem setupDescriptors_material_bindings {α : Type} (images : List α)
    (textures : List Texture) (materials : List Material)
    (hvalid : ∀ m ∈ materials,
      SlotInRange images textures m.baseColorTextureIndex
      ∧ SlotInRange images textures m.normalTextureIndex
      ∧ SlotInRange images textures m.aoTextureIndex
      ∧ SlotInRange images textures m.metallicRoughnessTextureIndex) :
    ∃ ws, setupMaterialDescriptors images textures materials = some ws
      ∧ ws.length = materials.length
      ∧ ∀ (k : Nat) (m : Material), materials[k]? = some m →
          ∃ d0 d1 d2 d3,
            SlotImage images textures m.baseColorTextureIndex d0
            ∧ SlotImage images textures m.normalTextureIndex d1
            ∧ SlotImage images textures m.aoTextureIndex d2
            ∧ SlotImage images textures m.metallicRoughnessTextureIndex d3
            ∧ ws[k]? = some [⟨m.descriptorSet, 0, 1, d0⟩, ⟨m.descriptorSet, 1, 1, d1⟩,
                ⟨m.descriptorSet, 2, 1, d2⟩, ⟨m.descriptorSet, 3, 1, d3⟩] := by
  have hone : ∀ m ∈ materials, ∃ d0 d1 d2 d3,
      SlotImage images textures m.baseColorTextureIndex d0
      ∧ SlotImage images textures m.normalTextureIndex d1
      ∧ SlotImage images textures m.aoTextureIndex d2
      ∧ SlotImage images textures m.metallicRoughnessTextureIndex d3
      ∧ materialWrites images textures m
          = some [⟨m.descriptorSet, 0, 1, d0⟩, ⟨m.descriptorSet, 1, 1, d1⟩,
              ⟨m.descriptorSet, 2, 1, d2⟩, ⟨m.descriptorSet, 3, 1, d3⟩] := by
    intro m hm
    obtain ⟨h0, h1, h2, h3⟩ := hvalid m hm
    obtain ⟨d0, e0, s0⟩ := textureImage_of_inRange images textures _ h0
    obtain ⟨d1, e1, s1⟩ := textureImage_of_inRange images textures _ h1
    obtain ⟨d2, e2, s2⟩ := textureImage_of_inRange images textures _ h2
    obtain ⟨d3, e3, s3⟩ := textureImage_of_inRange images textures _ h3
    refine ⟨d0, d1, d2, d3, s0, s1, s2, s3, ?_⟩
    simp [materialWrites, imageDescriptors, e0, e1, e2, e3, List.enum, List.enumFrom]
  obtain ⟨ws, hw, hlen, hget⟩ := mapM_eq_some_of_forall
    (fun m => materialWrites images textures m) materials
    (fun m hm => by
      obtain ⟨d0, d1, d2, d3, _, _, _, _, h⟩ := hone m hm
      exact ⟨_, h⟩)
  refine ⟨ws, hw, hlen, ?_⟩
  intro k m hk
  obtain ⟨d0, d1, d2, d3, s0, s1, s2, s3, h⟩ := hone m (List.getElem?_mem hk)
  obtain ⟨b, hb, hbk⟩ := hget k m hk
  refine ⟨d0, d1, d2, d3, s0, s1, s2, s3, ?_⟩
  rw [hbk]
  simp only [h] at hb
  rw [← Option.some.inj hb]

/-- C14: for every material of the input document, after `loadMaterials` each of the four
texture slot indices is the declared index when the slot is present and the configured
default index when it is absent; the load is total, it yields one material for each input
material. -/
theorem loadMaterials_resolves_slots (defaultIndex : Nat) (input : List GltfMaterial) :
    (loadMaterials defaultIndex input).length = input.length
    ∧ ∀ (k : Nat) (gm : GltfMaterial), input[k]? = some gm →
        ∃ m, (loadMaterials defaultIndex input)[k]? = some m
          ∧ m.baseColorTextureIndex
              = (match gm.baseColorTexture with | some i => i | none => defaultIndex)
          ∧ m.normalTextureIndex
              = (match gm.normalTexture with | some i => i | none => defaultIndex)
          ∧ m.aoTextureIndex
              = (match gm.occlusionTexture with | some i => i | none => defaultIndex)
          ∧ m.metallicRoughnessTextureIndex
              = (match gm.metallicRoughnessTexture with | some i => i | none => defaultIndex) := by
  refine ⟨by simp [loadMaterials], ?_⟩
  intro k gm hk
  refine ⟨loadMaterial defaultIndex gm, by simp [loadMaterials, hk], ?_, ?_, ?_, ?_⟩
  · cases hx : gm.baseColorTexture <;> simp [loadMaterial, hx]
  · cases hx : gm.normalTexture <;> simp [loadMaterial, hx]
  · cases hx : gm.occlusionTexture <;> simp [loadMaterial, hx]
  · cases hx : gm.metallicRoughnessTexture <;> simp [loadMaterial, hx]

/-- Witness of C20: one material over three textures and two images. -/
theorem setupDescriptors_material_bindings_witness :
    (∀ m ∈ [sampleMaterial],
      SlotInRange sampleImages sampleTextures m.baseColorTextureIndex
      ∧ SlotInRange sampleImages sampleTextures m.normalTextureIndex
      ∧ SlotInRange sampleImages sampleTextures m.aoTextureIndex
      ∧ SlotInRange sampleImages sampleTextures m.metallicRoughnessTextureIndex)
    ∧ setupMaterialDescriptors sampleImages sampleTextures [sampleMaterial]
        = some [[⟨90, 0, 1, 70⟩, ⟨90, 1, 1, 71⟩, ⟨90, 2, 1, 70⟩, ⟨90, 3, 1, 71⟩]]
    ∧ ∃ ws, setupMaterialDescriptors sampleImages sampleTextures [sampleMaterial] = some ws
        ∧ ws.length = 1 := by
  have hvalid : ∀ m ∈ [sampleMaterial],
      SlotInRange sampleImages sampleTextures m.baseColorTextureIndex
      ∧ SlotInRange sampleImages sampleTextures m.normalTextureIndex
      ∧ SlotInRange sampleImages sampleTextures m.aoTextureIndex
      ∧ SlotInRange sampleImages sampleTextures m.metallicRoughnessTextureIndex := by
    intro m hm
    rw [List.mem_singleton] at hm
    subst hm
    exact ⟨⟨⟨0⟩, rfl, by decide, by decide⟩, ⟨⟨1⟩, rfl, by decide, by decide⟩,
      ⟨⟨0⟩, rfl, by decide, by decide⟩, ⟨⟨1⟩, rfl, by decide, by decide⟩⟩
  obtain ⟨ws, h1, h2, _⟩ :=
    setupDescriptors_material_bindings sampleImages sampleTextures [sampleMaterial] hvalid
  exact ⟨hvalid, rfl, ws, h1, h2⟩

/-- Witness of C14: a material without occlusion and metallic-roughness texture resolves
these two slots to the default index 7. -/
theorem loadMaterials_resolves_slots_witness :
    ∃ m, (loadMaterials 7 [sampleGltfMaterial])[0]? = some m
      ∧ m.baseColorTextureIndex = 4 ∧ m.normalTextureIndex = 2 ∧ m.aoTextureIndex = 7
      ∧ m.metallicRoughnessTextureIndex = 7 :=
  (loadMaterials_resolves_slots 7 [sampleGltfMaterial]).2 0 sampleGltfMaterial rfl

/-- C13: for a valid children-index description (the scene nodes unfold to a finite shape `t`
in which every node index occurs once), the load returns an arena `H` and a root list such
that: `H` holds exactly one node per declared node; the children of a loaded node are, in
order, the nodes loaded for its declared children; every child `c` listed by a node `a`
occurs once in that list and has the parent pointer `a`; every node with parent pointer `p`
occurs exactly once in the children of `p`; no node is a child of two nodes; and a node has
no parent if and only if it is a declared root. -/
theorem loadScene_hierarchy (input : List GltfNode) (sceneNodes : List Nat) (t : Shape)
    (fuel : Nat) (hdoc : DocForest input sceneNodes t) (hvalid : t.indices.Nodup)
    (hfuel : t.height ≤ fuel) :
    ∃ (H : Heap ℚ) (roots : List Nat), loadScene input fuel sceneNodes = some (H, roots)
      ∧ H.map Node.index = t.indices
      ∧ (H.map Node.index).Nodup
      ∧ roots.map (fun c => (H[c]?).map Node.index) = sceneNodes.map some
      ∧ (∀ (a : Nat) (n : Node ℚ) (gn : GltfNode), H[a]? = some n →
          input[n.index]? = some gn →
          n.children.map (fun c => (H[c]?).map Node.index) = gn.children.map some)
      ∧ (∀ (a : Nat) (n : Node ℚ) (c : Nat), H[a]? = some n → c ∈ n.children →
          n.children.count c = 1 ∧ ∃ m, H[c]? = some m ∧ m.parent = some a)
      ∧ (∀ (c : Nat) (m : Node ℚ) (p : Nat), H[c]? = some m → m.parent = some p →
          ∃ n, H[p]? = some n ∧ n.children.count c = 1)
      ∧ (∀ (a b : Nat) (na nb : Node ℚ) (c : Nat), H[a]? = some na → H[b]? = some nb →
          c ∈ na.children → c ∈ nb.children → a = b)
      ∧ (∀ (a : Nat) (n : Node ℚ), H[a]? = some n →
          (n.parent = none ↔ n.index ∈ sceneNodes)) := by
  have hload : loadScene input fuel sceneNodes
      = some (layout 0 none t, rootAddrs 0 t) := by
    have := loadNodes_eq input sceneNodes t hdoc fuel [] [] none hfuel
      (by intro p hp; cases hp)
    simpa [loadScene, pushTo] using this
  have hF : IsForest (layout 0 none t) none (rootAddrs 0 t) (forestOf 0 none t) := by
    simpa using isForest_layout t 0 none [] [] rfl
  have hmem : ∀ (a : Nat) (n : Node ℚ),
      (a, n) ∈ (forestOf 0 none t).nodes ↔ (layout 0 none t)[a]? = some n := by
    intro a n
    rw [forestOf_nodes]
    exact List.mk_mem_enum_iff_getElem?
  have hnd : ((forestOf 0 none t).nodes.map Prod.fst).Nodup := by
    rw [forestOf_nodes]
    have : List.map Prod.fst (List.enumFrom 0 (layout 0 none t))
        = List.range (layout 0 none t).length := List.enum_map_fst _
    rw [this]
    exact List.nodup_range _
  have hidx : (layout 0 none t).map Node.index = t.indices := layout_indices t 0 none
  have hroots : (rootAddrs 0 t).map (fun c => ((layout 0 none t)[c]?).map Node.index)
      = sceneNodes.map some := by
    simpa using rootAddrs_indices input sceneNodes t hdoc 0 none [] [] rfl
  have hchild : ∀ (a : Nat) (n : Node ℚ) (c : Nat), (layout 0 none t)[a]? = some n →
      c ∈ n.children →
      n.children.count c = 1 ∧ ∃ m, (layout 0 none t)[c]? = some m ∧ m.parent = some a := by
    intro a n c ha hc
    have he := (hmem a n).mpr ha
    obtain ⟨m, hm, hmp⟩ := IsForest.children_mem _ _ _ _ hF (a, n) he c hc
    exact ⟨List.count_eq_one_of_mem (IsForest.children_nodup _ _ _ _ hF hnd (a, n) he) hc,
      m, (hmem c m).mp hm, hmp⟩
  refine ⟨layout 0 none t, rootAddrs 0 t, hload, hidx, by rw [hidx]; exact hvalid, hroots,
    ?_, hchild, ?_, ?_, ?_⟩
  · intro a n gn ha hgn
    obtain ⟨gn2, h1, h2⟩ := layout_children_mirror input sceneNodes t hdoc 0 none [] [] rfl n
      (List.getElem?_mem ha)
    rw [hgn] at h1
    cases h1
    simpa using h2
  · intro c m p hc hmp
    rcases IsForest.parent_cases _ _ _ _ hF (c, m) ((hmem c m).mpr hc) with
      ⟨h1, _⟩ | ⟨e2, he2, h1, h2⟩
    · simp only [] at h1
      rw [hmp] at h1
      cases h1
    · simp only [] at h1 h2
      rw [hmp] at h1
      cases h1
      have hp2 := (hmem e2.1 e2.2).mp he2
      exact ⟨e2.2, hp2, (hchild e2.1 e2.2 c hp2 h2).1⟩
  · intro a b na nb c ha hb hca hcb
    obtain ⟨_, m1, hm1, hp1⟩ := hchild a na c ha hca
    obtain ⟨_, m2, hm2, hp2⟩ := hchild b nb c hb hcb
    rw [hm1] at hm2
    cases hm2
    rw [hp1] at hp2
    exact Option.some.inj hp2
  · intro a n ha
    constructor
    · intro hpn
      rcases IsForest.parent_cases _ _ _ _ hF (a, n) ((hmem a n).mpr ha) with
        ⟨_, h2⟩ | ⟨e2, _, h1, _⟩
      · simp only [] at h2
        have : some n.index ∈ (rootAddrs 0 t).map
            (fun c => ((layout 0 none t)[c]?).map Node.index) :=
          List.mem_map.mpr ⟨a, h2, by simp [ha]⟩
        rw [hroots] at this
        simpa using this
      · simp only [] at h1
        rw [hpn] at h1
        cases h1
    · intro hin
      have : some n.index ∈ sceneNodes.map some := List.mem_map.mpr ⟨n.index, hin, rfl⟩
      rw [← hroots] at this
      obtain ⟨r, hr, hrn⟩ := List.mem_map.mp this
      cases hrm : (layout 0 none t)[r]? with
      | none => simp [hrm] at hrn
      | some m =>
        simp only [hrm, Option.map_some', Option.some.injEq] at hrn
        have hra : r = a := by
          have hlr : r < (layout 0 none t).length := by
            by_contra hc
            rw [List.getElem?_eq_none (not_lt.mp hc)] at hrm
            exact Option.noConfusion hrm
          have hla : a < (layout 0 none t).length := by
            by_contra hc
            rw [List.getElem?_eq_none (not_lt.mp hc)] at ha
            exact Option.noConfusion ha
          have hnd2 : ((layout 0 none t).map Node.index).Nodup := by rw [hidx]; exact hvalid
          have e1 : (layout 0 none t)[r] = m := by
            rw [List.getElem?_eq_getElem hlr] at hrm
            exact Option.some.inj hrm
          have e2 : (layout 0 none t)[a] = n := by
            rw [List.getElem?_eq_getElem hla] at ha
            exact Option.some.inj ha
          have hr2 : r < ((layout 0 none t).map Node.index).length := by simpa using hlr
          have ha2 : a < ((layout 0 none t).map Node.index).length := by simpa using hla
          have : ((layout 0 none t).map Node.index)[r]
              = ((layout 0 none t).map Node.index)[a] := by
            simp [e1, e2, hrn]
          exact (List.Nodup.getElem_inj_iff hnd2).mp this
        subst hra
        obtain ⟨m2, hm2, hp2⟩ := IsForest.roots_mem _ _ _ _ hF r hr
        have := (hmem r m2).mp hm2
        rw [ha] at this
        cases this
        exact hp2

/-- Witness of C13: a document of five nodes with the roots 0 and 4; the loaded nodes, given
by index, parent pointer and children, are those declared. -/
theorem loadScene_hierarchy_witness :
    DocForest sampleDocument [0, 4] sampleShape
    ∧ sampleShape.indices.Nodup
    ∧ sampleShape.height ≤ 3
    ∧ (loadScene sampleDocument 3 [0, 4]).map
          (fun s => (s.1.map (fun n => (n.index, n.parent, n.children)), s.2))
        = some ([(0, none, [1, 2]), (1, some 0, []), (2, some 0, [3]), (3, some 2, []),
            (4, none, [])], [0, 4])
    ∧ ∃ (H : Heap ℚ) (roots : List Nat), loadScene sampleDocument 3 [0, 4] = some (H, roots)
        ∧ H.map Node.index = sampleShape.indices := by
  obtain ⟨H, roots, h1, h2, _⟩ := loadScene_hierarchy sampleDocument [0, 4] sampleShape 3
    sampleDocument_docForest (by decide) (by decide)
  exact ⟨sampleDocument_docForest, by decide, by decide, by rfl, H, roots, h1, h2⟩

/-- C21: on a tree, `Node::update` called on the node at `i` returns and changes nothing but
the mapped uniform buffers of the mesh-bearing nodes of the subtree: the arena of nodes is
the same afterwards, the memory is the one obtained by writing the world matrices of the
mesh-bearing nodes of the subtree, every address that is not the mapped buffer of such a node
keeps its content, and so does the uniform buffer of every node whose buffer is none of
these. -/
theorem update_changes_only_subtree_buffers (w : World R) (p : Option Nat) (i : Nat)
    (anc : List (Node R)) (f : Forest R) (gas fuel : Nat) (hc : ParentChain w.heap p anc)
    (hr : IsForest w.heap p [i] f) (hg : anc.length + f.height ≤ gas + 1)
    (hf : f.height ≤ fuel) :
    ∃ w1 : World R, updateWorld gas fuel w i = some w1
      ∧ w1.heap = w.heap
      ∧ w1.mem = f.write (anc.map Node.getLocalMatrix).prod w.mem
      ∧ (∀ a, a ∉ f.addrs → w1.mem a = w.mem a)
      ∧ (∀ a, a ∈ f.addrs ↔ ∃ e ∈ f.nodes, ∃ mesh, e.2.mesh = some mesh ∧ mesh.mapped = a)
      ∧ (∀ (o : Nat) (n : Node R) (mesh : Mesh), w.heap[o]? = some n → n.mesh = some mesh →
          mesh.mapped ∉ f.addrs → w1.mem mesh.mapped = w.mem mesh.mapped) := by
  obtain ⟨mem1, h1, h2, _⟩ := update_forest w.heap p [i] f hr anc gas fuel w.mem hc hg hf
  have h3 := update_forest_eq w.heap p [i] f hr anc gas fuel w.mem hc hg hf
  simp only [List.foldlM_cons, List.foldlM_nil] at h1 h3
  have hu : update gas w.heap fuel w.mem i = some mem1 := by
    cases hu : update gas w.heap fuel w.mem i with
    | none => simp [hu] at h1
    | some m => simpa [hu] using h1
  have hw : mem1 = f.write (anc.map Node.getLocalMatrix).prod w.mem := by
    rw [hu] at h3
    simpa using h3
  refine ⟨⟨w.heap, mem1⟩, by simp [updateWorld, hu], rfl, hw, h2,
    Forest.mem_addrs_iff f, ?_⟩
  intro o n mesh _ _ hno
  exact h2 _ hno

/-- Witness of C21: the update of the first of three sibling mesh nodes writes its own
buffer at 100 and leaves the arena and the buffers at 101 and 102 of its siblings as they
were. -/
theorem update_changes_only_subtree_buffers_witness :
    ParentChain siblings (some 0) [sRoot]
    ∧ IsForest siblings (some 0) [1] (Forest.cons 1 sA Forest.nil Forest.nil)
    ∧ ∃ w1 : World ℚ, updateWorld 1 1 ⟨siblings, fun _ => 0⟩ 1 = some w1
        ∧ w1.heap = siblings ∧ w1.mem 101 = 0 ∧ w1.mem 102 = 0 := by
  have hc : ParentChain siblings (some 0) ([] ++ [sRoot]) :=
    ParentChain.step rfl ParentChain.null
  have hr : IsForest siblings (some 0) [1] (Forest.cons 1 sA Forest.nil Forest.nil) :=
    IsForest.cons rfl rfl (IsForest.nil _) (IsForest.nil _)
  obtain ⟨w1, h1, h2, _, h4, _⟩ := update_changes_only_subtree_buffers
    (⟨siblings, fun _ => 0⟩ : World ℚ) (some 0) 1 [sRoot]
    (Forest.cons 1 sA Forest.nil Forest.nil) 1 1 hc hr (by decide) (by decide)
  exact ⟨hc, hr, w1, h1, h2, h4 101 (by decide), h4 102 (by decide)⟩

/-- C22 fails on the code: for a model of two mesh-bearing nodes (both listed in
`linearNodes`), one image and 200 materials, `meshCount` is 2 and the pool is created with
`maxSetCount = 1 + 1 + 2 + 200 = 204`, while `setupDescriptors` allocates
`2 + 1 + 200 + 1 + 1 = 205` descriptor sets from it. -/
theorem setupDescriptors_allocates_beyond_maxSetCount :
    meshCount pushModel.heap [0, 1] = some 2
    ∧ maxSetCount 1 2 = 204
    ∧ setupDescriptors_allocated 1 pushModel.heap pushModel.nodes 200 = some 205
    ∧ maxSetCount 1 2 < 205 := by
  refine ⟨rfl, rfl, rfl, by decide⟩

/-- C23: `None` is 0; the four options are non-zero and pairwise bit-disjoint; for every list
of options, the mask obtained by combining them with `|` contains the bit of an option if
and only if the option is in the list; hence two lists with the same mask contain the same
options. -/
theorem fileLoadingFlags_masks :
    FileLoadingFlags.None.value = 0
    ∧ (∀ o : FileLoadingFlags, o ≠ FileLoadingFlags.None → o.value ≠ 0)
    ∧ (∀ o q : FileLoadingFlags, o ≠ q → o.value &&& q.value = 0)
    ∧ (∀ (options : List FileLoadingFlags) (o : FileLoadingFlags),
        o ≠ FileLoadingFlags.None →
        (FileLoadingFlags.mask options &&& o.value ≠ 0 ↔ o ∈ options))
    ∧ (∀ (s1 s2 : List FileLoadingFlags), FileLoadingFlags.mask s1 = FileLoadingFlags.mask s2 →
        ∀ o : FileLoadingFlags, o ≠ FileLoadingFlags.None → (o ∈ s1 ↔ o ∈ s2)) := by
  have hmem : ∀ (options : List FileLoadingFlags) (o : FileLoadingFlags),
      o ≠ FileLoadingFlags.None →
      (FileLoadingFlags.mask options &&& o.value ≠ 0 ↔ o ∈ options) := by
    intro options o ho
    unfold FileLoadingFlags.mask
    rw [FileLoadingFlags.mask_foldl]
    constructor
    · rintro (h | ⟨q, hq, hqo⟩)
      · simp at h
      · rw [(FileLoadingFlags.value_and q o ho).mp hqo] at hq
        exact hq
    · intro h
      exact Or.inr ⟨o, h, (FileLoadingFlags.value_and o o ho).mpr rfl⟩
  refine ⟨rfl, ?_, ?_, hmem, ?_⟩
  · intro o ho
    cases o <;> simp_all [FileLoadingFlags.value]
  · intro o q hoq
    cases o <;> cases q <;> simp_all [FileLoadingFlags.value] <;> decide
  · intro s1 s2 h o ho
    rw [← hmem s1 o ho, ← hmem s2 o ho, h]

end claims

end VulkanglTFModel
